import Mathlib

/-!
# Hybrid edge / KLT model-based tracker: the fused pose-refinement loop

A shallow embedding of `vpMbEdgeKltTracker.cpp` (ViSP, module `mbt`, hybrid tracker):
`initMbtTracking`, `trackFirstLoop`, `trackSecondLoop`, `computeVVS`, `postTrackingMbt`,
`postTracking` and `track`.

Conventions of the embedding.

* `double` values are exact rationals (`ℚ`); rounding, infinities and NaN are not modelled,
  except for the mean weights of `postTrackingMbt`, whose sum and division are rounded as
  `double` operations (`doubleAdd`, `doubleDiv`) because a flag is decided from them.
  The square root is a collaborator (`Collaborators.sqrtRatio`).  Apart from those means, the
  statements below are about control flow, row counts, and which products are formed, not
  about rounding.
* `unsigned int` counters are natural numbers; the row counts of a frame are far below `2^32`,
  so wrap-around is not modelled.
* `vpColVector` is a list of scalars, `vpMatrix` a list of rows.  An unchecked access outside a
  vector (`operator[]` on `vpColVector`, dereferencing the end of a `std::list`, a NULL moving-edge
  pointer) is undefined behaviour in C++ and is reported as `Err.undefinedBehaviour`.
* C++ exceptions are values of `Err`.
* Everything that lives outside this translation unit (pose algebra, exponential map, robust
  estimator, linear solve, per-primitive interaction matrices) is a parameter: either a field of
  the primitive it belongs to, or a field of `Collaborators`; the calls into the two parent
  trackers made by `track` and `postTracking` are fields of `FrameCollaborators`.
-/

namespace VpMbEdgeKltTracker

/-! ## Data model -/

/-- Exceptions that can leave the functions of this file. -/
inductive Err where
  /-- Raised as `vpException::dimensionError` ("lvl not used."). -/
  | dimensionError
  /-- Raised as `vpTrackingException::notEnoughPointError` ("not enough data"). -/
  | notEnoughPointError
  /-- Raised as `vpTrackingException::fatalError`, "Cannot compute interaction matrix". -/
  | fatalInteractionMatrix
  /-- Raised as `vpTrackingException::fatalError`, "Optimization diverged". -/
  | fatalDiverged
  /-- An exception thrown by a collaborator and not caught in this file. -/
  | collaborator
  /-- The constructor of a `vpSubColVector` / `vpSubMatrix` view refused a block that does not
  fit in its parent. -/
  | subViewError
  /-- Undefined behaviour of the C++ program (unchecked out-of-range access). -/
  | undefinedBehaviour
  deriving DecidableEq, Repr

/-- Modelled from the spec: the scalar state of a contour site (`vpMeSite::vpMeSiteState` is
declared outside this file).  `NO_SUPPRESSION` is the normal state, `M_ESTIMATOR` the
outlier-by-estimator state, `SUPPRESSED` stands for every other suppression cause. -/
inductive MeSiteState where
  | NO_SUPPRESSION
  | SUPPRESSED
  | M_ESTIMATOR
  deriving DecidableEq, Repr

/-- A sampled contour site (`vpMeSite`); only its state is read or written here. -/
structure MeSite where
  state : MeSiteState
  deriving DecidableEq, Repr

/-- One row of an interaction matrix (6 columns). -/
abbrev Row := List ℚ

/-- A column vector (`vpColVector`). -/
abbrev ColVector := List ℚ

/-- A matrix given by its rows (`vpMatrix`). -/
abbrev VpMatrix := List Row

/-- Optimisation method selector (`vpMbTracker::vpMbtOptimizationMethod`). -/
inductive OptimizationMethod where
  | GAUSS_NEWTON_OPT
  | LEVENBERG_MARQUARDT_OPT
  deriving DecidableEq, Repr

/-- A tracked line (`vpMbtDistanceLine`).  `meline[a] = none` is a NULL pointer, otherwise the
site list `getMeList()` of that moving-edge line.  `L cMo i` and `error cMo i` are row `i` of the
member `L` and entry `i` of the member `error` after `computeInteractionMatrixError(cMo)`. -/
structure DistanceLine (Pose : Type) where
  isVisible : Bool
  isTracked : Bool
  nbFeature : List Nat
  nbFeatureTotal : Nat
  meline : List (Option (List MeSite))
  Lindex_polygon : List Int
  /-- Result of `hiddenface->isAppearing((unsigned int)index)`. -/
  isAppearing : Int → Bool
  /-- Result of `closeToImageBorder(I, 10)`. -/
  closeToImageBorder : Bool
  L : Pose → Nat → Row
  error : Pose → Nat → ℚ
  Reinit : Bool
  meanWeight : ℚ

/-- A tracked cylinder (`vpMbtDistanceCylinder`) with its two limb lines. -/
structure DistanceCylinder (Pose : Type) where
  isVisible : Bool
  isTracked : Bool
  nbFeature : Nat
  nbFeaturel1 : Nat
  nbFeaturel2 : Nat
  meline1 : Option (List MeSite)
  meline2 : Option (List MeSite)
  L : Pose → Nat → Row
  error : Pose → Nat → ℚ
  Reinit : Bool
  meanWeight1 : ℚ
  meanWeight2 : ℚ

/-- A tracked circle (`vpMbtDistanceCircle`). -/
structure DistanceCircle (Pose : Type) where
  isVisible : Bool
  isTracked : Bool
  nbFeature : Nat
  meEllipse : Option (List MeSite)
  L : Pose → Nat → Row
  error : Pose → Nat → ℚ
  Reinit : Bool
  meanWeight : ℚ

/-- A point-correspondence group on a planar patch (`vpMbtDistanceKltPoints`).
`interaction ctTc0` is the outcome of `computeHomography(ctTc0, H)` followed by
`computeInteractionMatrixAndResidu(subR, subL)`: `none` when one of them throws, otherwise the
interaction row and residual written at each row of the block. -/
structure KltPoints (Pose : Type) where
  polygonVisible : Bool
  isTracked : Bool
  hasEnoughPoints : Bool
  currentNumberPoints : Nat
  interaction : Pose → Option (Nat → Row × ℚ)

/-- A point-correspondence group on a cylinder (`vpMbtDistanceKltCylinder`).
`interaction ctTc0` is the outcome of `computeInteractionMatrixAndResidu(ctTc0, subR, subL)`. -/
structure KltCylinder (Pose : Type) where
  isTracked : Bool
  hasEnoughPoints : Bool
  currentNumberPoints : Nat
  interaction : Pose → Option (Nat → Row × ℚ)

/-- The part of the tracker object that `computeVVS` only reads: the primitives per pyramid level
(`lines[lvl]`, `cylinders[lvl]`, `circles[lvl]`), the point groups and the configuration. -/
structure Tracker (Pose : Type) where
  scales : List Bool
  lines : Nat → List (DistanceLine Pose)
  cylinders : Nat → List (DistanceCylinder Pose)
  circles : Nat → List (DistanceCircle Pose)
  kltPolygons : List (KltPoints Pose)
  kltCylinders : List (KltCylinder Pose)
  maxIter : Nat
  lambda : ℚ
  thresholdMBT : ℚ
  thresholdKLT : ℚ
  /-- Horizontal focal length in pixels, `cam.get_px()`. -/
  px : ℚ
  compute_interaction : Bool
  computeCovariance : Bool
  isoJoIdentity : Bool
  m_optimizationMethod : OptimizationMethod

/-- The members written by `computeVVS` (`cMo`, `ctTc0`, `m_error`, `m_w`, `covarianceMatrix`),
the member `c0Mo` it reads, and its two in/out weight arguments `w_mbt`, `w_klt`. -/
structure Members (Pose : Type) where
  cMo : Pose
  ctTc0 : Pose
  c0Mo : Pose
  m_error : ColVector
  m_w : ColVector
  covarianceMatrix : VpMatrix
  w_mbt : ColVector
  w_klt : ColVector

/-- The members together with the local variables of `computeVVS` that live across iterations. -/
structure LoopState (Pose : Type) extends Members Pose where
  nbrow : Nat
  nbInfos : Nat
  factor : ColVector
  residu : ℚ
  residu_1 : ℚ
  iter : Nat
  L_mbt : VpMatrix
  R_mbt : ColVector
  L_klt : VpMatrix
  R_klt : ColVector
  L_true : VpMatrix
  LVJ_true : VpMatrix
  w_true : ColVector
  v : ColVector
  factorMBT : ℚ
  factorKLT : ℚ
  residuMBT : ℚ
  residuKLT : ℚ
  cMoPrev : Pose
  ctTc0_Prev : Pose
  m_error_prev : ColVector
  m_w_prev : ColVector
  mu : ℚ

/-- Functions of other translation units used by `computeVVS`. -/
structure Collaborators (Pose : Type) where
  /-- Product of two homogeneous matrices. -/
  mul : Pose → Pose → Pose
  /-- A default-constructed `vpHomogeneousMatrix` (the identity). -/
  identity : Pose
  /-- The exponential map `vpExponentialMap::direct`. -/
  expDirect : ColVector → Pose
  /-- The inverse `vpHomogeneousMatrix::inverse`. -/
  inverse : Pose → Pose
  /-- Tukey M-estimator of `robust_mbt` (`setIteration`, `setThreshold`, `MEstimator`): from
  the iteration index, the threshold and the residual vector to the weight it writes at each row
  index.  The estimator object is used once per iteration, so what it remembers from earlier
  calls is a function of the iteration index. -/
  MEstimator_mbt : Nat → ℚ → ColVector → Nat → ℚ
  /-- Tukey M-estimator of `robust_klt`. -/
  MEstimator_klt : Nat → ℚ → ColVector → Nat → ℚ
  /-- The value `sqrt(num/den)`. -/
  sqrtRatio : ℚ → ℚ → ℚ
  /-- The damped normal-equation solve `-lambda * pseudoInverse(JtJ + mu I) * JtR`
  (`some mu` for Levenberg-Marquardt, `none` for Gauss-Newton): damping, gain, `J`, `R`. -/
  normalEquations : Option ℚ → ℚ → VpMatrix → ColVector → ColVector
  /-- The product `cVo * v` with `cVo.buildFrom(cMo)`. -/
  twist : Pose → ColVector → ColVector
  /-- The product `L * cVo * oJo` with `cVo.buildFrom(cMo)`. -/
  LVJ : Pose → VpMatrix → VpMatrix
  /-- The covariance `vpMatrix::computeCovarianceMatrixVVS(cMoPrev, m_error, L, diag(w_true))`. -/
  covariance : Pose → ColVector → VpMatrix → ColVector → VpMatrix

/-- How a call ends: it returns (with the final loop state), or an exception leaves it (with the
members as they are at that moment). -/
inductive Outcome (Pose : Type) where
  | returned (s : LoopState Pose)
  | raised (e : Err) (m : Members Pose)

variable {Pose : Type}

/-! ## Row-count pass and attenuation pass -/

/-- The test `lvl >= scales.size() || !scales[lvl]`. -/
def lvlNotUsed (scales : List Bool) (lvl : Nat) : Bool :=
  decide (scales.length ≤ lvl) || !(scales.getD lvl false)

/-- Row-count pass `initMbtTracking`: the features of the primitives that are visible and
tracked, lines first, then cylinders, then circles. -/
def initMbtTracking (t : Tracker Pose) (lvl : Nat) : Except Err Nat :=
  if lvlNotUsed t.scales lvl then .error .dimensionError
  else
    let nbrow := (t.lines lvl).foldl
      (fun nbrow l => if l.isVisible && l.isTracked then nbrow + l.nbFeatureTotal else nbrow) 0
    let nbrow := (t.cylinders lvl).foldl
      (fun nbrow cy => if cy.isVisible && cy.isTracked then nbrow + cy.nbFeature else nbrow) nbrow
    let nbrow := (t.circles lvl).foldl
      (fun nbrow ci => if ci.isVisible && ci.isTracked then nbrow + ci.nbFeature else nbrow) nbrow
    .ok nbrow

/-- The factor of a line before its sites are looked at: the loop over `Lindex_polygon` with its
two `break`s. -/
def lineFac (l : DistanceLine Pose) : List Int → ℚ
  | [] => 1
  | index :: rest =>
    if l.isAppearing index then 0.2
    else if l.closeToImageBorder then 0.1
    else lineFac l rest

/-- The innermost loop of the attenuation pass over `count` sites starting at site `i`:
`factor[n+i] = fac; site = *it; if (site.getState() != NO_SUPPRESSION) factor[n+i] = 0.2; ++it`.
`site i` is the site the iterator points to at step `i`, `none` when it cannot be dereferenced. -/
def factorSites (fac : ℚ) (site : Nat → Option MeSite) (n : Nat) :
    Nat → Nat → ColVector → Except Err ColVector
  | 0, _, factor => .ok factor
  | count + 1, i, factor =>
    if n + i < factor.length then
      match site i with
      | none => .error .undefinedBehaviour
      | some s =>
        factorSites fac site n count (i + 1)
          (factor.set (n + i) (if s.state ≠ MeSiteState.NO_SUPPRESSION then 0.2 else fac))
    else .error .undefinedBehaviour

/-- The loop over the moving-edge lines `meline[a]` of one line, `a` counting upwards. -/
def factorMelines (fac : ℚ) (nbFeature : List Nat) :
    List (Option (List MeSite)) → Nat → Nat → ColVector → Except Err (Nat × ColVector)
  | [], _, n, factor => .ok (n, factor)
  | none :: rest, a, n, factor => factorMelines fac nbFeature rest (a + 1) n factor
  | some sites :: rest, a, n, factor =>
    match nbFeature.get? a with
    | none => .error .undefinedBehaviour
    | some nb =>
      match factorSites fac (fun i => sites.get? i) n nb 0 factor with
      | .error e => .error e
      | .ok factor1 => factorMelines fac nbFeature rest (a + 1) (n + nb) factor1

/-- The loop of the attenuation pass over the lines of a level. -/
def factorLines : List (DistanceLine Pose) → Nat → ColVector → Except Err (Nat × ColVector)
  | [], n, factor => .ok (n, factor)
  | l :: rest, n, factor =>
    if l.isTracked then
      match factorMelines (lineFac l l.Lindex_polygon) l.nbFeature l.meline 0 n factor with
      | .error e => .error e
      | .ok (n1, factor1) => factorLines rest n1 factor1
    else factorLines rest n factor

/-- The two site iterators of a cylinder.  The outer `none` is the dereference of a NULL limb
(`meline1 != NULL || meline2 != NULL` holds and one of them is NULL); with both limbs NULL the
iterators stay singular and no site can be read. -/
def cylinderSites (cy : DistanceCylinder Pose) : Option (Nat → Option MeSite) :=
  match cy.meline1, cy.meline2 with
  | none, none => some (fun _ => none)
  | some l1, some l2 =>
    some (fun i => if i < cy.nbFeaturel1 then l1.get? i else l2.get? (i - cy.nbFeaturel1))
  | _, _ => none

/-- The loop of the attenuation pass over the cylinders of a level. -/
def factorCylinders : List (DistanceCylinder Pose) → Nat → ColVector → Except Err (Nat × ColVector)
  | [], n, factor => .ok (n, factor)
  | cy :: rest, n, factor =>
    if cy.isTracked then
      match cylinderSites cy with
      | none => .error .undefinedBehaviour
      | some site =>
        match factorSites 1 site n cy.nbFeature 0 factor with
        | .error e => .error e
        | .ok factor1 => factorCylinders rest (n + cy.nbFeature) factor1
    else factorCylinders rest n factor

/-- The loop of the attenuation pass over the circles of a level. -/
def factorCircles : List (DistanceCircle Pose) → Nat → ColVector → Except Err (Nat × ColVector)
  | [], n, factor => .ok (n, factor)
  | ci :: rest, n, factor =>
    if ci.isTracked then
      match factorSites 1 (fun i => (ci.meEllipse.getD []).get? i) n ci.nbFeature 0 factor with
      | .error e => .error e
      | .ok factor1 => factorCircles rest (n + ci.nbFeature) factor1
    else factorCircles rest n factor

/-- Attenuation pass `trackFirstLoop`: returns the contour row count and the argument `factor`
(resized to the row count and filled, or untouched when the row count is 0).  The calls
`computeInteractionMatrixError(cMo)` only refresh the buffers of the primitives. -/
def trackFirstLoop (t : Tracker Pose) (factor : ColVector) (lvl : Nat) :
    Except Err (Nat × ColVector) :=
  if lvlNotUsed t.scales lvl then .error .dimensionError
  else
    match initMbtTracking t lvl with
    | .error e => .error e
    | .ok nbrow =>
      if nbrow = 0 then .ok (nbrow, factor)
      else
        match factorLines (t.lines lvl) 0 (List.replicate nbrow 1) with
        | .error e => .error e
        | .ok (n1, factor1) =>
          match factorCylinders (t.cylinders lvl) n1 factor1 with
          | .error e => .error e
          | .ok (n2, factor2) =>
            match factorCircles (t.circles lvl) n2 factor2 with
            | .error e => .error e
            | .ok (_, factor3) => .ok (nbrow, factor3)

/-! ## Fill pass -/

/-- The copy loop of the fill pass for one primitive with `count` features at row offset `n`:
`L[n+i][j] = prim->L[i][j]; error[n+i] = prim->error[i]` for `i < count`.  Writing outside
`L` or `error` is undefined behaviour. -/
def copyRows (rowL : Nat → Row) (rowE : Nat → ℚ) (count n : Nat) (L : VpMatrix)
    (error : ColVector) : Except Err (VpMatrix × ColVector) :=
  if count = 0 then .ok (L, error)
  else if n + count ≤ L.length ∧ n + count ≤ error.length then
    .ok (L.take n ++ (List.range count).map rowL ++ L.drop (n + count),
         error.take n ++ (List.range count).map rowE ++ error.drop (n + count))
  else .error .undefinedBehaviour

/-- The loop of the fill pass over the lines of a level. -/
def secondLoopLines (cMo_ : Pose) :
    List (DistanceLine Pose) → Nat → VpMatrix → ColVector → Except Err (Nat × VpMatrix × ColVector)
  | [], n, L, error => .ok (n, L, error)
  | l :: rest, n, L, error =>
    if l.isTracked then
      match copyRows (l.L cMo_) (l.error cMo_) l.nbFeatureTotal n L error with
      | .error e => .error e
      | .ok (L1, error1) => secondLoopLines cMo_ rest (n + l.nbFeatureTotal) L1 error1
    else secondLoopLines cMo_ rest n L error

/-- The loop of the fill pass over the cylinders of a level. -/
def secondLoopCylinders (cMo_ : Pose) :
    List (DistanceCylinder Pose) → Nat → VpMatrix → ColVector →
      Except Err (Nat × VpMatrix × ColVector)
  | [], n, L, error => .ok (n, L, error)
  | cy :: rest, n, L, error =>
    if cy.isTracked then
      match copyRows (cy.L cMo_) (cy.error cMo_) cy.nbFeature n L error with
      | .error e => .error e
      | .ok (L1, error1) => secondLoopCylinders cMo_ rest (n + cy.nbFeature) L1 error1
    else secondLoopCylinders cMo_ rest n L error

/-- The loop of the fill pass over the circles of a level. -/
def secondLoopCircles (cMo_ : Pose) :
    List (DistanceCircle Pose) → Nat → VpMatrix → ColVector →
      Except Err (Nat × VpMatrix × ColVector)
  | [], n, L, error => .ok (n, L, error)
  | ci :: rest, n, L, error =>
    if ci.isTracked then
      match copyRows (ci.L cMo_) (ci.error cMo_) ci.nbFeature n L error with
      | .error e => .error e
      | .ok (L1, error1) => secondLoopCircles cMo_ rest (n + ci.nbFeature) L1 error1
    else secondLoopCircles cMo_ rest n L error

/-- Fill pass `trackSecondLoop`: the interaction matrix and residual of every tracked primitive,
recomputed at `cMo_`, are copied into `L` and `error` at consecutive row offsets. -/
def trackSecondLoop (t : Tracker Pose) (L : VpMatrix) (error : ColVector) (cMo_ : Pose)
    (lvl : Nat) : Except Err (VpMatrix × ColVector) :=
  match secondLoopLines cMo_ (t.lines lvl) 0 L error with
  | .error e => .error e
  | .ok (n1, L1, error1) =>
    match secondLoopCylinders cMo_ (t.cylinders lvl) n1 L1 error1 with
    | .error e => .error e
    | .ok (n2, L2, error2) =>
      match secondLoopCircles cMo_ (t.circles lvl) n2 L2 error2 with
      | .error e => .error e
      | .ok (_, L3, error3) => .ok (L3, error3)

/-- One point group in the point-modality fill of `computeVVS`: the views `subR` and `subL` of
`2 * nbPoints` rows at offset `shift` are created (this fails when they do not fit), then the
group writes its interaction matrix and residual through them.  `onThrow` is the exception that
leaves `computeVVS` when the group throws. -/
def kltBlock (onThrow : Err) (interaction : Option (Nat → Row × ℚ)) (nbPoints shift : Nat)
    (L_klt : VpMatrix) (R_klt : ColVector) : Except Err (VpMatrix × ColVector) :=
  if shift + 2 * nbPoints ≤ R_klt.length ∧ shift + 2 * nbPoints ≤ L_klt.length then
    match interaction with
    | none => .error onThrow
    | some f =>
      .ok (L_klt.take shift ++ (List.range (2 * nbPoints)).map (fun i => (f i).1)
             ++ L_klt.drop (shift + 2 * nbPoints),
           R_klt.take shift ++ (List.range (2 * nbPoints)).map (fun i => (f i).2)
             ++ R_klt.drop (shift + 2 * nbPoints))
  else .error .subViewError

/-- The loop over `kltPolygons`; an exception of a planar group is not caught. -/
def kltFillPolygons (ctTc0 : Pose) :
    List (KltPoints Pose) → Nat → VpMatrix → ColVector → Except Err (Nat × VpMatrix × ColVector)
  | [], shift, L_klt, R_klt => .ok (shift, L_klt, R_klt)
  | kltpoly :: rest, shift, L_klt, R_klt =>
    if kltpoly.polygonVisible && kltpoly.isTracked && kltpoly.hasEnoughPoints then
      match kltBlock .collaborator (kltpoly.interaction ctTc0) kltpoly.currentNumberPoints shift
          L_klt R_klt with
      | .error e => .error e
      | .ok (L1, R1) =>
        kltFillPolygons ctTc0 rest (shift + 2 * kltpoly.currentNumberPoints) L1 R1
    else kltFillPolygons ctTc0 rest shift L_klt R_klt

/-- The loop over `kltCylinders`; an exception of a cylinder group is caught and replaced by the
fatal error "Cannot compute interaction matrix". -/
def kltFillCylinders (ctTc0 : Pose) :
    List (KltCylinder Pose) → Nat → VpMatrix → ColVector → Except Err (Nat × VpMatrix × ColVector)
  | [], shift, L_klt, R_klt => .ok (shift, L_klt, R_klt)
  | kltPolyCylinder :: rest, shift, L_klt, R_klt =>
    if kltPolyCylinder.isTracked && kltPolyCylinder.hasEnoughPoints then
      match kltBlock .fatalInteractionMatrix (kltPolyCylinder.interaction ctTc0)
          kltPolyCylinder.currentNumberPoints shift L_klt R_klt with
      | .error e => .error e
      | .ok (L1, R1) =>
        kltFillCylinders ctTc0 rest (shift + 2 * kltPolyCylinder.currentNumberPoints) L1 R1
    else kltFillCylinders ctTc0 rest shift L_klt R_klt

/-- The point-modality fill of one iteration (the body of `if(nbInfos >= 4)`). -/
def kltFill (t : Tracker Pose) (ctTc0 : Pose) (L_klt : VpMatrix) (R_klt : ColVector) :
    Except Err (VpMatrix × ColVector) :=
  match kltFillPolygons ctTc0 t.kltPolygons 0 L_klt R_klt with
  | .error e => .error e
  | .ok (shift, L1, R1) =>
    match kltFillCylinders ctTc0 t.kltCylinders shift L1 R1 with
    | .error e => .error e
    | .ok (_, L2, R2) => .ok (L2, R2)

/-! ## The fused loop `computeVVS` -/

/-- The sum of squares `vpColVector::sumSquare`. -/
def sumSquare (x : ColVector) : ℚ := (x.map (fun r => r * r)).sum

/-- The conversion `(int) x` of a `double`: truncation toward zero.  A value outside the range
of `int` (undefined in C++) is not given a special treatment. -/
def truncToInt (x : ℚ) : ℤ := Int.tdiv x.num (x.den : ℤ)

/-- The modality shares `(factorMBT, factorKLT)` computed before the loop from the contour row
count (after its reset to 0 when below 4) and the point count. -/
def modalityShares (nbrow nbInfos : Nat) : ℚ × ℚ :=
  (if nbInfos < 4 then 1 else 0.35, if nbrow < 4 then 1 else 0.65)

/-- An in-place loop `for (i = 0; i < n; i++) x[i] = f i` on a vector; writing outside the
vector is undefined behaviour. -/
def overwritePrefix (x : ColVector) (n : Nat) (f : Nat → ℚ) : Except Err ColVector :=
  if n ≤ x.length then .ok ((List.range n).map f ++ x.drop n) else .error .undefinedBehaviour

/-- The condition of the `while` loop: `((int)((residu - residu_1)*1e8) != 0) && (iter < maxIter)`. -/
def loopCond (t : Tracker Pose) (s : LoopState Pose) : Bool :=
  decide (truncToInt ((s.residu - s.residu_1) * 100000000) ≠ 0) && decide (s.iter < t.maxIter)

/-- The Levenberg-Marquardt test that rejects the last step:
`iter != 0 && m_optimizationMethod == LEVENBERG_MARQUARDT_OPT` and
`m_error.sumSquare()/(2*nbInfos + nbrow) > m_error_prev.sumSquare()/(2*nbInfos + nbrow)`.
The divisor is at least 4 in every state of a call that passed the minimum-data test. -/
def rejected (t : Tracker Pose) (s : LoopState Pose) : Bool :=
  decide (s.iter ≠ 0) &&
  decide (t.m_optimizationMethod = OptimizationMethod.LEVENBERG_MARQUARDT_OPT) &&
  decide (sumSquare s.m_error / ((2 * s.nbInfos + s.nbrow : Nat) : ℚ)
            > sumSquare s.m_error_prev / ((2 * s.nbInfos + s.nbrow : Nat) : ℚ))

/-- The buffer allocation done in the first iteration (`if(iter == 0)`). -/
def allocateWeights (s : LoopState Pose) : LoopState Pose :=
  if s.iter = 0 then
    { s with
      m_w := List.replicate (s.nbrow + 2 * s.nbInfos) 1
      w_mbt := if s.nbrow ≠ 0 then List.replicate s.nbrow 1 else s.w_mbt
      w_klt := if s.nbInfos ≠ 0 then List.replicate (2 * s.nbInfos) 1 else s.w_klt
      w_true := List.replicate (s.nbrow + 2 * s.nbInfos) 0 }
  else s

/-- The robust-estimation block of an accepted iteration: the M-estimator of each modality with
more than 3 rows rewrites the weights of that modality in place. -/
def robustWeights (env : Collaborators Pose) (t : Tracker Pose) (s : LoopState Pose) :
    Except Err (LoopState Pose) :=
  match (if 3 < s.nbrow then
          overwritePrefix s.w_mbt s.R_mbt.length
            (env.MEstimator_mbt s.iter (t.thresholdMBT / t.px) s.R_mbt)
        else .ok s.w_mbt) with
  | .error e => .error e
  | .ok w_mbt =>
    match (if 3 < s.nbInfos then
            overwritePrefix s.w_klt s.R_klt.length
              (env.MEstimator_klt s.iter (t.thresholdKLT / t.px) s.R_klt)
          else .ok s.w_klt) with
    | .error e => .error e
    | .ok w_klt =>
      .ok { s with
            w_mbt := w_mbt
            w_klt := w_klt
            residuMBT :=
              if 3 < s.nbrow then (s.R_mbt.map abs).sum / (s.R_mbt.length : ℚ) else s.residuMBT
            residuKLT :=
              if 3 < s.nbInfos then (s.R_klt.map abs).sum / (s.R_klt.length : ℚ)
              else s.residuKLT }

/-- The stacked interaction matrix `*L` of an iteration: the block of each modality with more
than 3 rows. -/
def stackedL (s : LoopState Pose) : VpMatrix :=
  (if 3 < s.nbrow then s.L_mbt else []) ++ (if 3 < s.nbInfos then s.L_klt else [])

/-- The stacked residual `*R` of an iteration. -/
def stackedR (s : LoopState Pose) : ColVector :=
  (if 3 < s.nbrow then s.R_mbt else []) ++ (if 3 < s.nbInfos then s.R_klt else [])

/-- The fused weight of row `cpt`:
`cpt < nbrow ? (w_mbt[cpt] * factor[cpt]) * factorMBT : w_klt[cpt-nbrow] * factorKLT`. -/
def fusedWeight (s : LoopState Pose) (cpt : Nat) : ℚ :=
  if cpt < s.nbrow then (s.w_mbt.getD cpt 0 * s.factor.getD cpt 0) * s.factorMBT
  else s.w_klt.getD (cpt - s.nbrow) 0 * s.factorKLT

/-- The loop `while(cpt < nbrow + 2*nbInfos)` that fills `m_w`; every vector it indexes must be
long enough. -/
def fuseWeights (s : LoopState Pose) : Except Err ColVector :=
  if s.nbrow ≤ s.w_mbt.length ∧ s.nbrow ≤ s.factor.length ∧ 2 * s.nbInfos ≤ s.w_klt.length then
    overwritePrefix s.m_w (s.nbrow + 2 * s.nbInfos) (fusedWeight s)
  else .error .undefinedBehaviour

/-- The velocity computed from the weighted stacked system, for both parameterisations and both
optimisation methods. -/
def solveVelocity (env : Collaborators Pose) (t : Tracker Pose) (cMo : Pose) (mu : ℚ)
    (L : VpMatrix) (R : ColVector) : ColVector :=
  if t.isoJoIdentity then
    match t.m_optimizationMethod with
    | .LEVENBERG_MARQUARDT_OPT => env.normalEquations (some mu) t.lambda L R
    | .GAUSS_NEWTON_OPT => env.normalEquations none t.lambda L R
  else
    match t.m_optimizationMethod with
    | .LEVENBERG_MARQUARDT_OPT =>
      env.twist cMo (env.normalEquations (some mu) t.lambda (env.LVJ cMo L) R)
    | .GAUSS_NEWTON_OPT =>
      env.twist cMo (env.normalEquations none t.lambda (env.LVJ cMo L) R)

/-- The zero velocity increment (a 6-vector of zeros). -/
def zeroVelocity : ColVector := List.replicate 6 0

/-- The pose update that ends an accepted iteration:
`cMoPrev = cMo; ctTc0_Prev = ctTc0; ctTc0 = direct(v).inverse() * ctTc0; cMo = ctTc0 * c0Mo`. -/
def poseUpdate (env : Collaborators Pose) (s : LoopState Pose) (v : ColVector) :
    LoopState Pose :=
  { s with
    v := v
    cMoPrev := s.cMo
    ctTc0_Prev := s.ctTc0
    ctTc0 := env.mul (env.inverse (env.expDirect v)) s.ctTc0
    cMo := env.mul (env.mul (env.inverse (env.expDirect v)) s.ctTc0) s.c0Mo }

/-- The part of an accepted iteration after the weights are fused into `m_w`: snapshot of the
residual, weighted residual norm, weighting of the stacked system, solve, relaxation of the
damping, and pose update. -/
def weightedSolve (env : Collaborators Pose) (t : Tracker Pose) (s1 : LoopState Pose)
    (m_w : ColVector) : LoopState Pose :=
  let L := stackedL s1
  let R := stackedR s1
  let num := ((List.range R.length).map (fun i => m_w.getD i 0 * (R.getD i 0 * R.getD i 0))).sum
  let den := ((List.range R.length).map (fun i => m_w.getD i 0)).sum
  let Rw := (List.range R.length).map (fun i => R.getD i 0 * m_w.getD i 0)
  let Lw :=
    if t.compute_interaction then
      (List.range R.length).map (fun i => (L.getD i []).map (fun x => x * m_w.getD i 0))
        ++ L.drop R.length
    else L
  let isLM := decide (t.m_optimizationMethod = OptimizationMethod.LEVENBERG_MARQUARDT_OPT)
  let s2 : LoopState Pose :=
    { s1 with
      m_w := m_w
      m_error := R
      L_true := if t.computeCovariance then L else s1.L_true
      LVJ_true :=
        if t.computeCovariance && !t.isoJoIdentity then env.LVJ s1.cMo L else s1.LVJ_true
      residu_1 := s1.residu
      residu := env.sqrtRatio num den
      w_true := (List.range R.length).map (fun i => m_w.getD i 0) ++ s1.w_true.drop R.length
      mu := if isLM && decide (s1.iter ≠ 0) then s1.mu / 10 else s1.mu
      m_error_prev := if isLM then R else s1.m_error_prev
      m_w_prev := if isLM then m_w else s1.m_w_prev }
  poseUpdate env s2 (solveVelocity env t s1.cMo s1.mu Lw Rw)

/-- The body of `if(!reStartFromLastIncrement)` (an accepted iteration), without `iter++`.
The loop over the rows of `*R` indexes `m_w`, `w_true` and (when `compute_interaction` is set)
`*L`, which must be long enough. -/
def acceptedStep (env : Collaborators Pose) (t : Tracker Pose) (s : LoopState Pose) :
    Except Err (LoopState Pose) :=
  match robustWeights env t (allocateWeights s) with
  | .error e => .error e
  | .ok s1 =>
    match fuseWeights s1 with
    | .error e => .error e
    | .ok m_w =>
      if (stackedR s1).length ≤ m_w.length ∧ (stackedR s1).length ≤ s1.w_true.length ∧
          (t.compute_interaction = true → (stackedR s1).length ≤ (stackedL s1).length) then
        .ok (weightedSolve env t s1 m_w)
      else .error .undefinedBehaviour

/-- The rollback of a rejected Levenberg-Marquardt iteration, without `iter++`:
`mu *= 10`, then either "Optimization diverged" or the restoration of the snapshots. -/
def rejectedStep (s : LoopState Pose) : Except Err (LoopState Pose) :=
  if s.mu * 10 > 1 then .error .fatalDiverged
  else
    .ok { s with
          mu := s.mu * 10
          cMo := s.cMoPrev
          m_error := s.m_error_prev
          m_w := s.m_w_prev
          ctTc0 := s.ctTc0_Prev }

/-- The blocks of both modalities are refilled at the current pose (the start of the loop body). -/
def refill (t : Tracker Pose) (lvl : Nat) (s : LoopState Pose) : Except Err (LoopState Pose) :=
  match (if 4 ≤ s.nbrow then trackSecondLoop t s.L_mbt s.R_mbt s.cMo lvl
        else .ok (s.L_mbt, s.R_mbt)) with
  | .error e => .error e
  | .ok (L_mbt, R_mbt) =>
    match (if 4 ≤ s.nbInfos then kltFill t s.ctTc0 s.L_klt s.R_klt
          else .ok (s.L_klt, s.R_klt)) with
    | .error e => .error e
    | .ok (L_klt, R_klt) =>
      .ok { s with L_mbt := L_mbt, R_mbt := R_mbt, L_klt := L_klt, R_klt := R_klt }

/-- One execution of the body of the `while` loop of `computeVVS`. -/
def iteration (env : Collaborators Pose) (t : Tracker Pose) (lvl : Nat) (s : LoopState Pose) :
    Except Err (LoopState Pose) :=
  match refill t lvl s with
  | .error e => .error e
  | .ok s1 =>
    match (if rejected t s1 then rejectedStep s1 else acceptedStep env t s1) with
    | .error e => .error e
    | .ok s2 => .ok { s2 with iter := s2.iter + 1 }

/-- The loop state at the first evaluation of the loop condition, for the contour row count
`nbrow` (already reset to 0 when below 4): allocation and initialisation of the locals. -/
def initState (env : Collaborators Pose) (m : Members Pose) (nbrow nbInfos : Nat)
    (factor : ColVector) : LoopState Pose :=
  { toMembers := m
    nbrow := nbrow
    nbInfos := nbInfos
    factor := factor
    residu := 0
    residu_1 := -1
    iter := 0
    L_mbt := if nbrow ≠ 0 then List.replicate nbrow (List.replicate 6 0) else []
    R_mbt := if nbrow ≠ 0 then List.replicate nbrow 0 else []
    L_klt := if nbInfos ≠ 0 then List.replicate (2 * nbInfos) (List.replicate 6 0) else []
    R_klt := if nbInfos ≠ 0 then List.replicate (2 * nbInfos) 0 else []
    L_true := []
    LVJ_true := []
    w_true := []
    v := []
    factorMBT := (modalityShares nbrow nbInfos).1
    factorKLT := (modalityShares nbrow nbInfos).2
    residuMBT := 0
    residuKLT := 0
    cMoPrev := env.identity
    ctTc0_Prev := env.identity
    m_error_prev := List.replicate (2 * nbInfos + nbrow) 0
    m_w_prev := List.replicate (2 * nbInfos + nbrow) 0
    mu := 0.01 }

/-- The part of `computeVVS` before the loop: attenuation pass, minimum-data test, reset of a
contour row count below 4, allocation and initialisation of the locals. -/
def vvsInit (env : Collaborators Pose) (t : Tracker Pose) (lvl : Nat) (m : Members Pose)
    (nbInfos : Nat) : Except Err (LoopState Pose) :=
  match trackFirstLoop t [] lvl with
  | .error e => .error e
  | .ok (nbrow, factor) =>
    if nbrow < 4 ∧ nbInfos < 4 then .error .notEnoughPointError
    else .ok (initState env m (if nbrow < 4 then 0 else nbrow) nbInfos factor)

/-- The `while` loop, run with a bound `fuel` on the number of iterations; `none` means that the
bound was reached while the loop condition still held. -/
def vvsLoop (env : Collaborators Pose) (t : Tracker Pose) (lvl : Nat) :
    Nat → LoopState Pose → Option (Outcome Pose)
  | 0, s => if loopCond t s then none else some (.returned s)
  | fuel + 1, s =>
    if loopCond t s then
      match iteration env t lvl s with
      | .error e => some (.raised e s.toMembers)
      | .ok s1 => vvsLoop env t lvl fuel s1
    else some (.returned s)

/-- The number of times the loop body is started (an iteration that raises included) when the
loop is run with bound `fuel`. -/
def iterationsRun (env : Collaborators Pose) (t : Tracker Pose) (lvl : Nat) :
    Nat → LoopState Pose → Nat
  | 0, _ => 0
  | fuel + 1, s =>
    if loopCond t s then
      match iteration env t lvl s with
      | .error _ => 1
      | .ok s1 => iterationsRun env t lvl fuel s1 + 1
    else 0

/-- The state after exactly `k` iterations of the loop, when the loop gets that far. -/
def vvsIterate (env : Collaborators Pose) (t : Tracker Pose) (lvl : Nat) :
    Nat → LoopState Pose → Option (LoopState Pose)
  | 0, s => some s
  | k + 1, s =>
    if loopCond t s then
      match iteration env t lvl s with
      | .error _ => none
      | .ok s1 => vvsIterate env t lvl k s1
    else none

/-- The covariance computation after the loop. -/
def finishCovariance (env : Collaborators Pose) (t : Tracker Pose) (s : LoopState Pose) :
    LoopState Pose :=
  if t.computeCovariance then
    { s with
      covarianceMatrix :=
        env.covariance s.cMoPrev s.m_error (if t.isoJoIdentity then s.L_true else s.LVJ_true)
          s.w_true }
  else s

/-- The function `computeVVS(I, nbInfos, w_mbt, w_klt, lvl)`; the members and the two weight
arguments are passed in `m`, the loop is run with bound `fuel`. -/
def computeVVS (env : Collaborators Pose) (t : Tracker Pose) (lvl : Nat) (fuel : Nat)
    (m : Members Pose) (nbInfos : Nat) : Option (Outcome Pose) :=
  match vvsInit env t lvl m nbInfos with
  | .error e => some (.raised e m)
  | .ok s0 =>
    match vvsLoop env t lvl fuel s0 with
    | none => none
    | some (.raised e m1) => some (.raised e m1)
    | some (.returned s) => some (.returned (finishCovariance env t s))

/-! ## Concrete scenes

Small executable scenes on which the definitions above are evaluated.  The pose is an integer
(a translation along one axis): composition is addition, the identity is `0`, the inverse is
negation. -/

/-- Collaborators of the concrete scenes: both estimators give weight 1 to every row, the solve
returns the velocity
`[step, 0, 0, 0, 0, 0]`, and `sqrtRatio` is the exact square root on the ratios 0, 1,
4 and 9 that occur. -/
def exEnv (step : ℚ) : Collaborators ℤ where
  mul := fun a b => a + b
  identity := 0
  expDirect := fun v => (v.getD 0 0).num
  inverse := fun a => -a
  MEstimator_mbt := fun _ _ _ _ => 1
  MEstimator_klt := fun _ _ _ _ => 1
  sqrtRatio := fun num den =>
    if num / den = 4 then 2 else if num / den = 9 then 3 else num / den
  normalEquations := fun _ _ _ _ => [step, 0, 0, 0, 0, 0]
  twist := fun _ v => v
  LVJ := fun _ L => L
  covariance := fun _ _ _ _ => []

/-- A visible, tracked line with one moving-edge line of `nb` sites in the normal state, whose
residual in every row is the pose itself. -/
def exLine (nb : Nat) : DistanceLine ℤ where
  isVisible := true
  isTracked := true
  nbFeature := [nb]
  nbFeatureTotal := nb
  meline := [some (List.replicate nb ⟨MeSiteState.NO_SUPPRESSION⟩)]
  Lindex_polygon := []
  isAppearing := fun _ => false
  closeToImageBorder := false
  L := fun _ _ => [1, 0, 0, 0, 0, 0]
  error := fun cMo _ => (cMo : ℚ)
  Reinit := false
  meanWeight := 1

/-- A visible, tracked planar point group with `n` points and residual 1 in every row. -/
def exKlt (n : Nat) : KltPoints ℤ where
  polygonVisible := true
  isTracked := true
  hasEnoughPoints := true
  currentNumberPoints := n
  interaction := fun _ => some (fun _ => ([0, 1, 0, 0, 0, 0], 1))

/-- A tracker with one pyramid level, the given lines and planar point groups, the default
gain and thresholds, and the given optimisation method and iteration cap. -/
def exTracker (lines : List (DistanceLine ℤ)) (klt : List (KltPoints ℤ))
    (method : OptimizationMethod) (maxIter : Nat) : Tracker ℤ where
  scales := [true]
  lines := fun _ => lines
  cylinders := fun _ => []
  circles := fun _ => []
  kltPolygons := klt
  kltCylinders := []
  maxIter := maxIter
  lambda := 0.8
  thresholdMBT := 2
  thresholdKLT := 2
  px := 600
  compute_interaction := true
  computeCovariance := false
  isoJoIdentity := true
  m_optimizationMethod := method

/-- Members at the start of a solve: pose `cMo`, frozen pose `c0Mo = cMo`, `ctTc0` the
identity, empty residual and weight members, and the given weight arguments. -/
def exMembers (cMo : ℤ) (w_mbt w_klt : ColVector) : Members ℤ where
  cMo := cMo
  ctTc0 := 0
  c0Mo := cMo
  m_error := []
  m_w := []
  covarianceMatrix := []
  w_mbt := w_mbt
  w_klt := w_klt

/-- A loop state of the scene `exTracker [exLine 4] [] LEVENBERG_MARQUARDT_OPT 200` after one
accepted iteration from pose 1 to pose 2, in which the stored residual `m_error` has been made
larger than its snapshot `m_error_prev`. -/
def exRejectedState : LoopState ℤ :=
  { initState (exEnv (-1)) (exMembers 1 [] []) 4 0 [1, 1, 1, 1] with
    cMo := 2
    ctTc0 := 1
    m_error := [2, 2, 2, 2]
    m_w := [1, 1, 1, 1]
    w_mbt := [1, 1, 1, 1]
    iter := 1
    residu := 1
    residu_1 := 0
    w_true := [1, 1, 1, 1]
    v := [-1, 0, 0, 0, 0, 0]
    cMoPrev := 1
    ctTc0_Prev := 0
    m_error_prev := [1, 1, 1, 1]
    m_w_prev := [1, 1, 1, 1] }

/-! ## Predicates used in the statements -/

/-- The locals and the member that no iteration writes. -/
def SameFrame (s s1 : LoopState Pose) : Prop :=
  s1.nbrow = s.nbrow ∧ s1.nbInfos = s.nbInfos ∧ s1.factor = s.factor ∧
  s1.factorMBT = s.factorMBT ∧ s1.factorKLT = s.factorKLT ∧ s1.c0Mo = s.c0Mo

/-- The exceptions that can leave an iteration of the loop. -/
def LoopErr (e : Err) : Prop :=
  e = .undefinedBehaviour ∨ e = .collaborator ∨ e = .fatalInteractionMatrix ∨
    e = .subViewError ∨ e = .fatalDiverged

/-- The three values an attenuation factor can take. -/
def IsFactor (x : ℚ) : Prop := x = 1 ∨ x = 0.2 ∨ x = 0.1

/-- Every entry of a factor vector is one of the three attenuation values, and the vector has
`n` entries. -/
def FactorVector (n : Nat) (factor : ColVector) : Prop :=
  factor.length = n ∧ ∀ x ∈ factor, IsFactor x

/-- The pose invariant of the loop, with the part about the snapshots that a rejected iteration
restores (they are taken in iteration 0, which is never rejected). -/
def PoseInvariant (env : Collaborators Pose) (s : LoopState Pose) : Prop :=
  s.cMo = env.mul s.ctTc0 s.c0Mo ∧ (s.iter ≠ 0 → s.cMoPrev = env.mul s.ctTc0_Prev s.c0Mo)

/-- The row-count invariant of the loop, relative to the members `m` the call was given. -/
def RowInvariant (m : Members Pose) (s : LoopState Pose) : Prop :=
  s.L_mbt.length = s.nbrow ∧ s.R_mbt.length = s.nbrow ∧
  s.L_klt.length = 2 * s.nbInfos ∧ s.R_klt.length = 2 * s.nbInfos ∧
  (s.iter ≠ 0 → s.nbrow ≠ 0 → s.w_mbt.length = s.nbrow) ∧
  (s.iter ≠ 0 → s.nbInfos ≠ 0 → s.w_klt.length = 2 * s.nbInfos) ∧
  (s.nbrow = 0 → s.w_mbt = m.w_mbt) ∧ (s.nbInfos = 0 → s.w_klt = m.w_klt)

/-- The invariant behind the Levenberg-Marquardt bookkeeping of the loop: the damping is
positive and at most 0.01, and after the first iteration, in Levenberg-Marquardt mode, the stored
residual equals its snapshot. -/
def DampingInvariant (t : Tracker Pose) (s : LoopState Pose) : Prop :=
  0 < s.mu ∧ s.mu ≤ 1 / 100 ∧
  (s.iter ≠ 0 → t.m_optimizationMethod = .LEVENBERG_MARQUARDT_OPT → s.m_error = s.m_error_prev)

/-! ## More concrete scenes -/

/-- A visible, tracked planar point group with `n` points whose computation of the interaction
matrix and residual throws. -/
def exKltFailing (n : Nat) : KltPoints ℤ where
  polygonVisible := true
  isTracked := true
  hasEnoughPoints := true
  currentNumberPoints := n
  interaction := fun _ => none

/-- A tracked point group on a cylinder with `n` points whose computation of the interaction
matrix and residual throws. -/
def exKltCylinderFailing (n : Nat) : KltCylinder ℤ where
  isTracked := true
  hasEnoughPoints := true
  currentNumberPoints := n
  interaction := fun _ => none

/-- A tracker with no contour primitive and no planar point group, with the given point groups
on cylinders. -/
def exCylinderTracker (cyl : List (KltCylinder ℤ)) : Tracker ℤ :=
  { exTracker [] [] .GAUSS_NEWTON_OPT 5 with kltCylinders := cyl }

/-! ## Row offsets of the passes -/

/-- The factor the attenuation pass leaves in the row of a site: 0.2 when the state of the site
is not the normal one, the factor `fac` of the primitive otherwise. -/
def rowFactor (fac : ℚ) (st : MeSite) : ℚ :=
  if st.state ≠ MeSiteState.NO_SUPPRESSION then 0.2 else fac

/-- The number of rows by which the attenuation pass advances its row counter over the
moving-edge lines `meline[a], meline[a+1], ...` of a line: `nbFeature[a]` for each non-NULL
one. -/
def melineRows (nbFeature : List Nat) : List (Option (List MeSite)) → Nat → Nat
  | [], _ => 0
  | none :: rest, a => melineRows nbFeature rest (a + 1)
  | some _ :: rest, a => nbFeature.getD a 0 + melineRows nbFeature rest (a + 1)

/-- The row counter of the attenuation pass after the given lines (starting from 0). -/
def linesRowsFirst : List (DistanceLine Pose) → Nat
  | [] => 0
  | l :: rest =>
    (if l.isTracked then melineRows l.nbFeature l.meline 0 else 0) + linesRowsFirst rest

/-- The row counter of the fill pass after the given lines (starting from 0). -/
def linesRowsSecond : List (DistanceLine Pose) → Nat
  | [] => 0
  | l :: rest => (if l.isTracked then l.nbFeatureTotal else 0) + linesRowsSecond rest

/-- The rows by which both passes advance their row counter over the given cylinders. -/
def cylindersRows : List (DistanceCylinder Pose) → Nat
  | [] => 0
  | cy :: rest => (if cy.isTracked then cy.nbFeature else 0) + cylindersRows rest

/-- The rows by which both passes advance their row counter over the given circles. -/
def circlesRows : List (DistanceCircle Pose) → Nat
  | [] => 0
  | ci :: rest => (if ci.isTracked then ci.nbFeature else 0) + circlesRows rest

/-- A visible, tracked line with one moving-edge line holding the given sites, with the given
border flag, governing polygons and appearing faces. -/
def exFaceLine (border : Bool) (polygons : List Int) (appearing : Int → Bool)
    (sites : List MeSite) : DistanceLine ℤ :=
  { exLine sites.length with
    meline := [some sites]
    Lindex_polygon := polygons
    isAppearing := appearing
    closeToImageBorder := border }

/-- Four sites in the normal state. -/
def exNormalSites : List MeSite :=
  List.replicate 4 ⟨MeSiteState.NO_SUPPRESSION⟩

/-- A visible, tracked cylinder with 3 features: two sites on its first limb (the second one
flagged by the estimator) and one suppressed site on its second limb. -/
def exCylinder : DistanceCylinder ℤ where
  isVisible := true
  isTracked := true
  nbFeature := 3
  nbFeaturel1 := 2
  nbFeaturel2 := 1
  meline1 := some [⟨MeSiteState.NO_SUPPRESSION⟩, ⟨MeSiteState.M_ESTIMATOR⟩]
  meline2 := some [⟨MeSiteState.SUPPRESSED⟩]
  L := fun _ _ => [1, 0, 0, 0, 0, 0]
  error := fun cMo _ => (cMo : ℚ)
  Reinit := false
  meanWeight1 := 1
  meanWeight2 := 1

/-- A visible, tracked circle with 2 features, the second site flagged by the estimator. -/
def exCircle : DistanceCircle ℤ where
  isVisible := true
  isTracked := true
  nbFeature := 2
  meEllipse := some [⟨MeSiteState.NO_SUPPRESSION⟩, ⟨MeSiteState.M_ESTIMATOR⟩]
  L := fun _ _ => [1, 0, 0, 0, 0, 0]
  error := fun cMo _ => (cMo : ℚ)
  Reinit := false
  meanWeight := 1

/-- A tracker with one pyramid level holding the given lines, cylinders and circles, and no
point group. -/
def exContourTracker (lines : List (DistanceLine ℤ)) (cylinders : List (DistanceCylinder ℤ))
    (circles : List (DistanceCircle ℤ)) : Tracker ℤ :=
  { exTracker lines [] .GAUSS_NEWTON_OPT 5 with
    cylinders := fun _ => cylinders
    circles := fun _ => circles }

/-- A tracked line that is not visible and still holds `nb` sites. -/
def exHiddenLine (nb : Nat) : DistanceLine ℤ :=
  { exLine nb with isVisible := false }

/-! ## Double arithmetic of the mean weights

The mean weights of `postTrackingMbt` decide a flag (`wmean < 0.8`), so their sum and division
are modelled with the rounding of `double`, not as exact rationals. -/

/-- The power `2^k` for an integer exponent. -/
def pow2 : ℤ → ℚ
  | Int.ofNat n => ((2 ^ n : Nat) : ℚ)
  | Int.negSucc n => 1 / ((2 ^ (n + 1) : Nat) : ℚ)

/-- The exponent `k` with `2^k <= a < 2^(k+1)` of a positive `a`, searched from `k` by halving
or doubling at most `fuel` times. -/
def binade : Nat → ℚ → ℤ → ℤ
  | 0, _, k => k
  | fuel + 1, a, k =>
    if 2 ≤ a then binade fuel (a / 2) (k + 1)
    else if a < 1 then binade fuel (a * 2) (k - 1)
    else k

/-- Rounding to the nearest integer, a tie going to the even one. -/
def roundHalfEven (y : ℚ) : ℤ :=
  let f := Int.fdiv y.num (y.den : ℤ)
  if y - f < 1 / 2 then f
  else if 1 / 2 < y - f then f + 1
  else if f % 2 = 0 then f else f + 1

/-- Rounding of a real value to `double` (IEEE 754 binary64, round to nearest, ties to even):
the nearest multiple of `2^(k-52)`, where `2^k <= |x| < 2^(k+1)` and `k` is not taken below
`-1022` (gradual underflow).  Overflow to infinity is not modelled. -/
def roundDouble (x : ℚ) : ℚ :=
  if x = 0 then 0
  else
    let k := max (binade 1100 (if x < 0 then -x else x) 0) (-1022)
    (roundHalfEven (x / pow2 (k - 52)) : ℚ) * pow2 (k - 52)

/-- The sum `a + b` of two `double`s. -/
def doubleAdd (a b : ℚ) : ℚ := roundDouble (a + b)

/-- The quotient `a / n` of a `double` by an `unsigned int` (converted to `double` without
rounding). -/
def doubleDiv (a : ℚ) (n : Nat) : ℚ := roundDouble (a / (n : ℚ))

/-- The literal `0.8` of the tests `wmean < 0.8`: the `double` nearest to 4/5. -/
def reinitThreshold : ℚ := roundDouble 0.8

/-! ## Post-tracking verdicts `postTrackingMbt` -/

/-- The site loop of `postTrackingMbt` over `count` sites: `wmean += w[row]; p = *it;
if (w[row] < 0.5) { p.setState(M_ESTIMATOR); *it = p; } ++it`, the row advancing with the
iterator.  `it` is what the iterator still has in front of it; reading `w` out of range or
dereferencing the end of the list is undefined behaviour.  Returns the sum, accumulated as a
`double`, and the sites. -/
def verdictSites (w : ColVector) : Nat → Nat → ℚ → List MeSite → Except Err (ℚ × List MeSite)
  | 0, _, wmean, it => .ok (wmean, it)
  | count + 1, row, wmean, it =>
    match w.get? row, it with
    | some wi, p :: rest =>
      match verdictSites w count (row + 1) (doubleAdd wmean wi) rest with
      | .error e => .error e
      | .ok (wmean1, rest1) =>
        .ok (wmean1, (if wi < 0.5 then { p with state := MeSiteState.M_ESTIMATOR } else p) :: rest1)
    | _, _ => .error .undefinedBehaviour

/-- The loop of `postTrackingMbt` over the moving-edge lines `meline[a]` of one line; `row` is
`n + indexLine`.  The iterator is only set when `nbFeature[a] > 0`, from a `meline[a]` that must
not be NULL. -/
def verdictMelines (w : ColVector) (nbFeature : List Nat) :
    List (Option (List MeSite)) → Nat → Nat → ℚ →
      Except Err (ℚ × List (Option (List MeSite)))
  | [], _, _, wmean => .ok (wmean, [])
  | m :: rest, a, row, wmean =>
    match nbFeature.get? a with
    | none => .error .undefinedBehaviour
    | some nb =>
      if 0 < nb then
        match m with
        | none => .error .undefinedBehaviour
        | some sites =>
          match verdictSites w nb row wmean sites with
          | .error e => .error e
          | .ok (wmean1, sites1) =>
            match verdictMelines w nbFeature rest (a + 1) (row + nb) wmean1 with
            | .error e => .error e
            | .ok (wmean2, rest1) => .ok (wmean2, some sites1 :: rest1)
      else
        match verdictMelines w nbFeature rest (a + 1) row wmean with
        | .error e => .error e
        | .ok (wmean2, rest1) => .ok (wmean2, m :: rest1)

/-- The end of each block of `postTrackingMbt`: `if (count != 0) wmean /= count; else wmean = 1`,
the division being that of `double`. -/
def meanOrOne (wmean : ℚ) (count : Nat) : ℚ :=
  if count ≠ 0 then doubleDiv wmean count else 1

/-- The body of `postTrackingMbt` for one tracked line whose rows start at `n`. -/
def verdictLine (w : ColVector) (n : Nat) (l : DistanceLine Pose) :
    Except Err (DistanceLine Pose) :=
  match verdictMelines w l.nbFeature l.meline 0 n 0 with
  | .error e => .error e
  | .ok (wsum, meline1) =>
    let wmean := meanOrOne wsum l.nbFeatureTotal
    .ok { l with
      meline := meline1
      meanWeight := wmean
      Reinit := if wmean < reinitThreshold then true else l.Reinit }

/-- The body of `postTrackingMbt` for one tracked cylinder whose rows start at `n`.  The two
iterators are only set when `nbFeature > 0`, from limbs that must not be NULL; otherwise they
cannot be dereferenced. -/
def verdictCylinder (w : ColVector) (n : Nat) (cy : DistanceCylinder Pose) :
    Except Err (DistanceCylinder Pose) :=
  if 0 < cy.nbFeature then
    match cy.meline1, cy.meline2 with
    | some l1, some l2 =>
      match verdictSites w cy.nbFeaturel1 n 0 l1 with
      | .error e => .error e
      | .ok (wsum1, sites1) =>
        match verdictSites w (cy.nbFeature - cy.nbFeaturel1) (n + cy.nbFeaturel1) 0 l2 with
        | .error e => .error e
        | .ok (wsum2, sites2) =>
          let wmean1 := meanOrOne wsum1 cy.nbFeaturel1
          let wmean2 := meanOrOne wsum2 cy.nbFeaturel2
          .ok { cy with
            meline1 := some sites1
            meline2 := some sites2
            meanWeight1 := wmean1
            meanWeight2 := wmean2
            Reinit := if wmean2 < reinitThreshold then true
              else if wmean1 < reinitThreshold then true else cy.Reinit }
    | _, _ => .error .undefinedBehaviour
  else if cy.nbFeaturel1 = 0 then
    let wmean2 := meanOrOne 0 cy.nbFeaturel2
    .ok { cy with
      meanWeight1 := 1
      meanWeight2 := wmean2
      Reinit := if wmean2 < reinitThreshold then true else cy.Reinit }
  else .error .undefinedBehaviour

/-- The body of `postTrackingMbt` for one tracked circle whose rows start at `n`. -/
def verdictCircle (w : ColVector) (n : Nat) (ci : DistanceCircle Pose) :
    Except Err (DistanceCircle Pose) :=
  if 0 < ci.nbFeature then
    match ci.meEllipse with
    | none => .error .undefinedBehaviour
    | some sites =>
      match verdictSites w ci.nbFeature n 0 sites with
      | .error e => .error e
      | .ok (wsum, sites1) =>
        let wmean := meanOrOne wsum ci.nbFeature
        .ok { ci with
          meEllipse := some sites1
          meanWeight := wmean
          Reinit := if wmean < reinitThreshold then true else ci.Reinit }
  else .ok { ci with meanWeight := 1 }

/-- The shape shared by the three loops of `postTrackingMbt`: every tracked primitive is given
its verdict at the current row offset `n`, then `n` advances by the rows of the primitive;
a primitive that is not tracked is skipped. -/
def verdictPrimitives {α : Type} (isTracked : α → Bool) (rows : α → Nat)
    (verdict : Nat → α → Except Err α) : List α → Nat → Except Err (Nat × List α)
  | [], n => .ok (n, [])
  | x :: rest, n =>
    if isTracked x then
      match verdict n x with
      | .error e => .error e
      | .ok x1 =>
        match verdictPrimitives isTracked rows verdict rest (n + rows x) with
        | .error e => .error e
        | .ok (n1, rest1) => .ok (n1, x1 :: rest1)
    else
      match verdictPrimitives isTracked rows verdict rest n with
      | .error e => .error e
      | .ok (n1, rest1) => .ok (n1, x :: rest1)

/-- Post-tracking verdicts `postTrackingMbt(w, lvl)`: returns the lines, cylinders and circles
of the level as it leaves them. -/
def postTrackingMbt (t : Tracker Pose) (w : ColVector) (lvl : Nat) :
    Except Err (List (DistanceLine Pose) × List (DistanceCylinder Pose) ×
      List (DistanceCircle Pose)) :=
  if lvlNotUsed t.scales lvl then .error .dimensionError
  else
    match verdictPrimitives (fun l => l.isTracked) (fun l => l.nbFeatureTotal) (verdictLine w)
        (t.lines lvl) 0 with
    | .error e => .error e
    | .ok (n1, ls) =>
      match verdictPrimitives (fun cy => cy.isTracked) (fun cy => cy.nbFeature)
          (verdictCylinder w) (t.cylinders lvl) n1 with
      | .error e => .error e
      | .ok (n2, cys) =>
        match verdictPrimitives (fun ci => ci.isTracked) (fun ci => ci.nbFeature)
            (verdictCircle w) (t.circles lvl) n2 with
        | .error e => .error e
        | .ok (_, cis) => .ok (ls, cys, cis)

/-- The rows of the tracked primitives of a list. -/
def trackedRows {α : Type} (isTracked : α → Bool) (rows : α → Nat) : List α → Nat
  | [] => 0
  | x :: rest => (if isTracked x then rows x else 0) + trackedRows isTracked rows rest

/-- Relation between a site list before and after a verdict on its first `count` sites, whose
rows start at `row`: no site is added or removed; a site among the first `count` has a row
weight, and its state becomes `M_ESTIMATOR` exactly when that weight is below 0.5; every other
site is unchanged. -/
def Marked (w : ColVector) (row count : Nat) (sites sites1 : List MeSite) : Prop :=
  sites1.length = sites.length ∧
  ∀ k p, sites.get? k = some p →
    (k < count → ∃ wk, w.get? (row + k) = some wk ∧
      sites1.get? k = some (if wk < 0.5 then { p with state := MeSiteState.M_ESTIMATOR } else p)) ∧
    (count ≤ k → sites1.get? k = some p)

/-- Functions of the two parent trackers (`vpMbKltTracker`, `vpMbEdgeTracker`) and of the display
that `track` and `postTracking` call. -/
structure FrameCollaborators (Pose : Type) where
  /-- The call `vpMbKltTracker::preTracking(I, nbInfos, nbFaceUsed)`: the exception it throws
  if any, the tracker as it leaves it, and the value it leaves in `nbInfos`. -/
  preTracking : Tracker Pose → Members Pose → Option Err × Tracker Pose × Nat
  /-- The point-only solve `vpMbKltTracker::computeVVS(nbInfos, w_klt)`: the members and the
  argument `w_klt` as it leaves them. -/
  kltComputeVVS : Tracker Pose → Members Pose → Nat → Except Err (Members Pose)
  /-- The call `vpMbEdgeTracker::trackMovingEdge(I)`. -/
  trackMovingEdge : Tracker Pose → Members Pose → Except Err (Tracker Pose)
  /-- The block `if (displayFeatures)` of `postTracking`, which draws the moving edges of the
  level and returns at once when `displayFeatures` is off. -/
  displayMovingEdges : Tracker Pose → Nat → Except Err Unit
  /-- The call `vpMbKltTracker::postTracking(I, w_klt)` and the flag it returns. -/
  kltPostTracking : Tracker Pose → Members Pose → ColVector → Except Err (Tracker Pose × Bool)
  /-- The end of `postTracking`: the scan-line render when `useScanLine` is set,
  `updateMovingEdge`, `initMovingEdge`, `reinitMovingEdge`, and `computeProjectionError` when
  `computeProjError` is set. -/
  updateEdges : Tracker Pose → Members Pose → Except Err (Tracker Pose)
  /-- The call `vpMbKltTracker::reinit(I)`. -/
  kltReinit : Tracker Pose → Members Pose → Except Err (Tracker Pose × Members Pose)

/-- The tracker with the primitives of level `lvl` as `postTrackingMbt` leaves them. -/
def setPrimitives (t : Tracker Pose) (lvl : Nat) (ls : List (DistanceLine Pose))
    (cys : List (DistanceCylinder Pose)) (cis : List (DistanceCircle Pose)) : Tracker Pose :=
  { t with
    lines := fun k => if k = lvl then ls else t.lines k
    cylinders := fun k => if k = lvl then cys else t.cylinders k
    circles := fun k => if k = lvl then cis else t.circles k }

/-- The function `postTracking(I, w_mbt, w_klt, lvl)`: the tracker as it leaves it and the
flag it returns. -/
def postTracking (fenv : FrameCollaborators Pose) (t : Tracker Pose) (m : Members Pose)
    (w_mbt w_klt : ColVector) (lvl : Nat) : Except Err (Tracker Pose × Bool) :=
  match postTrackingMbt t w_mbt lvl with
  | .error e => .error e
  | .ok (ls, cys, cis) =>
    match fenv.displayMovingEdges (setPrimitives t lvl ls cys cis) lvl with
    | .error e => .error e
    | .ok _ =>
      match fenv.kltPostTracking (setPrimitives t lvl ls cys cis) m w_klt with
      | .error e => .error e
      | .ok (t2, reInit) =>
        match fenv.updateEdges t2 m with
        | .error e => .error e
        | .ok t3 => .ok (t3, reInit)

/-- The statement `if(nbInfos >= 4) vpMbKltTracker::computeVVS(nbInfos, w_klt); else nbInfos = 0;`
of `track`, with the local `w_klt` just constructed (empty): the members with `w_klt`, and
`nbInfos`. -/
def pointSolve (fenv : FrameCollaborators Pose) (t : Tracker Pose) (m : Members Pose)
    (nbInfos : Nat) : Except Err (Members Pose × Nat) :=
  if 4 ≤ nbInfos then
    match fenv.kltComputeVVS t { m with w_klt := [] } nbInfos with
    | .error e => .error e
    | .ok m1 => .ok (m1, nbInfos)
  else .ok ({ m with w_klt := [] }, 0)

/-- The end of `track`: `if(postTracking(I, w_mbt, w_klt)) vpMbKltTracker::reinit(I);`.  The
level argument is left out in the call; its default in the class declaration, which is not part
of this file, is 0. -/
def reconcile (fenv : FrameCollaborators Pose) (t : Tracker Pose) (m : Members Pose)
    (w_mbt w_klt : ColVector) : Except Err (Tracker Pose × Members Pose) :=
  match postTracking fenv t m w_mbt w_klt 0 with
  | .error e => .error e
  | .ok (t3, reInit) => if reInit then fenv.kltReinit t3 m else .ok (t3, m)

/-- The function `track(I)`.  Whatever `preTracking` throws is caught by `catch(...)` and
dropped.  The fused solve is called without a level argument (default 0 in the class
declaration) and is run with the bound `maxIter` on its loop; `none` means that this bound was
not enough. -/
def track (env : Collaborators Pose) (fenv : FrameCollaborators Pose) (t : Tracker Pose)
    (m : Members Pose) : Option (Except Err (Tracker Pose × Members Pose)) :=
  let pre := fenv.preTracking t m
  match pointSolve fenv pre.2.1 m pre.2.2 with
  | .error e => some (.error e)
  | .ok (m1, nbInfos) =>
    match fenv.trackMovingEdge pre.2.1 m1 with
    | .error e => some (.error e)
    | .ok t2 =>
      match computeVVS env t2 0 t2.maxIter { m1 with w_mbt := [] } nbInfos with
      | none => none
      | some (.raised e _) => some (.error e)
      | some (.returned s) => some (reconcile fenv t2 s.toMembers s.w_mbt s.w_klt)

/-- Frame collaborators of the concrete scenes: `preTracking` throws `threw` (if any) and leaves
`nbInfos` points, the point-only solve gives weight 1 to every point row, and every other call
returns without changing anything. -/
def exFrameEnv (threw : Option Err) (nbInfos : Nat) : FrameCollaborators ℤ where
  preTracking := fun t _ => (threw, t, nbInfos)
  kltComputeVVS := fun _ m n => .ok { m with w_klt := List.replicate (2 * n) 1 }
  trackMovingEdge := fun t _ => .ok t
  displayMovingEdges := fun _ _ => .ok ()
  kltPostTracking := fun t _ _ => .ok (t, false)
  updateEdges := fun t _ => .ok t
  kltReinit := fun t m => .ok (t, m)

/-! # Verification -/

/-! ## Helper lemmas: inversion of the steps -/

theorem overwritePrefix_ok {x y : ColVector} {n : Nat} {f : Nat → ℚ}
    (h : overwritePrefix x n f = .ok y) :
    n ≤ x.length ∧ y = (List.range n).map f ++ x.drop n ∧ y.length = x.length ∧
      ∀ i, i < n → y.getD i 0 = f i := by
  unfold overwritePrefix at h
  split at h
  · rename_i hn
    cases h
    refine ⟨hn, rfl, ?_, ?_⟩
    · simp; omega
    · intro i hi
      rw [List.getD_eq_getElem?_getD, List.getElem?_append_left (by simpa using hi)]
      simp [hi]
  · cases h

theorem allocateWeights_frame (s : LoopState Pose) :
    (allocateWeights s).nbrow = s.nbrow ∧ (allocateWeights s).nbInfos = s.nbInfos ∧
    (allocateWeights s).factor = s.factor ∧ (allocateWeights s).factorMBT = s.factorMBT ∧
    (allocateWeights s).factorKLT = s.factorKLT ∧ (allocateWeights s).c0Mo = s.c0Mo ∧
    (allocateWeights s).cMo = s.cMo ∧ (allocateWeights s).ctTc0 = s.ctTc0 ∧
    (allocateWeights s).iter = s.iter ∧ (allocateWeights s).mu = s.mu ∧
    (allocateWeights s).L_mbt = s.L_mbt ∧ (allocateWeights s).R_mbt = s.R_mbt ∧
    (allocateWeights s).L_klt = s.L_klt ∧ (allocateWeights s).R_klt = s.R_klt ∧
    (allocateWeights s).m_error_prev = s.m_error_prev ∧
    (allocateWeights s).m_w_prev = s.m_w_prev := by
  unfold allocateWeights
  split <;> simp

theorem robustWeights_ok {env : Collaborators Pose} {t : Tracker Pose} {s s1 : LoopState Pose}
    (h : robustWeights env t s = .ok s1) :
    ∃ w_mbt w_klt resM resK,
      s1 = { s with w_mbt := w_mbt, w_klt := w_klt, residuMBT := resM, residuKLT := resK } ∧
      (if 3 < s.nbrow then
          overwritePrefix s.w_mbt s.R_mbt.length
            (env.MEstimator_mbt s.iter (t.thresholdMBT / t.px) s.R_mbt)
        else .ok s.w_mbt) = .ok w_mbt ∧
      (if 3 < s.nbInfos then
          overwritePrefix s.w_klt s.R_klt.length
            (env.MEstimator_klt s.iter (t.thresholdKLT / t.px) s.R_klt)
        else .ok s.w_klt) = .ok w_klt := by
  unfold robustWeights at h
  split at h
  · cases h
  · rename_i w_mbt hm
    split at h
    · cases h
    · rename_i w_klt hk
      cases h
      exact ⟨w_mbt, w_klt, _, _, rfl, hm, hk⟩

theorem acceptedStep_ok {env : Collaborators Pose} {t : Tracker Pose} {s s2 : LoopState Pose}
    (h : acceptedStep env t s = .ok s2) :
    ∃ s1 m_w, robustWeights env t (allocateWeights s) = .ok s1 ∧ fuseWeights s1 = .ok m_w ∧
      s2 = weightedSolve env t s1 m_w := by
  unfold acceptedStep at h
  split at h
  · cases h
  · rename_i s1 h1
    split at h
    · cases h
    · rename_i m_w h2
      split at h
      · cases h
        exact ⟨s1, m_w, h1, h2, rfl⟩
      · cases h

theorem rejectedStep_ok {s s2 : LoopState Pose} (h : rejectedStep s = .ok s2) :
    ¬ (s.mu * 10 > 1) ∧
    s2 = { s with mu := s.mu * 10, cMo := s.cMoPrev, m_error := s.m_error_prev,
                  m_w := s.m_w_prev, ctTc0 := s.ctTc0_Prev } := by
  unfold rejectedStep at h
  split at h
  · cases h
  · rename_i hmu
    cases h
    exact ⟨hmu, rfl⟩

theorem refill_ok {t : Tracker Pose} {lvl : Nat} {s s1 : LoopState Pose}
    (h : refill t lvl s = .ok s1) :
    ∃ L_mbt R_mbt L_klt R_klt,
      s1 = { s with L_mbt := L_mbt, R_mbt := R_mbt, L_klt := L_klt, R_klt := R_klt } ∧
      (if 4 ≤ s.nbrow then trackSecondLoop t s.L_mbt s.R_mbt s.cMo lvl
        else .ok (s.L_mbt, s.R_mbt)) = .ok (L_mbt, R_mbt) ∧
      (if 4 ≤ s.nbInfos then kltFill t s.ctTc0 s.L_klt s.R_klt
        else .ok (s.L_klt, s.R_klt)) = .ok (L_klt, R_klt) := by
  unfold refill at h
  split at h
  · cases h
  · rename_i L_mbt R_mbt hm
    split at h
    · cases h
    · rename_i L_klt R_klt hk
      cases h
      exact ⟨L_mbt, R_mbt, L_klt, R_klt, rfl, hm, hk⟩

theorem rejected_refill {t : Tracker Pose} {lvl : Nat} {s s1 : LoopState Pose}
    (h : refill t lvl s = .ok s1) : rejected t s1 = rejected t s := by
  obtain ⟨_, _, _, _, rfl, -, -⟩ := refill_ok h
  rfl

theorem iteration_ok {env : Collaborators Pose} {t : Tracker Pose} {lvl : Nat}
    {s s3 : LoopState Pose} (h : iteration env t lvl s = .ok s3) :
    ∃ s1 s2, refill t lvl s = .ok s1 ∧ s3 = { s2 with iter := s2.iter + 1 } ∧
      ((rejected t s = true ∧ rejectedStep s1 = .ok s2) ∨
       (rejected t s = false ∧ acceptedStep env t s1 = .ok s2)) := by
  unfold iteration at h
  split at h
  · cases h
  · rename_i s1 h1
    split at h
    · cases h
    · rename_i s2 h2
      cases h
      refine ⟨s1, s2, h1, rfl, ?_⟩
      rw [rejected_refill h1] at h2
      cases hr : rejected t s
      · right
        rw [hr] at h2
        exact ⟨rfl, by simpa using h2⟩
      · left
        rw [hr] at h2
        exact ⟨rfl, by simpa using h2⟩

/-! ## Helper lemmas: what an iteration leaves alone -/

theorem robustWeights_frame {env : Collaborators Pose} {t : Tracker Pose} {s s1 : LoopState Pose}
    (h : robustWeights env t s = .ok s1) : SameFrame s s1 ∧ s1.iter = s.iter := by
  obtain ⟨_, _, _, _, rfl, -, -⟩ := robustWeights_ok h
  simp [SameFrame]

theorem weightedSolve_frame (env : Collaborators Pose) (t : Tracker Pose) (s1 : LoopState Pose)
    (m_w : ColVector) :
    SameFrame s1 (weightedSolve env t s1 m_w) ∧ (weightedSolve env t s1 m_w).iter = s1.iter := by
  simp [SameFrame, weightedSolve, poseUpdate]

theorem SameFrame.trans {s s1 s2 : LoopState Pose} (h1 : SameFrame s s1)
    (h2 : SameFrame s1 s2) : SameFrame s s2 := by
  unfold SameFrame at h1 h2 ⊢
  exact ⟨h2.1.trans h1.1, h2.2.1.trans h1.2.1, h2.2.2.1.trans h1.2.2.1,
    h2.2.2.2.1.trans h1.2.2.2.1, h2.2.2.2.2.1.trans h1.2.2.2.2.1,
    h2.2.2.2.2.2.trans h1.2.2.2.2.2⟩

theorem refill_frame {t : Tracker Pose} {lvl : Nat} {s s1 : LoopState Pose}
    (h : refill t lvl s = .ok s1) : SameFrame s s1 ∧ s1.iter = s.iter := by
  obtain ⟨_, _, _, _, rfl, -, -⟩ := refill_ok h
  simp [SameFrame]

theorem allocateWeights_sameFrame (s : LoopState Pose) :
    SameFrame s (allocateWeights s) ∧ (allocateWeights s).iter = s.iter := by
  obtain ⟨c1, c2, c3, c4, c5, c6, -, -, c9, -⟩ := allocateWeights_frame s
  exact ⟨⟨c1, c2, c3, c4, c5, c6⟩, c9⟩

theorem acceptedStep_frame {env : Collaborators Pose} {t : Tracker Pose} {s s2 : LoopState Pose}
    (h : acceptedStep env t s = .ok s2) : SameFrame s s2 ∧ s2.iter = s.iter := by
  obtain ⟨sa, m_w, ha, -, rfl⟩ := acceptedStep_ok h
  obtain ⟨a, a7⟩ := robustWeights_frame ha
  obtain ⟨b, b7⟩ := weightedSolve_frame env t sa m_w
  obtain ⟨c, c7⟩ := allocateWeights_sameFrame s
  exact ⟨(c.trans a).trans b, by rw [b7, a7, c7]⟩

theorem rejectedStep_frame {s s2 : LoopState Pose} (h : rejectedStep s = .ok s2) :
    SameFrame s s2 ∧ s2.iter = s.iter := by
  obtain ⟨-, rfl⟩ := rejectedStep_ok h
  simp [SameFrame]

theorem iteration_frame {env : Collaborators Pose} {t : Tracker Pose} {lvl : Nat}
    {s s3 : LoopState Pose} (h : iteration env t lvl s = .ok s3) :
    SameFrame s s3 ∧ s3.iter = s.iter + 1 := by
  obtain ⟨s1, s2, h1, rfl, h2⟩ := iteration_ok h
  obtain ⟨a, a7⟩ := refill_frame h1
  have hb : SameFrame s1 s2 ∧ s2.iter = s1.iter := by
    rcases h2 with ⟨-, h2⟩ | ⟨-, h2⟩
    · exact rejectedStep_frame h2
    · exact acceptedStep_frame h2
  obtain ⟨b, b7⟩ := hb
  have hc : SameFrame s2 { s2 with iter := s2.iter + 1 } := by simp [SameFrame]
  exact ⟨(a.trans b).trans hc, by simp [b7, a7]⟩

/-! ## Helper lemmas: the exceptions of an iteration -/

theorem copyRows_error {rowL : Nat → Row} {rowE : Nat → ℚ} {count n : Nat} {L : VpMatrix}
    {error : ColVector} {e : Err} (h : copyRows rowL rowE count n L error = .error e) :
    e = .undefinedBehaviour := by
  unfold copyRows at h
  split at h
  · cases h
  · split at h
    · cases h
    · cases h; rfl

theorem secondLoopLines_error {cMo_ : Pose} {e : Err} (ls : List (DistanceLine Pose)) :
    ∀ (n : Nat) (L : VpMatrix) (error : ColVector),
      secondLoopLines cMo_ ls n L error = .error e → e = .undefinedBehaviour := by
  induction ls with
  | nil => intro n L error h; cases h
  | cons l rest ih =>
    intro n L error h
    unfold secondLoopLines at h
    split at h
    · split at h
      · rename_i hc
        cases h
        exact copyRows_error hc
      · exact ih _ _ _ h
    · exact ih _ _ _ h

theorem secondLoopCylinders_error {cMo_ : Pose} {e : Err} (ls : List (DistanceCylinder Pose)) :
    ∀ (n : Nat) (L : VpMatrix) (error : ColVector),
      secondLoopCylinders cMo_ ls n L error = .error e → e = .undefinedBehaviour := by
  induction ls with
  | nil => intro n L error h; cases h
  | cons l rest ih =>
    intro n L error h
    unfold secondLoopCylinders at h
    split at h
    · split at h
      · rename_i hc
        cases h
        exact copyRows_error hc
      · exact ih _ _ _ h
    · exact ih _ _ _ h

theorem secondLoopCircles_error {cMo_ : Pose} {e : Err} (ls : List (DistanceCircle Pose)) :
    ∀ (n : Nat) (L : VpMatrix) (error : ColVector),
      secondLoopCircles cMo_ ls n L error = .error e → e = .undefinedBehaviour := by
  induction ls with
  | nil => intro n L error h; cases h
  | cons l rest ih =>
    intro n L error h
    unfold secondLoopCircles at h
    split at h
    · split at h
      · rename_i hc
        cases h
        exact copyRows_error hc
      · exact ih _ _ _ h
    · exact ih _ _ _ h

theorem trackSecondLoop_error {t : Tracker Pose} {L : VpMatrix} {error : ColVector} {cMo_ : Pose}
    {lvl : Nat} {e : Err} (h : trackSecondLoop t L error cMo_ lvl = .error e) :
    e = .undefinedBehaviour := by
  unfold trackSecondLoop at h
  split at h
  · rename_i h1
    cases h
    exact secondLoopLines_error _ _ _ _ h1
  · split at h
    · rename_i h2
      cases h
      exact secondLoopCylinders_error _ _ _ _ h2
    · split at h
      · rename_i h3
        cases h
        exact secondLoopCircles_error _ _ _ _ h3
      · cases h

theorem kltBlock_error {onThrow : Err} {interaction : Option (Nat → Row × ℚ)}
    {nbPoints shift : Nat} {L_klt : VpMatrix} {R_klt : ColVector} {e : Err}
    (h : kltBlock onThrow interaction nbPoints shift L_klt R_klt = .error e) :
    e = onThrow ∨ e = .subViewError := by
  unfold kltBlock at h
  split at h
  · split at h
    · cases h; exact Or.inl rfl
    · cases h
  · cases h; exact Or.inr rfl

theorem kltFillPolygons_error {ctTc0 : Pose} {e : Err} (ls : List (KltPoints Pose)) :
    ∀ (shift : Nat) (L : VpMatrix) (R : ColVector),
      kltFillPolygons ctTc0 ls shift L R = .error e → e = .collaborator ∨ e = .subViewError := by
  induction ls with
  | nil => intro n L R h; cases h
  | cons l rest ih =>
    intro n L R h
    unfold kltFillPolygons at h
    split at h
    · split at h
      · rename_i hc
        cases h
        exact kltBlock_error hc
      · exact ih _ _ _ h
    · exact ih _ _ _ h

theorem kltFillCylinders_error {ctTc0 : Pose} {e : Err} (ls : List (KltCylinder Pose)) :
    ∀ (shift : Nat) (L : VpMatrix) (R : ColVector),
      kltFillCylinders ctTc0 ls shift L R = .error e →
        e = .fatalInteractionMatrix ∨ e = .subViewError := by
  induction ls with
  | nil => intro n L R h; cases h
  | cons l rest ih =>
    intro n L R h
    unfold kltFillCylinders at h
    split at h
    · split at h
      · rename_i hc
        cases h
        exact kltBlock_error hc
      · exact ih _ _ _ h
    · exact ih _ _ _ h

theorem kltFill_error {t : Tracker Pose} {ctTc0 : Pose} {L : VpMatrix} {R : ColVector} {e : Err}
    (h : kltFill t ctTc0 L R = .error e) :
    e = .collaborator ∨ e = .fatalInteractionMatrix ∨ e = .subViewError := by
  unfold kltFill at h
  split at h
  · rename_i h1
    cases h
    rcases kltFillPolygons_error _ _ _ _ h1 with h | h
    · exact Or.inl h
    · exact Or.inr (Or.inr h)
  · split at h
    · rename_i h2
      cases h
      exact Or.inr (kltFillCylinders_error _ _ _ _ h2)
    · cases h

theorem refill_error {t : Tracker Pose} {lvl : Nat} {s : LoopState Pose} {e : Err}
    (h : refill t lvl s = .error e) : LoopErr e := by
  unfold refill at h
  split at h
  · rename_i h1
    cases h
    split at h1
    · exact Or.inl (trackSecondLoop_error h1)
    · cases h1
  · split at h
    · rename_i h2
      cases h
      split at h2
      · rcases kltFill_error h2 with h | h | h <;> simp [LoopErr, h]
      · cases h2
    · cases h

theorem overwritePrefix_error {x : ColVector} {n : Nat} {f : Nat → ℚ} {e : Err}
    (h : overwritePrefix x n f = .error e) : e = .undefinedBehaviour := by
  unfold overwritePrefix at h
  split at h
  · cases h
  · cases h; rfl

theorem acceptedStep_error {env : Collaborators Pose} {t : Tracker Pose} {s : LoopState Pose}
    {e : Err} (h : acceptedStep env t s = .error e) : e = .undefinedBehaviour := by
  unfold acceptedStep at h
  split at h
  · rename_i h1
    cases h
    unfold robustWeights at h1
    split at h1
    · rename_i h2
      cases h1
      split at h2
      · exact overwritePrefix_error h2
      · cases h2
    · split at h1
      · rename_i h3
        cases h1
        split at h3
        · exact overwritePrefix_error h3
        · cases h3
      · cases h1
  · split at h
    · rename_i h2
      cases h
      unfold fuseWeights at h2
      split at h2
      · exact overwritePrefix_error h2
      · cases h2; rfl
    · split at h
      · cases h
      · cases h; rfl

theorem iteration_error {env : Collaborators Pose} {t : Tracker Pose} {lvl : Nat}
    {s : LoopState Pose} {e : Err} (h : iteration env t lvl s = .error e) : LoopErr e := by
  unfold iteration at h
  split at h
  · rename_i h1
    cases h
    exact refill_error h1
  · split at h
    · rename_i h2
      cases h
      split at h2
      · unfold rejectedStep at h2
        split at h2
        · cases h2
          exact Or.inr (Or.inr (Or.inr (Or.inr rfl)))
        · cases h2
      · exact Or.inl (acceptedStep_error h2)
    · cases h

/-! ## Helper lemmas: the loop -/

theorem vvsInit_ok {env : Collaborators Pose} {t : Tracker Pose} {lvl : Nat} {m : Members Pose}
    {nbInfos : Nat} {s0 : LoopState Pose} (h : vvsInit env t lvl m nbInfos = .ok s0) :
    ∃ nbrow factor, trackFirstLoop t [] lvl = .ok (nbrow, factor) ∧
      ¬ (nbrow < 4 ∧ nbInfos < 4) ∧
      s0 = initState env m (if nbrow < 4 then 0 else nbrow) nbInfos factor := by
  unfold vvsInit at h
  split at h
  · cases h
  · rename_i nbrow factor h1
    split at h
    · cases h
    · rename_i h2
      cases h
      exact ⟨nbrow, factor, h1, h2, rfl⟩

theorem vvsIterate_invariant {env : Collaborators Pose} {t : Tracker Pose} {lvl : Nat}
    (P : LoopState Pose → Prop)
    (hstep : ∀ s s1, P s → loopCond t s = true → iteration env t lvl s = .ok s1 → P s1) :
    ∀ (k : Nat) (s s1 : LoopState Pose), P s → vvsIterate env t lvl k s = some s1 → P s1 := by
  intro k
  induction k with
  | zero =>
    intro s s1 hP h
    simp only [vvsIterate, Option.some.injEq] at h
    exact h ▸ hP
  | succ k ih =>
    intro s s1 hP h
    unfold vvsIterate at h
    split at h
    · rename_i hc
      split at h
      · cases h
      · rename_i s2 h2
        exact ih s2 s1 (hstep s s2 hP hc h2) h
    · cases h

theorem vvsIterate_iter {env : Collaborators Pose} {t : Tracker Pose} {lvl : Nat} :
    ∀ (k : Nat) (s s1 : LoopState Pose), vvsIterate env t lvl k s = some s1 →
      SameFrame s s1 ∧ s1.iter = s.iter + k := by
  intro k
  induction k with
  | zero =>
    intro s s1 h
    simp only [vvsIterate, Option.some.injEq] at h
    subst h
    simp [SameFrame]
  | succ k ih =>
    intro s s1 h
    unfold vvsIterate at h
    split at h
    · split at h
      · cases h
      · rename_i s2 h2
        obtain ⟨a, a7⟩ := iteration_frame h2
        obtain ⟨b, b7⟩ := ih s2 s1 h
        exact ⟨a.trans b, by omega⟩
    · cases h

theorem vvsLoop_reachable {env : Collaborators Pose} {t : Tracker Pose} {lvl : Nat} :
    ∀ (fuel : Nat) (s : LoopState Pose) (o : Outcome Pose), vvsLoop env t lvl fuel s = some o →
      ∃ k s1, k ≤ fuel ∧ vvsIterate env t lvl k s = some s1 ∧
        ((o = .returned s1 ∧ loopCond t s1 = false) ∨
         (∃ e, o = .raised e s1.toMembers ∧ loopCond t s1 = true ∧
            iteration env t lvl s1 = .error e)) := by
  intro fuel
  induction fuel with
  | zero =>
    intro s o h
    unfold vvsLoop at h
    split at h
    · cases h
    · rename_i hc
      cases h
      exact ⟨0, s, le_refl _, rfl, Or.inl ⟨rfl, by simpa using hc⟩⟩
  | succ fuel ih =>
    intro s o h
    unfold vvsLoop at h
    split at h
    · rename_i hc
      split at h
      · rename_i e he
        cases h
        exact ⟨0, s, Nat.zero_le _, rfl, Or.inr ⟨e, rfl, hc, he⟩⟩
      · rename_i s2 h2
        obtain ⟨k, s1, hk, hit, hres⟩ := ih s2 o h
        refine ⟨k + 1, s1, by omega, ?_, hres⟩
        simp [vvsIterate, hc, h2, hit]
    · rename_i hc
      cases h
      exact ⟨0, s, Nat.zero_le _, rfl, Or.inl ⟨rfl, by simpa using hc⟩⟩

theorem loopCond_iter_lt {t : Tracker Pose} {s : LoopState Pose} (h : loopCond t s = true) :
    s.iter < t.maxIter := by
  simp [loopCond] at h
  exact h.2

theorem iterationsRun_le {env : Collaborators Pose} {t : Tracker Pose} {lvl : Nat} :
    ∀ (fuel : Nat) (s : LoopState Pose), iterationsRun env t lvl fuel s ≤ t.maxIter - s.iter := by
  intro fuel
  induction fuel with
  | zero => intro s; simp [iterationsRun]
  | succ fuel ih =>
    intro s
    unfold iterationsRun
    split
    · rename_i hc
      have hlt := loopCond_iter_lt hc
      split
      · omega
      · rename_i s1 h1
        have h2 := ih s1
        have h3 := (iteration_frame h1).2
        omega
    · omega

theorem vvsLoop_terminates {env : Collaborators Pose} {t : Tracker Pose} {lvl : Nat} :
    ∀ (fuel : Nat) (s : LoopState Pose), t.maxIter - s.iter ≤ fuel →
      vvsLoop env t lvl fuel s ≠ none := by
  intro fuel
  induction fuel with
  | zero =>
    intro s hf
    unfold vvsLoop
    split
    · rename_i hc
      have := loopCond_iter_lt hc
      omega
    · simp
  | succ fuel ih =>
    intro s hf
    unfold vvsLoop
    split
    · rename_i hc
      have hlt := loopCond_iter_lt hc
      split
      · simp
      · rename_i s1 h1
        have h3 := (iteration_frame h1).2
        exact ih s1 (by omega)
    · simp

theorem vvsLoop_fuel_irrelevant {env : Collaborators Pose} {t : Tracker Pose} {lvl : Nat} :
    ∀ (fuel fuel1 : Nat) (s : LoopState Pose), t.maxIter - s.iter ≤ fuel →
      t.maxIter - s.iter ≤ fuel1 → vvsLoop env t lvl fuel s = vvsLoop env t lvl fuel1 s := by
  intro fuel
  induction fuel with
  | zero =>
    intro fuel1 s hf hf1
    have hnc : loopCond t s = false := by
      cases hc : loopCond t s
      · rfl
      · have := loopCond_iter_lt hc
        omega
    cases fuel1 <;> simp [vvsLoop, hnc]
  | succ fuel ih =>
    intro fuel1 s hf hf1
    cases hc : loopCond t s
    · cases fuel1 <;> simp [vvsLoop, hc]
    · have hlt := loopCond_iter_lt hc
      cases fuel1 with
      | zero => omega
      | succ fuel1 =>
        simp only [vvsLoop, hc, if_true]
        cases h1 : iteration env t lvl s with
        | error e => rfl
        | ok s1 =>
          have h3 := (iteration_frame h1).2
          exact ih fuel1 s1 (by omega) (by omega)

theorem computeVVS_returned {env : Collaborators Pose} {t : Tracker Pose} {lvl fuel : Nat}
    {m : Members Pose} {nbInfos : Nat} {sF : LoopState Pose}
    (h : computeVVS env t lvl fuel m nbInfos = some (.returned sF)) :
    ∃ s0 k s, vvsInit env t lvl m nbInfos = .ok s0 ∧ vvsIterate env t lvl k s0 = some s ∧
      loopCond t s = false ∧ sF = finishCovariance env t s := by
  unfold computeVVS at h
  split at h
  · cases h
  · rename_i s0 h0
    split at h
    · cases h
    · cases h
    · rename_i s hl
      obtain ⟨k, s1, -, hit, hres⟩ := vvsLoop_reachable fuel s0 _ hl
      rcases hres with ⟨ho, hc⟩ | ⟨e, ho, -, -⟩
      · cases ho
        cases h
        exact ⟨s0, k, s, h0, hit, hc, rfl⟩
      · cases ho

theorem computeVVS_raised {env : Collaborators Pose} {t : Tracker Pose} {lvl fuel : Nat}
    {m m1 : Members Pose} {nbInfos : Nat} {e : Err}
    (h : computeVVS env t lvl fuel m nbInfos = some (.raised e m1)) :
    (vvsInit env t lvl m nbInfos = .error e ∧ m1 = m) ∨
    (∃ s0 k s, vvsInit env t lvl m nbInfos = .ok s0 ∧ vvsIterate env t lvl k s0 = some s ∧
      iteration env t lvl s = .error e ∧ m1 = s.toMembers) := by
  unfold computeVVS at h
  split at h
  · rename_i e1 h0
    cases h
    exact Or.inl ⟨h0, rfl⟩
  · rename_i s0 h0
    split at h
    · cases h
    · rename_i e1 m2 hl
      cases h
      obtain ⟨k, s1, -, hit, hres⟩ := vvsLoop_reachable fuel s0 _ hl
      rcases hres with ⟨ho, -⟩ | ⟨e2, ho, -, he⟩
      · cases ho
      · cases ho
        exact Or.inr ⟨s0, k, s1, h0, hit, he, rfl⟩
    · cases h

/-! ## Minimum data (C1) -/

/-- C1. Whenever the attenuation pass returns a contour row count `nbrow` with
`nbrow + nbInfos < 4` (which covers a total of 3, and also the count `nbrow + 2 * nbInfos` of
residual rows), `computeVVS` raises the not-enough-data error in the part before the loop, and the
exception leaves with the members exactly as they were passed in: `cMo` and `ctTc0` (and every
other member) are unchanged. -/
theorem computeVVS_notEnoughData_keeps_pose (env : Collaborators Pose) (t : Tracker Pose)
    (lvl fuel : Nat) (m : Members Pose) (nbInfos nbrow : Nat) (factor : ColVector)
    (hrow : trackFirstLoop t [] lvl = .ok (nbrow, factor)) (hlt : nbrow + nbInfos < 4) :
    vvsInit env t lvl m nbInfos = .error .notEnoughPointError ∧
    ∃ m1, computeVVS env t lvl fuel m nbInfos = some (.raised .notEnoughPointError m1) ∧
      m1.cMo = m.cMo ∧ m1.ctTc0 = m.ctTc0 ∧ m1 = m := by
  have h0 : vvsInit env t lvl m nbInfos = .error .notEnoughPointError := by
    unfold vvsInit
    rw [hrow]
    simp only
    rw [if_pos ⟨by omega, by omega⟩]
  refine ⟨h0, m, ?_, rfl, rfl, rfl⟩
  unfold computeVVS
  rw [h0]

/-- Witness of C1: one line with 3 sites and no tracked point (3 rows in total). -/
theorem computeVVS_notEnoughData_keeps_pose_witness :
    trackFirstLoop (exTracker [exLine 3] [] .GAUSS_NEWTON_OPT 200) [] 0 = .ok (3, [1, 1, 1]) ∧
    3 + 0 < 4 ∧
    ∃ m1, computeVVS (exEnv 0) (exTracker [exLine 3] [] .GAUSS_NEWTON_OPT 200) 0 200
        (exMembers 5 [] []) 0 = some (.raised .notEnoughPointError m1) ∧
      m1.cMo = 5 ∧ m1.ctTc0 = 0 ∧ m1 = exMembers 5 [] [] :=
  ⟨by rfl, by decide,
    (computeVVS_notEnoughData_keeps_pose (exEnv 0)
      (exTracker [exLine 3] [] .GAUSS_NEWTON_OPT 200) 0 200 (exMembers 5 [] []) 0 3 [1, 1, 1]
      (by rfl) (by decide)).2⟩

/-- The guard of `computeVVS`, for any point count.  Let `nbrow` be the contour row count
returned by the attenuation pass.  The not-enough-data error is raised exactly when `nbrow < 4`
and `nbInfos < 4`: it is raised in that case, and in no other case, neither before the loop nor
by an iteration.  When the point count is 0 or at least 4 the condition is the same as
`nbrow + nbInfos < 4`. -/
theorem computeVVS_notEnoughData_iff (env : Collaborators Pose) (t : Tracker Pose)
    (lvl fuel : Nat) (m : Members Pose) (nbInfos nbrow : Nat) (factor : ColVector)
    (hrow : trackFirstLoop t [] lvl = .ok (nbrow, factor)) :
    (nbrow < 4 ∧ nbInfos < 4 →
      computeVVS env t lvl fuel m nbInfos = some (.raised .notEnoughPointError m)) ∧
    (¬ (nbrow < 4 ∧ nbInfos < 4) →
      ∀ m1, computeVVS env t lvl fuel m nbInfos ≠ some (.raised .notEnoughPointError m1)) ∧
    (nbrow + nbInfos < 4 → nbrow < 4 ∧ nbInfos < 4) ∧
    (nbInfos = 0 ∨ 4 ≤ nbInfos → ((nbrow < 4 ∧ nbInfos < 4) ↔ nbrow + nbInfos < 4)) := by
  refine ⟨?_, ?_, ?_, ?_⟩
  · intro hlt
    have h0 : vvsInit env t lvl m nbInfos = .error .notEnoughPointError := by
      unfold vvsInit
      rw [hrow]
      simp only
      rw [if_pos hlt]
    unfold computeVVS
    rw [h0]
  · intro hge m1 hr
    rcases computeVVS_raised hr with ⟨h0, -⟩ | ⟨s0, k, s, -, -, he, -⟩
    · unfold vvsInit at h0
      rw [hrow] at h0
      simp only at h0
      rw [if_neg hge] at h0
      cases h0
    · rcases iteration_error he with h | h | h | h | h <;> cases h
  · intro h
    omega
  · intro h
    omega

/-! ## Modality shares (C3) -/

theorem initState_shares (env : Collaborators Pose) (m : Members Pose) (nbrow nbInfos : Nat)
    (factor : ColVector) :
    (initState env m nbrow nbInfos factor).factorMBT = (if nbInfos < 4 then 1 else 0.35) ∧
    (initState env m nbrow nbInfos factor).factorKLT = (if nbrow < 4 then 1 else 0.65) ∧
    (initState env m nbrow nbInfos factor).nbrow = nbrow ∧
    (initState env m nbrow nbInfos factor).nbInfos = nbInfos ∧
    (initState env m nbrow nbInfos factor).factor = factor ∧
    (initState env m nbrow nbInfos factor).iter = 0 ∧
    (initState env m nbrow nbInfos factor).toMembers = m := by
  simp [initState, modalityShares]

theorem finishCovariance_frame (env : Collaborators Pose) (t : Tracker Pose)
    (s : LoopState Pose) :
    SameFrame s (finishCovariance env t s) ∧ (finishCovariance env t s).cMo = s.cMo ∧
      (finishCovariance env t s).ctTc0 = s.ctTc0 ∧ (finishCovariance env t s).iter = s.iter := by
  unfold finishCovariance
  split <;> simp [SameFrame]

theorem acceptedStep_m_error {env : Collaborators Pose} {t : Tracker Pose}
    {s s2 : LoopState Pose} (h : acceptedStep env t s = .ok s2) :
    s2.m_error = stackedR s2 ∧ s2.R_mbt = s.R_mbt ∧ s2.R_klt = s.R_klt ∧
      s2.L_mbt = s.L_mbt ∧ s2.L_klt = s.L_klt := by
  obtain ⟨sa, m_w, ha, -, rfl⟩ := acceptedStep_ok h
  obtain ⟨_, _, _, _, rfl, -, -⟩ := robustWeights_ok ha
  obtain ⟨-, -, -, -, -, -, -, -, -, -, c1, c2, c3, c4, -⟩ := allocateWeights_frame s
  simp [weightedSolve, poseUpdate, stackedR, c1, c2, c3, c4]

/-- Counterexample to C3 as stated: a call with no contour row and 4 tracked points returns
normally after one iteration; the contour modality is the deficient one, and its share
`factorMBT` is 0.35, not 0 (the share of the point modality is 1). -/
theorem computeVVS_deficient_share_not_zero :
    ∃ s, computeVVS (exEnv 0) (exTracker [] [exKlt 4] .GAUSS_NEWTON_OPT 1) 0 1
        (exMembers 5 [] []) 4 = some (.returned s) ∧
      s.iter = 1 ∧ s.nbrow = 0 ∧ s.factorKLT = 1 ∧ s.factorMBT = 0.35 ∧ s.factorMBT ≠ 0 := by
  refine ⟨_, by with_unfolding_all rfl, by with_unfolding_all rfl, by with_unfolding_all rfl,
    by with_unfolding_all rfl, by with_unfolding_all rfl, ?_⟩
  with_unfolding_all decide

/-- C3, amended. Let `nbrow` be the contour row count returned by the attenuation pass, and let
a call of `computeVVS` return normally.  If the contour modality is deficient (`nbrow < 4`) the
point share `factorKLT` is exactly 1 and the contour share `factorMBT` keeps its fixed-split
value 0.35 (it is not 0); if the point modality is deficient (`nbInfos < 4`) the contour share
`factorMBT` is exactly 1 and the point share `factorKLT` keeps its value 0.65.  The deficient
modality is left out of the solve because none of its rows is stacked: in every accepted
iteration of the call the residual of the solve consists of the rows of the other modality
only. -/
theorem computeVVS_degenerate_modality_shares (env : Collaborators Pose) (t : Tracker Pose)
    (lvl fuel : Nat) (m : Members Pose) (nbInfos nbrow : Nat) (factor : ColVector)
    (sF : LoopState Pose)
    (hrow : trackFirstLoop t [] lvl = .ok (nbrow, factor))
    (hret : computeVVS env t lvl fuel m nbInfos = some (.returned sF)) :
    (nbrow < 4 → 4 ≤ nbInfos ∧ sF.nbrow = 0 ∧ sF.factorKLT = 1 ∧ sF.factorMBT = 0.35) ∧
    (nbInfos < 4 → 4 ≤ nbrow ∧ sF.factorMBT = 1 ∧ sF.factorKLT = 0.65) ∧
    (∀ s0 k s s1, vvsInit env t lvl m nbInfos = .ok s0 → vvsIterate env t lvl k s0 = some s →
      rejected t s = false → iteration env t lvl s = .ok s1 →
      s1.m_error = (if nbrow < 4 then [] else s1.R_mbt) ++ (if nbInfos < 4 then [] else s1.R_klt))
    := by
  obtain ⟨s0, k, s, h0, hk, -, rfl⟩ := computeVVS_returned hret
  obtain ⟨nbrow1, factor1, hrow1, hge, rfl⟩ := vvsInit_ok h0
  rw [hrow] at hrow1
  cases hrow1
  obtain ⟨⟨a1, a2, a3, a4, a5, a6⟩, -⟩ := vvsIterate_iter k _ _ hk
  obtain ⟨⟨b1, b2, b3, b4, b5, b6⟩, -⟩ := finishCovariance_frame env t s
  obtain ⟨i1, i2, i3, i4, -⟩ :=
    initState_shares env m (if nbrow < 4 then 0 else nbrow) nbInfos factor
  have hnb : (if nbrow < 4 then 0 else nbrow) < 4 ↔ nbrow < 4 := by
    split <;> omega
  have hnb3 : 3 < (if nbrow < 4 then 0 else nbrow) ↔ ¬ nbrow < 4 := by
    split <;> omega
  refine ⟨?_, ?_, ?_⟩
  · intro hlt
    have hinf : 4 ≤ nbInfos := by
      by_contra hc
      exact hge ⟨hlt, by omega⟩
    refine ⟨hinf, ?_, ?_, ?_⟩
    · rw [b1, a1, i3, if_pos hlt]
    · rw [b5, a5, i2, if_pos (hnb.2 hlt)]
    · rw [b4, a4, i1, if_neg (by omega)]
  · intro hlt
    have hrw : 4 ≤ nbrow := by
      by_contra hc
      exact hge ⟨by omega, hlt⟩
    refine ⟨hrw, ?_, ?_⟩
    · rw [b4, a4, i1, if_pos hlt]
    · rw [b5, a5, i2, if_neg (by rw [hnb]; omega)]
  · intro s0 k1 s2 s3 h0a hk1 hacc hit
    rw [h0] at h0a
    cases h0a
    obtain ⟨⟨c1, c2, -⟩, -⟩ := vvsIterate_iter k1 _ _ hk1
    obtain ⟨⟨d1, d2, -⟩, -⟩ := iteration_frame hit
    obtain ⟨sa, sb, hre, rfl, hcase⟩ := iteration_ok hit
    rcases hcase with ⟨hr, -⟩ | ⟨-, hb⟩
    · rw [hacc] at hr
      cases hr
    · obtain ⟨e1, -⟩ := acceptedStep_m_error hb
      have e2 : sb.nbrow = (if nbrow < 4 then 0 else nbrow) := by
        have := d1
        simp only at this
        rw [this, c1, i3]
      have e3 : sb.nbInfos = nbInfos := by
        have := d2
        simp only at this
        rw [this, c2, i4]
      show sb.m_error = (if nbrow < 4 then [] else sb.R_mbt) ++
        (if nbInfos < 4 then [] else sb.R_klt)
      rw [e1]
      unfold stackedR
      rw [e2, e3]
      have hi3 : 3 < nbInfos ↔ ¬ nbInfos < 4 := by omega
      have hA : (if 3 < (if nbrow < 4 then 0 else nbrow) then sb.R_mbt else [])
          = (if nbrow < 4 then [] else sb.R_mbt) := by
        by_cases hn : nbrow < 4
        · rw [if_neg (by rw [hnb3]; exact not_not.2 hn), if_pos hn]
        · rw [if_pos (hnb3.2 hn), if_neg hn]
      have hB : (if 3 < nbInfos then sb.R_klt else [])
          = (if nbInfos < 4 then [] else sb.R_klt) := by
        by_cases hi : nbInfos < 4
        · rw [if_neg (by omega), if_pos hi]
        · rw [if_pos (by omega), if_neg hi]
      rw [hA, hB]

/-- Witness of the amended C3: no contour row, 4 tracked points, one iteration. -/
theorem computeVVS_degenerate_modality_shares_witness :
    ∃ sF, computeVVS (exEnv 0) (exTracker [] [exKlt 4] .GAUSS_NEWTON_OPT 1) 0 1
        (exMembers 5 [] []) 4 = some (.returned sF) ∧
      sF.nbrow = 0 ∧ sF.factorKLT = 1 ∧ sF.factorMBT = 0.35 ∧
      sF.m_error = [1, 1, 1, 1, 1, 1, 1, 1] :=
  ⟨_, by with_unfolding_all rfl,
    ((computeVVS_degenerate_modality_shares (exEnv 0)
      (exTracker [] [exKlt 4] .GAUSS_NEWTON_OPT 1) 0 1 (exMembers 5 [] []) 4 0 [] _
      (by rfl) (by with_unfolding_all rfl)).1 (by decide)).2.1,
    ((computeVVS_degenerate_modality_shares (exEnv 0)
      (exTracker [] [exKlt 4] .GAUSS_NEWTON_OPT 1) 0 1 (exMembers 5 [] []) 4 0 [] _
      (by rfl) (by with_unfolding_all rfl)).1 (by decide)).2.2.1,
    ((computeVVS_degenerate_modality_shares (exEnv 0)
      (exTracker [] [exKlt 4] .GAUSS_NEWTON_OPT 1) 0 1 (exMembers 5 [] []) 4 0 [] _
      (by rfl) (by with_unfolding_all rfl)).1 (by decide)).2.2.2,
    by with_unfolding_all rfl⟩

/-! ## Iteration cap (C8) -/

/-- C8. For every tracker, every optimisation method, every loop state and every bound `fuel`
on the run: the loop body of `computeVVS` is started at most `maxIter - iter` times (a rejected
Levenberg-Marquardt iteration counts, as does an iteration that raises), so at most `maxIter`
times from the initial state; a bound of `maxIter - iter` already lets the loop finish, so the
solve terminates; at `iter = maxIter` the loop exits normally with the state it has, without
raising; and `computeVVS` as a whole finishes within the bound `maxIter`. -/
theorem computeVVS_iteration_cap (env : Collaborators Pose) (t : Tracker Pose) (lvl : Nat)
    (m : Members Pose) (nbInfos fuel : Nat) (s : LoopState Pose) :
    iterationsRun env t lvl fuel s ≤ t.maxIter - s.iter ∧
    (t.maxIter - s.iter ≤ fuel → vvsLoop env t lvl fuel s ≠ none) ∧
    (t.maxIter ≤ s.iter → vvsLoop env t lvl fuel s = some (.returned s)) ∧
    (∀ s0, vvsInit env t lvl m nbInfos = .ok s0 → iterationsRun env t lvl fuel s0 ≤ t.maxIter) ∧
    (t.maxIter ≤ fuel → computeVVS env t lvl fuel m nbInfos ≠ none) ∧
    (∀ sF, computeVVS env t lvl fuel m nbInfos = some (.returned sF) → sF.iter ≤ t.maxIter) := by
  refine ⟨iterationsRun_le fuel s, vvsLoop_terminates fuel s, ?_, ?_, ?_, ?_⟩
  · intro hcap
    have hnc : loopCond t s = false := by
      cases hc : loopCond t s
      · rfl
      · have := loopCond_iter_lt hc
        omega
    cases fuel <;> simp [vvsLoop, hnc]
  · intro s0 _
    exact le_trans (iterationsRun_le fuel s0) (Nat.sub_le _ _)
  · intro hfuel
    unfold computeVVS
    split
    · simp
    · rename_i s0 h0
      have := @vvsLoop_terminates Pose env t lvl fuel s0 (by omega)
      split
      · rename_i hl
        exact absurd hl this
      · simp
      · simp
  · intro sF hret
    obtain ⟨s0, k, s1, h0, hk, hc, rfl⟩ := computeVVS_returned hret
    obtain ⟨nbrow, factor, -, -, rfl⟩ := vvsInit_ok h0
    obtain ⟨-, hiter⟩ := vvsIterate_iter k _ _ hk
    rw [(finishCovariance_frame env t s1).2.2.2, hiter]
    have h00 : (initState env m (if nbrow < 4 then 0 else nbrow) nbInfos factor).iter = 0 := rfl
    rw [h00]
    clear hret h0
    induction k generalizing s1 with
    | zero => omega
    | succ k ih =>
      -- the state before the last iteration satisfied the loop condition
      have : ∃ s2, vvsIterate env t lvl k
          (initState env m (if nbrow < 4 then 0 else nbrow) nbInfos factor) = some s2 ∧
          loopCond t s2 = true := by
        clear ih hiter hc
        generalize initState env m (if nbrow < 4 then 0 else nbrow) nbInfos factor = s0 at hk
        induction k generalizing s0 with
        | zero =>
          unfold vvsIterate at hk
          split at hk
          · rename_i hc0
            exact ⟨s0, rfl, hc0⟩
          · cases hk
        | succ k ih2 =>
          unfold vvsIterate at hk
          split at hk
          · rename_i hc0
            split at hk
            · cases hk
            · rename_i s3 h3
              obtain ⟨s2, hs2, hc2⟩ := ih2 s3 hk
              refine ⟨s2, ?_, hc2⟩
              simp [vvsIterate, hc0, h3, hs2]
          · cases hk
      obtain ⟨s2, hs2, hc2⟩ := this
      have h1 := loopCond_iter_lt hc2
      have h2 := (vvsIterate_iter k _ _ hs2).2
      rw [h00] at h2
      omega

/-- Witness of C8: a Levenberg-Marquardt solve on 4 contour rows whose residue never settles
runs into the cap `maxIter = 2`; it returns normally after exactly 2 iterations, also when the
bound on the run is 50. -/
theorem computeVVS_iteration_cap_witness :
    (∃ sF, computeVVS (exEnv (-1)) (exTracker [exLine 4] [] .LEVENBERG_MARQUARDT_OPT 2) 0 50
        (exMembers 1 [] []) 0 = some (.returned sF) ∧ sF.iter = 2) ∧
    computeVVS (exEnv (-1)) (exTracker [exLine 4] [] .LEVENBERG_MARQUARDT_OPT 2) 0 50
        (exMembers 1 [] []) 0 ≠ none :=
  ⟨⟨_, by with_unfolding_all rfl, by with_unfolding_all rfl⟩,
    (computeVVS_iteration_cap (exEnv (-1))
      (exTracker [exLine 4] [] .LEVENBERG_MARQUARDT_OPT 2) 0 (exMembers 1 [] []) 0 50
      (initState (exEnv (-1)) (exMembers 1 [] []) 4 0 [1, 1, 1, 1])).2.2.2.2.1 (by decide)⟩

/-! ## Rejected Levenberg-Marquardt iterations (C6) -/

/-- C6. In every loop state in which the Levenberg-Marquardt test rejects the last step
(`rejected t s`, which requires Levenberg-Marquardt mode and `iter != 0`) and the iteration does
not raise: the damping factor after the iteration is exactly 10 times the one before; `cMo` and
`ctTc0` are exactly the snapshots `cMoPrev` and `ctTc0_Prev` (and `m_error`, `m_w` their
snapshots); no velocity is solved (`v`, `residu`, `residu_1` and both weight vectors are
unchanged); and the iteration counter still advances by one. -/
theorem iteration_rejected_rollback (env : Collaborators Pose) (t : Tracker Pose) (lvl : Nat)
    (s s1 : LoopState Pose) (hrej : rejected t s = true)
    (hit : iteration env t lvl s = .ok s1) :
    t.m_optimizationMethod = .LEVENBERG_MARQUARDT_OPT ∧ s.iter ≠ 0 ∧
    s1.mu = s.mu * 10 ∧ s1.cMo = s.cMoPrev ∧ s1.ctTc0 = s.ctTc0_Prev ∧
    s1.m_error = s.m_error_prev ∧ s1.m_w = s.m_w_prev ∧
    s1.v = s.v ∧ s1.residu = s.residu ∧ s1.residu_1 = s.residu_1 ∧
    s1.w_mbt = s.w_mbt ∧ s1.w_klt = s.w_klt ∧
    s1.cMoPrev = s.cMoPrev ∧ s1.ctTc0_Prev = s.ctTc0_Prev ∧ s1.iter = s.iter + 1 := by
  obtain ⟨sa, sb, hre, rfl, hcase⟩ := iteration_ok hit
  have hr := hrej
  simp only [rejected, Bool.and_eq_true, decide_eq_true_eq] at hr
  refine ⟨hr.1.2, hr.1.1, ?_⟩
  rcases hcase with ⟨-, hb⟩ | ⟨hacc, -⟩
  · obtain ⟨-, rfl⟩ := rejectedStep_ok hb
    obtain ⟨_, _, _, _, rfl, -, -⟩ := refill_ok hre
    simp
  · rw [hrej] at hacc
    cases hacc

/-- Witness of C6: in `exRejectedState` the iteration is rejected; the damping goes from 1/100
to 1/10 and the pose goes back from 2 to the snapshot 1. -/
theorem iteration_rejected_rollback_witness :
    rejected (exTracker [exLine 4] [] .LEVENBERG_MARQUARDT_OPT 200) exRejectedState = true ∧
    exRejectedState.mu = 1 / 100 ∧ exRejectedState.cMo = 2 ∧
    ∃ s1, iteration (exEnv (-1)) (exTracker [exLine 4] [] .LEVENBERG_MARQUARDT_OPT 200) 0
        exRejectedState = .ok s1 ∧
      s1.mu = 1 / 10 ∧ s1.cMo = 1 ∧ s1.ctTc0 = 0 ∧ s1.v = [-1, 0, 0, 0, 0, 0] :=
  ⟨by with_unfolding_all rfl, by with_unfolding_all rfl, by with_unfolding_all rfl, _,
    by with_unfolding_all rfl,
    by
      have h := (iteration_rejected_rollback (exEnv (-1))
        (exTracker [exLine 4] [] .LEVENBERG_MARQUARDT_OPT 200) 0 exRejectedState _
        (by with_unfolding_all rfl) (by with_unfolding_all rfl)).2.2.1
      rw [h]
      with_unfolding_all rfl,
    by with_unfolding_all rfl, by with_unfolding_all rfl, by with_unfolding_all rfl⟩

/-! ## Pose invariant and pose composition (C9, C10) -/

theorem acceptedStep_pose {env : Collaborators Pose} {t : Tracker Pose} {s s2 : LoopState Pose}
    (h : acceptedStep env t s = .ok s2) :
    s2.ctTc0 = env.mul (env.inverse (env.expDirect s2.v)) s.ctTc0 ∧
    s2.cMo = env.mul s2.ctTc0 s.c0Mo ∧ s2.cMoPrev = s.cMo ∧ s2.ctTc0_Prev = s.ctTc0 ∧
    s2.c0Mo = s.c0Mo := by
  obtain ⟨sa, m_w, ha, -, rfl⟩ := acceptedStep_ok h
  obtain ⟨_, _, _, _, rfl, -, -⟩ := robustWeights_ok ha
  obtain ⟨-, -, -, -, -, c6, c7, c8, -⟩ := allocateWeights_frame s
  simp [weightedSolve, poseUpdate, c6, c7, c8]

theorem iteration_poseInvariant {env : Collaborators Pose} {t : Tracker Pose} {lvl : Nat}
    {s s3 : LoopState Pose} (hP : PoseInvariant env s) (hit : iteration env t lvl s = .ok s3) :
    PoseInvariant env s3 := by
  obtain ⟨sa, sb, hre, rfl, hcase⟩ := iteration_ok hit
  obtain ⟨_, _, _, _, rfl, -, -⟩ := refill_ok hre
  rcases hcase with ⟨hrej, hb⟩ | ⟨-, hb⟩
  · obtain ⟨-, rfl⟩ := rejectedStep_ok hb
    have hr := hrej
    simp only [rejected, Bool.and_eq_true, decide_eq_true_eq] at hr
    have h1 := hP.2 hr.1.1
    exact ⟨h1, fun _ => h1⟩
  · obtain ⟨p1, p2, p3, p4, p5⟩ := acceptedStep_pose hb
    refine ⟨?_, fun _ => ?_⟩
    · show sb.cMo = env.mul sb.ctTc0 sb.c0Mo
      rw [p2, p5]
    · show sb.cMoPrev = env.mul sb.ctTc0_Prev sb.c0Mo
      rw [p3, p4, p5]
      exact hP.1

theorem initState_poseInvariant (env : Collaborators Pose) (m : Members Pose)
    (nbrow nbInfos : Nat) (factor : ColVector) (h : m.cMo = env.mul m.ctTc0 m.c0Mo) :
    PoseInvariant env (initState env m nbrow nbInfos factor) :=
  ⟨h, fun hne => absurd rfl hne⟩

/-- C9. No iteration of the loop of `computeVVS` writes `c0Mo`: in every state the loop reaches,
and in every way the call can end (a return or an exception), `c0Mo` is the frozen pose passed
in.  If `cMo = ctTc0 * c0Mo` holds when the loop is entered, it holds after every iteration,
whether the iteration was an accepted step or a rejected Levenberg-Marquardt step, and in the
state returned by the call. -/
theorem computeVVS_pose_invariant (env : Collaborators Pose) (t : Tracker Pose) (lvl : Nat)
    (m : Members Pose) (nbInfos k : Nat) (s0 s : LoopState Pose)
    (h0 : vvsInit env t lvl m nbInfos = .ok s0)
    (hk : vvsIterate env t lvl k s0 = some s) :
    s.c0Mo = m.c0Mo ∧
    (∀ s1, iteration env t lvl s = .ok s1 → s1.c0Mo = s.c0Mo) ∧
    (∀ fuel sF, computeVVS env t lvl fuel m nbInfos = some (.returned sF) → sF.c0Mo = m.c0Mo) ∧
    (∀ fuel e m1, computeVVS env t lvl fuel m nbInfos = some (.raised e m1) →
      m1.c0Mo = m.c0Mo) ∧
    (m.cMo = env.mul m.ctTc0 m.c0Mo →
      s.cMo = env.mul s.ctTc0 s.c0Mo ∧
      (∀ s1, iteration env t lvl s = .ok s1 → s1.cMo = env.mul s1.ctTc0 s1.c0Mo) ∧
      (∀ fuel sF, computeVVS env t lvl fuel m nbInfos = some (.returned sF) →
        sF.cMo = env.mul sF.ctTc0 sF.c0Mo)) := by
  have hreach : ∀ (k1 : Nat) (sa sb : LoopState Pose), vvsInit env t lvl m nbInfos = .ok sa →
      vvsIterate env t lvl k1 sa = some sb → sb.c0Mo = m.c0Mo := by
    intro k1 sa sb ha hb
    obtain ⟨nbrow, factor, -, -, rfl⟩ := vvsInit_ok ha
    obtain ⟨⟨-, -, -, -, -, a6⟩, -⟩ := vvsIterate_iter k1 _ _ hb
    rw [a6]
    rfl
  have hinvr : m.cMo = env.mul m.ctTc0 m.c0Mo → ∀ (k1 : Nat) (sa sb : LoopState Pose),
      vvsInit env t lvl m nbInfos = .ok sa → vvsIterate env t lvl k1 sa = some sb →
      PoseInvariant env sb := by
    intro hm k1 sa sb ha hb
    obtain ⟨nbrow, factor, -, -, rfl⟩ := vvsInit_ok ha
    exact vvsIterate_invariant (PoseInvariant env)
      (fun x y hx _ hxy => iteration_poseInvariant hx hxy) k1 _ sb
      (initState_poseInvariant env m _ nbInfos factor hm) hb
  refine ⟨hreach k s0 s h0 hk, ?_, ?_, ?_, ?_⟩
  · intro s1 h1
    exact (iteration_frame h1).1.2.2.2.2.2
  · intro fuel sF hret
    obtain ⟨sa, k1, sb, ha, hb, -, rfl⟩ := computeVVS_returned hret
    rw [(finishCovariance_frame env t sb).1.2.2.2.2.2]
    exact hreach k1 sa sb ha hb
  · intro fuel e m1 hr
    rcases computeVVS_raised hr with ⟨-, rfl⟩ | ⟨sa, k1, sb, ha, hb, -, rfl⟩
    · rfl
    · exact hreach k1 sa sb ha hb
  · intro hm
    refine ⟨(hinvr hm k s0 s h0 hk).1, ?_, ?_⟩
    · intro s1 h1
      exact (iteration_poseInvariant (hinvr hm k s0 s h0 hk) h1).1
    · intro fuel sF hret
      obtain ⟨sa, k1, sb, ha, hb, -, rfl⟩ := computeVVS_returned hret
      obtain ⟨f1, f2, f3, -⟩ := finishCovariance_frame env t sb
      rw [f2, f3, f1.2.2.2.2.2]
      exact (hinvr hm k1 sa sb ha hb).1

/-- Witness of C9: two accepted iterations of a Levenberg-Marquardt solve on 4 contour rows,
entered with `cMo = 1`, `ctTc0 = 0`, `c0Mo = 1`, end in `cMo = 3`, `ctTc0 = 2`, `c0Mo = 1`. -/
theorem computeVVS_pose_invariant_witness :
    ∃ s, vvsIterate (exEnv (-1)) (exTracker [exLine 4] [] .LEVENBERG_MARQUARDT_OPT 2) 0 2
        (initState (exEnv (-1)) (exMembers 1 [] []) 4 0 [1, 1, 1, 1]) = some s ∧
      s.cMo = 3 ∧ s.ctTc0 = 2 ∧ s.c0Mo = 1 ∧ s.cMo = (exEnv (-1)).mul s.ctTc0 s.c0Mo :=
  ⟨_, by with_unfolding_all rfl, by with_unfolding_all rfl, by with_unfolding_all rfl,
    by with_unfolding_all rfl,
    ((computeVVS_pose_invariant (exEnv (-1))
      (exTracker [exLine 4] [] .LEVENBERG_MARQUARDT_OPT 2) 0 (exMembers 1 [] []) 0 2 _ _
      (by with_unfolding_all rfl) (by with_unfolding_all rfl)).2.2.2.2
        (by with_unfolding_all rfl)).1⟩

/-- C10. In every state of a solve (a state reached by the loop of a call of `computeVVS` that
was entered with `cMo = ctTc0 * c0Mo`), the pose-update step applied to the zero velocity, for
which the exponential map gives the identity transform, leaves `cMo` and `ctTc0` unchanged; and
so does an accepted iteration whose solved velocity is the zero velocity.  The identity
transform is assumed to be its own inverse and neutral on the left of a product. -/
theorem zero_velocity_keeps_pose (env : Collaborators Pose) (t : Tracker Pose) (lvl : Nat)
    (m : Members Pose) (nbInfos k : Nat) (s0 s : LoopState Pose)
    (h0 : vvsInit env t lvl m nbInfos = .ok s0)
    (hentry : m.cMo = env.mul m.ctTc0 m.c0Mo)
    (hk : vvsIterate env t lvl k s0 = some s)
    (hexp : env.expDirect zeroVelocity = env.identity)
    (hinv : env.inverse env.identity = env.identity)
    (hid : ∀ M, env.mul env.identity M = M) :
    (poseUpdate env s zeroVelocity).cMo = s.cMo ∧
    (poseUpdate env s zeroVelocity).ctTc0 = s.ctTc0 ∧
    (∀ s1, rejected t s = false → iteration env t lvl s = .ok s1 → s1.v = zeroVelocity →
      s1.cMo = s.cMo ∧ s1.ctTc0 = s.ctTc0) := by
  obtain ⟨nbrow, factor, -, -, rfl⟩ := vvsInit_ok h0
  have hP : PoseInvariant env s :=
    vvsIterate_invariant (PoseInvariant env)
      (fun x y hx _ hxy => iteration_poseInvariant hx hxy) k _ s
      (initState_poseInvariant env m _ nbInfos factor hentry) hk
  refine ⟨?_, ?_, ?_⟩
  · show env.mul (env.mul (env.inverse (env.expDirect zeroVelocity)) s.ctTc0) s.c0Mo = s.cMo
    rw [hexp, hinv, hid, ← hP.1]
  · show env.mul (env.inverse (env.expDirect zeroVelocity)) s.ctTc0 = s.ctTc0
    rw [hexp, hinv, hid]
  · intro s1 hacc hit hv
    obtain ⟨sa, sb, hre, rfl, hcase⟩ := iteration_ok hit
    obtain ⟨_, _, _, _, rfl, -, -⟩ := refill_ok hre
    rcases hcase with ⟨hrej, -⟩ | ⟨-, hb⟩
    · rw [hacc] at hrej
      cases hrej
    · obtain ⟨p1, p2, -, -, -⟩ := acceptedStep_pose hb
      have hv1 : sb.v = zeroVelocity := hv
      have hct : sb.ctTc0 = s.ctTc0 := by
        rw [p1, hv1, hexp, hinv, hid]
      refine ⟨?_, hct⟩
      show sb.cMo = s.cMo
      rw [p2, hct]
      exact hP.1.symm

/-- Witness of C10: in the scene whose solve returns the zero velocity, the first iteration
leaves the pose at 5. -/
theorem zero_velocity_keeps_pose_witness :
    (poseUpdate (exEnv 0) (initState (exEnv 0) (exMembers 5 [] []) 4 0 [1, 1, 1, 1])
      zeroVelocity).cMo = 5 ∧
    ∃ s1, iteration (exEnv 0) (exTracker [exLine 4] [] .GAUSS_NEWTON_OPT 3) 0
        (initState (exEnv 0) (exMembers 5 [] []) 4 0 [1, 1, 1, 1]) = .ok s1 ∧
      s1.v = zeroVelocity ∧ s1.cMo = 5 :=
  ⟨(zero_velocity_keeps_pose (exEnv 0) (exTracker [exLine 4] [] .GAUSS_NEWTON_OPT 3) 0
      (exMembers 5 [] []) 0 0 _ _ (by with_unfolding_all rfl) (by with_unfolding_all rfl)
      (by with_unfolding_all rfl) (by with_unfolding_all rfl) (by with_unfolding_all rfl)
      (fun M => Int.zero_add M)).1,
    _, by with_unfolding_all rfl, by with_unfolding_all rfl, by with_unfolding_all rfl⟩

/-! ## Helper lemmas: the attenuation factors -/

theorem lineFac_isFactor (l : DistanceLine Pose) (idx : List Int) : IsFactor (lineFac l idx) := by
  induction idx with
  | nil => exact Or.inl rfl
  | cons index rest ih =>
    unfold lineFac
    split
    · exact Or.inr (Or.inl rfl)
    · split
      · exact Or.inr (Or.inr rfl)
      · exact ih

theorem factorSites_factorVector {fac : ℚ} {site : Nat → Option MeSite} {n N : Nat}
    (hfac : IsFactor fac) :
    ∀ (count i : Nat) (factor factor1 : ColVector), FactorVector N factor →
      factorSites fac site n count i factor = .ok factor1 → FactorVector N factor1 := by
  intro count
  induction count with
  | zero =>
    intro i factor factor1 hF h
    simp only [factorSites, Except.ok.injEq] at h
    exact h ▸ hF
  | succ count ih =>
    intro i factor factor1 hF h
    unfold factorSites at h
    split at h
    · split at h
      · cases h
      · rename_i s hs
        refine ih (i + 1) _ factor1 ?_ h
        refine ⟨by rw [List.length_set]; exact hF.1, ?_⟩
        intro x hx
        rcases List.mem_or_eq_of_mem_set hx with hx | hx
        · exact hF.2 x hx
        · rw [hx]
          split
          · exact Or.inr (Or.inl rfl)
          · exact hfac
    · cases h

theorem factorMelines_factorVector {fac : ℚ} {nbFeature : List Nat} {N : Nat}
    (hfac : IsFactor fac) (ms : List (Option (List MeSite))) :
    ∀ (a n : Nat) (factor : ColVector) (r : Nat × ColVector), FactorVector N factor →
      factorMelines fac nbFeature ms a n factor = .ok r → FactorVector N r.2 := by
  induction ms with
  | nil =>
    intro a n factor r hF h
    simp only [factorMelines, Except.ok.injEq] at h
    exact h ▸ hF
  | cons mo rest ih =>
    intro a n factor r hF h
    cases mo with
    | none =>
      unfold factorMelines at h
      exact ih _ _ _ _ hF h
    | some sites =>
      unfold factorMelines at h
      split at h
      · cases h
      · split at h
        · cases h
        · rename_i factor1 h1
          exact ih _ _ _ _ (factorSites_factorVector hfac _ _ _ _ hF h1) h

theorem factorLines_factorVector {N : Nat} (ls : List (DistanceLine Pose)) :
    ∀ (n : Nat) (factor : ColVector) (r : Nat × ColVector), FactorVector N factor →
      factorLines ls n factor = .ok r → FactorVector N r.2 := by
  induction ls with
  | nil =>
    intro n factor r hF h
    simp only [factorLines, Except.ok.injEq] at h
    exact h ▸ hF
  | cons l rest ih =>
    intro n factor r hF h
    unfold factorLines at h
    split at h
    · split at h
      · cases h
      · rename_i n1 factor1 h1
        exact ih _ _ _
          (factorMelines_factorVector (lineFac_isFactor l _) _ _ _ _ _ hF h1) h
    · exact ih _ _ _ hF h

theorem factorCylinders_factorVector {N : Nat} (ls : List (DistanceCylinder Pose)) :
    ∀ (n : Nat) (factor : ColVector) (r : Nat × ColVector), FactorVector N factor →
      factorCylinders ls n factor = .ok r → FactorVector N r.2 := by
  induction ls with
  | nil =>
    intro n factor r hF h
    simp only [factorCylinders, Except.ok.injEq] at h
    exact h ▸ hF
  | cons cy rest ih =>
    intro n factor r hF h
    unfold factorCylinders at h
    split at h
    · split at h
      · cases h
      · split at h
        · cases h
        · rename_i factor1 h1
          exact ih _ _ _ (factorSites_factorVector (Or.inl rfl) _ _ _ _ hF h1) h
    · exact ih _ _ _ hF h

theorem factorCircles_factorVector {N : Nat} (ls : List (DistanceCircle Pose)) :
    ∀ (n : Nat) (factor : ColVector) (r : Nat × ColVector), FactorVector N factor →
      factorCircles ls n factor = .ok r → FactorVector N r.2 := by
  induction ls with
  | nil =>
    intro n factor r hF h
    simp only [factorCircles, Except.ok.injEq] at h
    exact h ▸ hF
  | cons ci rest ih =>
    intro n factor r hF h
    unfold factorCircles at h
    split at h
    · split at h
      · cases h
      · rename_i factor1 h1
        exact ih _ _ _ (factorSites_factorVector (Or.inl rfl) _ _ _ _ hF h1) h
    · exact ih _ _ _ hF h

/-- The attenuation pass, called with an empty `factor` as `computeVVS` does, returns a vector
with one entry per contour row, each entry one of 1, 0.2, 0.1. -/
theorem trackFirstLoop_factorVector {t : Tracker Pose} {lvl nbrow : Nat} {factor : ColVector}
    (h : trackFirstLoop t [] lvl = .ok (nbrow, factor)) : FactorVector nbrow factor := by
  unfold trackFirstLoop at h
  split at h
  · cases h
  · split at h
    · cases h
    · rename_i nbrow0 hn
      split at h
      · rename_i hz
        cases h
        exact ⟨by simp [hz], by simp⟩
      · split at h
        · cases h
        · rename_i n1 factor1 h1
          split at h
          · cases h
          · rename_i n2 factor2 h2
            split at h
            · cases h
            · rename_i n3 factor3 h3
              cases h
              have hF0 : FactorVector nbrow (List.replicate nbrow (1 : ℚ)) :=
                ⟨by simp, fun x hx => Or.inl (List.eq_of_mem_replicate hx)⟩
              have hF1 := factorLines_factorVector _ _ _ _ hF0 h1
              have hF2 := factorCylinders_factorVector _ _ _ _ hF1 h2
              exact factorCircles_factorVector _ _ _ _ hF2 h3

theorem isFactor_bounds {x : ℚ} (h : IsFactor x) : 0 ≤ x ∧ x ≤ 1 := by
  rcases h with h | h | h <;> rw [h] <;> norm_num

theorem factorVector_getD_bounds {n : Nat} {factor : ColVector} (h : FactorVector n factor)
    (i : Nat) : 0 ≤ factor.getD i 0 ∧ factor.getD i 0 ≤ 1 := by
  by_cases hi : i < factor.length
  · have hm : factor.getD i 0 ∈ factor := by
      rw [List.getD_eq_getElem _ _ hi]
      exact List.getElem_mem hi
    exact isFactor_bounds (h.2 _ hm)
  · rw [List.getD_eq_default _ _ (by omega)]
    norm_num

/-! ## Helper lemmas: row counts of the modality blocks -/

theorem copyRows_length {rowL : Nat → Row} {rowE : Nat → ℚ} {count n : Nat} {L L1 : VpMatrix}
    {error error1 : ColVector} (h : copyRows rowL rowE count n L error = .ok (L1, error1)) :
    L1.length = L.length ∧ error1.length = error.length := by
  unfold copyRows at h
  split at h
  · cases h
    exact ⟨rfl, rfl⟩
  · split at h
    · rename_i hb
      cases h
      simp only [List.length_append, List.length_take, List.length_map, List.length_range,
        List.length_drop]
      omega
    · cases h

theorem secondLoopLines_length {cMo_ : Pose} (ls : List (DistanceLine Pose)) :
    ∀ (n : Nat) (L : VpMatrix) (error : ColVector) (r : Nat × VpMatrix × ColVector),
      secondLoopLines cMo_ ls n L error = .ok r →
        r.2.1.length = L.length ∧ r.2.2.length = error.length := by
  induction ls with
  | nil =>
    intro n L error r h
    simp only [secondLoopLines, Except.ok.injEq] at h
    subst h
    exact ⟨rfl, rfl⟩
  | cons l rest ih =>
    intro n L error r h
    unfold secondLoopLines at h
    split at h
    · split at h
      · cases h
      · rename_i L1 error1 h1
        obtain ⟨a, b⟩ := copyRows_length h1
        obtain ⟨c, d⟩ := ih _ _ _ _ h
        exact ⟨c.trans a, d.trans b⟩
    · exact ih _ _ _ _ h

theorem secondLoopCylinders_length {cMo_ : Pose} (ls : List (DistanceCylinder Pose)) :
    ∀ (n : Nat) (L : VpMatrix) (error : ColVector) (r : Nat × VpMatrix × ColVector),
      secondLoopCylinders cMo_ ls n L error = .ok r →
        r.2.1.length = L.length ∧ r.2.2.length = error.length := by
  induction ls with
  | nil =>
    intro n L error r h
    simp only [secondLoopCylinders, Except.ok.injEq] at h
    subst h
    exact ⟨rfl, rfl⟩
  | cons l rest ih =>
    intro n L error r h
    unfold secondLoopCylinders at h
    split at h
    · split at h
      · cases h
      · rename_i L1 error1 h1
        obtain ⟨a, b⟩ := copyRows_length h1
        obtain ⟨c, d⟩ := ih _ _ _ _ h
        exact ⟨c.trans a, d.trans b⟩
    · exact ih _ _ _ _ h

theorem secondLoopCircles_length {cMo_ : Pose} (ls : List (DistanceCircle Pose)) :
    ∀ (n : Nat) (L : VpMatrix) (error : ColVector) (r : Nat × VpMatrix × ColVector),
      secondLoopCircles cMo_ ls n L error = .ok r →
        r.2.1.length = L.length ∧ r.2.2.length = error.length := by
  induction ls with
  | nil =>
    intro n L error r h
    simp only [secondLoopCircles, Except.ok.injEq] at h
    subst h
    exact ⟨rfl, rfl⟩
  | cons l rest ih =>
    intro n L error r h
    unfold secondLoopCircles at h
    split at h
    · split at h
      · cases h
      · rename_i L1 error1 h1
        obtain ⟨a, b⟩ := copyRows_length h1
        obtain ⟨c, d⟩ := ih _ _ _ _ h
        exact ⟨c.trans a, d.trans b⟩
    · exact ih _ _ _ _ h

/-- The fill pass keeps the number of rows of the matrix and of the residual vector. -/
theorem trackSecondLoop_length {t : Tracker Pose} {L L1 : VpMatrix} {error error1 : ColVector}
    {cMo_ : Pose} {lvl : Nat} (h : trackSecondLoop t L error cMo_ lvl = .ok (L1, error1)) :
    L1.length = L.length ∧ error1.length = error.length := by
  unfold trackSecondLoop at h
  split at h
  · cases h
  · rename_i n1 La ea h1
    split at h
    · cases h
    · rename_i n2 Lb eb h2
      split at h
      · cases h
      · rename_i n3 Lc ec h3
        cases h
        obtain ⟨a1, a2⟩ := secondLoopLines_length _ _ _ _ _ h1
        obtain ⟨b1, b2⟩ := secondLoopCylinders_length _ _ _ _ _ h2
        obtain ⟨c1, c2⟩ := secondLoopCircles_length _ _ _ _ _ h3
        exact ⟨(c1.trans b1).trans a1, (c2.trans b2).trans a2⟩

theorem kltBlock_length {onThrow : Err} {interaction : Option (Nat → Row × ℚ)}
    {nbPoints shift : Nat} {L_klt L1 : VpMatrix} {R_klt R1 : ColVector}
    (h : kltBlock onThrow interaction nbPoints shift L_klt R_klt = .ok (L1, R1)) :
    L1.length = L_klt.length ∧ R1.length = R_klt.length := by
  unfold kltBlock at h
  split at h
  · rename_i hb
    split at h
    · cases h
    · cases h
      simp only [List.length_append, List.length_take, List.length_map, List.length_range,
        List.length_drop]
      omega
  · cases h

theorem kltFillPolygons_length {ctTc0 : Pose} (ls : List (KltPoints Pose)) :
    ∀ (shift : Nat) (L : VpMatrix) (R : ColVector) (r : Nat × VpMatrix × ColVector),
      kltFillPolygons ctTc0 ls shift L R = .ok r →
        r.2.1.length = L.length ∧ r.2.2.length = R.length := by
  induction ls with
  | nil =>
    intro n L R r h
    simp only [kltFillPolygons, Except.ok.injEq] at h
    subst h
    exact ⟨rfl, rfl⟩
  | cons l rest ih =>
    intro n L R r h
    unfold kltFillPolygons at h
    split at h
    · split at h
      · cases h
      · rename_i L1 R1 h1
        obtain ⟨a, b⟩ := kltBlock_length h1
        obtain ⟨c, d⟩ := ih _ _ _ _ h
        exact ⟨c.trans a, d.trans b⟩
    · exact ih _ _ _ _ h

theorem kltFillCylinders_length {ctTc0 : Pose} (ls : List (KltCylinder Pose)) :
    ∀ (shift : Nat) (L : VpMatrix) (R : ColVector) (r : Nat × VpMatrix × ColVector),
      kltFillCylinders ctTc0 ls shift L R = .ok r →
        r.2.1.length = L.length ∧ r.2.2.length = R.length := by
  induction ls with
  | nil =>
    intro n L R r h
    simp only [kltFillCylinders, Except.ok.injEq] at h
    subst h
    exact ⟨rfl, rfl⟩
  | cons l rest ih =>
    intro n L R r h
    unfold kltFillCylinders at h
    split at h
    · split at h
      · cases h
      · rename_i L1 R1 h1
        obtain ⟨a, b⟩ := kltBlock_length h1
        obtain ⟨c, d⟩ := ih _ _ _ _ h
        exact ⟨c.trans a, d.trans b⟩
    · exact ih _ _ _ _ h

/-- The point-modality fill keeps the number of rows of the matrix and of the residual vector. -/
theorem kltFill_length {t : Tracker Pose} {ctTc0 : Pose} {L L1 : VpMatrix} {R R1 : ColVector}
    (h : kltFill t ctTc0 L R = .ok (L1, R1)) : L1.length = L.length ∧ R1.length = R.length := by
  unfold kltFill at h
  split at h
  · cases h
  · rename_i n1 La Ra h1
    split at h
    · cases h
    · rename_i n2 Lb Rb h2
      cases h
      obtain ⟨a1, a2⟩ := kltFillPolygons_length _ _ _ _ _ h1
      obtain ⟨b1, b2⟩ := kltFillCylinders_length _ _ _ _ _ h2
      exact ⟨b1.trans a1, b2.trans a2⟩

theorem refill_length {t : Tracker Pose} {lvl : Nat} {s s1 : LoopState Pose}
    (h : refill t lvl s = .ok s1) :
    s1.L_mbt.length = s.L_mbt.length ∧ s1.R_mbt.length = s.R_mbt.length ∧
    s1.L_klt.length = s.L_klt.length ∧ s1.R_klt.length = s.R_klt.length ∧
    s1.w_mbt = s.w_mbt ∧ s1.w_klt = s.w_klt := by
  obtain ⟨L_mbt, R_mbt, L_klt, R_klt, rfl, hm, hk⟩ := refill_ok h
  have h1 : L_mbt.length = s.L_mbt.length ∧ R_mbt.length = s.R_mbt.length := by
    split at hm
    · exact trackSecondLoop_length hm
    · cases hm
      exact ⟨rfl, rfl⟩
  have h2 : L_klt.length = s.L_klt.length ∧ R_klt.length = s.R_klt.length := by
    split at hk
    · exact kltFill_length hk
    · cases hk
      exact ⟨rfl, rfl⟩
  exact ⟨h1.1, h1.2, h2.1, h2.2, rfl, rfl⟩

/-- What the robust-estimation block does to the two weight vectors: their lengths are kept; a
modality with more than 3 rows gets the weights of its M-estimator on the rows of its residual;
the weights of a modality with at most 3 rows are left as they are. -/
theorem robustWeights_weights {env : Collaborators Pose} {t : Tracker Pose}
    {s s1 : LoopState Pose} (h : robustWeights env t s = .ok s1) :
    s1.w_mbt.length = s.w_mbt.length ∧ s1.w_klt.length = s.w_klt.length ∧
    (¬ 3 < s.nbrow → s1.w_mbt = s.w_mbt) ∧ (¬ 3 < s.nbInfos → s1.w_klt = s.w_klt) ∧
    (3 < s.nbrow → ∀ i, i < s.R_mbt.length →
      s1.w_mbt.getD i 0 = env.MEstimator_mbt s.iter (t.thresholdMBT / t.px) s.R_mbt i) ∧
    (3 < s.nbInfos → ∀ i, i < s.R_klt.length →
      s1.w_klt.getD i 0 = env.MEstimator_klt s.iter (t.thresholdKLT / t.px) s.R_klt i) := by
  obtain ⟨w_mbt, w_klt, resM, resK, rfl, hm, hk⟩ := robustWeights_ok h
  have h1 : w_mbt.length = s.w_mbt.length ∧ (¬ 3 < s.nbrow → w_mbt = s.w_mbt) ∧
      (3 < s.nbrow → ∀ i, i < s.R_mbt.length →
        w_mbt.getD i 0 = env.MEstimator_mbt s.iter (t.thresholdMBT / t.px) s.R_mbt i) := by
    split at hm
    · rename_i h3
      obtain ⟨-, -, hl, hv⟩ := overwritePrefix_ok hm
      exact ⟨hl, fun hn => absurd h3 hn, fun _ => hv⟩
    · rename_i h3
      cases hm
      exact ⟨rfl, fun _ => rfl, fun hn => absurd hn h3⟩
  have h2 : w_klt.length = s.w_klt.length ∧ (¬ 3 < s.nbInfos → w_klt = s.w_klt) ∧
      (3 < s.nbInfos → ∀ i, i < s.R_klt.length →
        w_klt.getD i 0 = env.MEstimator_klt s.iter (t.thresholdKLT / t.px) s.R_klt i) := by
    split at hk
    · rename_i h3
      obtain ⟨-, -, hl, hv⟩ := overwritePrefix_ok hk
      exact ⟨hl, fun hn => absurd h3 hn, fun _ => hv⟩
    · rename_i h3
      cases hk
      exact ⟨rfl, fun _ => rfl, fun hn => absurd hn h3⟩
  exact ⟨h1.1, h2.1, h1.2.1, h2.2.1, h1.2.2, h2.2.2⟩

theorem allocateWeights_weights (s : LoopState Pose) :
    (s.iter = 0 → s.nbrow ≠ 0 → (allocateWeights s).w_mbt = List.replicate s.nbrow 1) ∧
    (s.iter ≠ 0 ∨ s.nbrow = 0 → (allocateWeights s).w_mbt = s.w_mbt) ∧
    (s.iter = 0 → s.nbInfos ≠ 0 → (allocateWeights s).w_klt = List.replicate (2 * s.nbInfos) 1) ∧
    (s.iter ≠ 0 ∨ s.nbInfos = 0 → (allocateWeights s).w_klt = s.w_klt) ∧
    (s.iter = 0 → (allocateWeights s).m_w = List.replicate (s.nbrow + 2 * s.nbInfos) 1) ∧
    (s.iter ≠ 0 → (allocateWeights s).m_w = s.m_w) := by
  unfold allocateWeights
  by_cases hi : s.iter = 0
  · rw [if_pos hi]
    refine ⟨?_, ?_, ?_, ?_, ?_, ?_⟩
    · intro _ hn
      simp [hn]
    · intro h
      rcases h with h | h
      · exact absurd hi h
      · simp [h]
    · intro _ hn
      simp [hn]
    · intro h
      rcases h with h | h
      · exact absurd hi h
      · simp [h]
    · intro _
      rfl
    · intro h
      exact absurd hi h
  · rw [if_neg hi]
    exact ⟨fun h => absurd h hi, fun _ => rfl, fun h => absurd h hi, fun _ => rfl,
      fun h => absurd h hi, fun _ => rfl⟩

/-- The weight vectors after an accepted iteration. -/
theorem acceptedStep_weights {env : Collaborators Pose} {t : Tracker Pose}
    {s s2 : LoopState Pose} (h : acceptedStep env t s = .ok s2) :
    (s.iter = 0 → s.nbrow ≠ 0 → s2.w_mbt.length = s.nbrow) ∧
    (s.iter ≠ 0 → s2.w_mbt.length = s.w_mbt.length) ∧
    (s.nbrow = 0 → s2.w_mbt = s.w_mbt) ∧
    (s.iter = 0 → s.nbInfos ≠ 0 → s2.w_klt.length = 2 * s.nbInfos) ∧
    (s.iter ≠ 0 → s2.w_klt.length = s.w_klt.length) ∧
    (s.nbInfos = 0 → s2.w_klt = s.w_klt) := by
  obtain ⟨sa, m_w, ha, -, rfl⟩ := acceptedStep_ok h
  obtain ⟨r1, r2, r3, r4, -, -⟩ := robustWeights_weights ha
  obtain ⟨c1, c2, -⟩ := allocateWeights_frame s
  obtain ⟨a1, a2, a3, a4, -, -⟩ := allocateWeights_weights s
  have e1 : (weightedSolve env t sa m_w).w_mbt = sa.w_mbt := rfl
  have e2 : (weightedSolve env t sa m_w).w_klt = sa.w_klt := rfl
  rw [e1, e2]
  rw [c1] at r3
  rw [c2] at r4
  refine ⟨?_, ?_, ?_, ?_, ?_, ?_⟩
  · intro hi hn
    rw [r1, a1 hi hn, List.length_replicate]
  · intro hi
    rw [r1, a2 (Or.inl hi)]
  · intro hn
    rw [r3 (by omega), a2 (Or.inr hn)]
  · intro hi hn
    rw [r2, a3 hi hn, List.length_replicate]
  · intro hi
    rw [r2, a4 (Or.inl hi)]
  · intro hn
    rw [r4 (by omega), a4 (Or.inr hn)]

theorem initState_rowInvariant (env : Collaborators Pose) (m : Members Pose)
    (nbrow nbInfos : Nat) (factor : ColVector) :
    RowInvariant m (initState env m nbrow nbInfos factor) := by
  refine ⟨?_, ?_, ?_, ?_, ?_, ?_, ?_, ?_⟩
  · show (if nbrow ≠ 0 then List.replicate nbrow (List.replicate 6 (0 : ℚ)) else []).length
      = nbrow
    split
    · simp
    · rename_i h
      simp at h
      simp [h]
  · show (if nbrow ≠ 0 then List.replicate nbrow (0 : ℚ) else []).length = nbrow
    split
    · simp
    · rename_i h
      simp at h
      simp [h]
  · show (if nbInfos ≠ 0 then List.replicate (2 * nbInfos) (List.replicate 6 (0 : ℚ))
      else []).length = 2 * nbInfos
    split
    · simp
    · rename_i h
      simp at h
      simp [h]
  · show (if nbInfos ≠ 0 then List.replicate (2 * nbInfos) (0 : ℚ) else []).length
      = 2 * nbInfos
    split
    · simp
    · rename_i h
      simp at h
      simp [h]
  · intro h
    exact absurd rfl h
  · intro h
    exact absurd rfl h
  · intro _
    rfl
  · intro _
    rfl

theorem iteration_rowInvariant {env : Collaborators Pose} {t : Tracker Pose} {lvl : Nat}
    {m : Members Pose} {s s3 : LoopState Pose} (hP : RowInvariant m s)
    (hit : iteration env t lvl s = .ok s3) : RowInvariant m s3 := by
  obtain ⟨⟨f1, f2, -⟩, f7⟩ := iteration_frame hit
  obtain ⟨sa, sb, hre, rfl, hcase⟩ := iteration_ok hit
  obtain ⟨l1, l2, l3, l4, l5, l6⟩ := refill_length hre
  obtain ⟨⟨g1, g2, -⟩, g7⟩ := refill_frame hre
  obtain ⟨p1, p2, p3, p4, p5, p6, p7, p8⟩ := hP
  have hn : sb.nbrow = s.nbrow := f1
  have hi : sb.nbInfos = s.nbInfos := f2
  rcases hcase with ⟨hrej, hb⟩ | ⟨-, hb⟩
  · obtain ⟨-, rfl⟩ := rejectedStep_ok hb
    have hr := hrej
    simp only [rejected, Bool.and_eq_true, decide_eq_true_eq] at hr
    have hne := hr.1.1
    refine ⟨?_, ?_, ?_, ?_, ?_, ?_, ?_, ?_⟩
    · show sa.L_mbt.length = sa.nbrow
      rw [l1, p1, g1]
    · show sa.R_mbt.length = sa.nbrow
      rw [l2, p2, g1]
    · show sa.L_klt.length = 2 * sa.nbInfos
      rw [l3, p3, g2]
    · show sa.R_klt.length = 2 * sa.nbInfos
      rw [l4, p4, g2]
    · intro _ h0
      show sa.w_mbt.length = sa.nbrow
      rw [l5, g1]
      rw [g1] at h0
      exact p5 hne h0
    · intro _ h0
      show sa.w_klt.length = 2 * sa.nbInfos
      rw [l6, g2]
      rw [g2] at h0
      exact p6 hne h0
    · intro h0
      show sa.w_mbt = m.w_mbt
      rw [l5]
      exact p7 (by rw [← g1]; exact h0)
    · intro h0
      show sa.w_klt = m.w_klt
      rw [l6]
      exact p8 (by rw [← g2]; exact h0)
  · obtain ⟨-, e2, e3, e4, e5⟩ := acceptedStep_m_error hb
    obtain ⟨w1, w2, w3, w4, w5, w6⟩ := acceptedStep_weights hb
    refine ⟨?_, ?_, ?_, ?_, ?_, ?_, ?_, ?_⟩
    · show sb.L_mbt.length = sb.nbrow
      rw [e4, l1, p1, hn]
    · show sb.R_mbt.length = sb.nbrow
      rw [e2, l2, p2, hn]
    · show sb.L_klt.length = 2 * sb.nbInfos
      rw [e5, l3, p3, hi]
    · show sb.R_klt.length = 2 * sb.nbInfos
      rw [e3, l4, p4, hi]
    · intro _ h0
      show sb.w_mbt.length = sb.nbrow
      have h0s : s.nbrow ≠ 0 := by rw [← hn]; exact h0
      rw [hn]
      by_cases hz : s.iter = 0
      · rw [w1 (by rw [g7]; exact hz) (by rw [g1]; exact h0s), g1]
      · rw [w2 (by rw [g7]; exact hz), l5]
        exact p5 hz h0s
    · intro _ h0
      show sb.w_klt.length = 2 * sb.nbInfos
      have h0s : s.nbInfos ≠ 0 := by rw [← hi]; exact h0
      rw [hi]
      by_cases hz : s.iter = 0
      · rw [w4 (by rw [g7]; exact hz) (by rw [g2]; exact h0s), g2]
      · rw [w5 (by rw [g7]; exact hz), l6]
        exact p6 hz h0s
    · intro h0
      show sb.w_mbt = m.w_mbt
      have h0s : s.nbrow = 0 := by rw [← hn]; exact h0
      rw [w3 (by rw [g1]; exact h0s), l5]
      exact p7 h0s
    · intro h0
      show sb.w_klt = m.w_klt
      have h0s : s.nbInfos = 0 := by rw [← hi]; exact h0
      rw [w6 (by rw [g2]; exact h0s), l6]
      exact p8 h0s

theorem vvsIterate_rowInvariant {env : Collaborators Pose} {t : Tracker Pose} {lvl : Nat}
    {m : Members Pose} {nbInfos k : Nat} {s0 s : LoopState Pose}
    (h0 : vvsInit env t lvl m nbInfos = .ok s0) (hk : vvsIterate env t lvl k s0 = some s) :
    RowInvariant m s ∧ s.iter = k := by
  obtain ⟨nbrow, factor, -, -, rfl⟩ := vvsInit_ok h0
  refine ⟨vvsIterate_invariant (RowInvariant m)
    (fun x y hx _ hxy => iteration_rowInvariant hx hxy) k _ s
    (initState_rowInvariant env m _ nbInfos factor) hk, ?_⟩
  have := (vvsIterate_iter k _ _ hk).2
  rw [this]
  show 0 + k = k
  omega

/-! ## Helper lemmas: row counts after an iteration -/

/-- Row counts for any weight arguments.  In every state that the loop of `computeVVS` reaches
after at least one completed iteration: the interaction matrix and the residual vector of each
modality block have the same number of rows (`nbrow` for contours, `2 * nbInfos` for points);
the weight vector of the modality has that number of rows as well when the modality has rows;
the weight vector of a modality without rows is left exactly as the caller passed it. -/
theorem computeVVS_row_counts (env : Collaborators Pose) (t : Tracker Pose) (lvl : Nat)
    (m : Members Pose) (nbInfos k : Nat) (s0 s : LoopState Pose)
    (h0 : vvsInit env t lvl m nbInfos = .ok s0)
    (hk : vvsIterate env t lvl (k + 1) s0 = some s) :
    (s.L_mbt.length = s.nbrow ∧ s.R_mbt.length = s.nbrow ∧
      (s.nbrow ≠ 0 → s.w_mbt.length = s.nbrow) ∧ (s.nbrow = 0 → s.w_mbt = m.w_mbt) ∧
      (m.w_mbt = [] → s.w_mbt.length = s.nbrow)) ∧
    (s.nbInfos = nbInfos ∧ s.L_klt.length = 2 * nbInfos ∧ s.R_klt.length = 2 * nbInfos ∧
      (nbInfos ≠ 0 → s.w_klt.length = 2 * nbInfos) ∧ (nbInfos = 0 → s.w_klt = m.w_klt) ∧
      (m.w_klt = [] → s.w_klt.length = 2 * nbInfos)) := by
  obtain ⟨⟨p1, p2, p3, p4, p5, p6, p7, p8⟩, hiter⟩ := vvsIterate_rowInvariant h0 hk
  have hne : s.iter ≠ 0 := by omega
  have hinf : s.nbInfos = nbInfos := by
    obtain ⟨nbrow, factor, -, -, rfl⟩ := vvsInit_ok h0
    exact (vvsIterate_iter _ _ _ hk).1.2.1
  rw [hinf] at p3 p4 p6 p8
  refine ⟨⟨p1, p2, p5 hne, p7, ?_⟩, hinf, p3, p4, p6 hne, p8, ?_⟩
  · intro hm
    by_cases hz : s.nbrow = 0
    · rw [p7 hz, hm, hz]
      rfl
    · exact p5 hne hz
  · intro hm
    by_cases hz : nbInfos = 0
    · rw [p8 hz, hm, hz]
      rfl
    · exact p6 hne hz

/-! ## Fused weights (C4) -/

theorem fuseWeights_ok {s : LoopState Pose} {m_w : ColVector} (h : fuseWeights s = .ok m_w) :
    ∀ cpt, cpt < s.nbrow + 2 * s.nbInfos → m_w.getD cpt 0 = fusedWeight s cpt := by
  unfold fuseWeights at h
  split at h
  · exact (overwritePrefix_ok h).2.2.2
  · cases h

/-- C4. In every accepted iteration of `computeVVS` in which both modalities are usable
(`nbrow >= 4` and `nbInfos >= 4`), the fused weights written to `m_w` are: for every contour row
`i < nbrow`, `m_w[i] = w_mbt[i] * factor[i] * 0.35`, and for every point row `j < 2 * nbInfos`,
`m_w[nbrow + j] = w_klt[j] * 0.65`, where `w_mbt[i]` and `w_klt[j]` are the weights the two
M-estimators give in this iteration to the refilled residuals.  Consequently, when these
estimator weights lie in `[0,1]`, every fused weight lies in `[0,1]`. -/
theorem computeVVS_fused_weights (env : Collaborators Pose) (t : Tracker Pose) (lvl : Nat)
    (m : Members Pose) (nbInfos k : Nat) (s0 s s1 : LoopState Pose)
    (h0 : vvsInit env t lvl m nbInfos = .ok s0)
    (hk : vvsIterate env t lvl k s0 = some s)
    (hrow : 4 ≤ s.nbrow) (hinf : 4 ≤ nbInfos)
    (hacc : rejected t s = false) (hit : iteration env t lvl s = .ok s1) :
    (∀ i, i < s.nbrow → s1.m_w.getD i 0 = s1.w_mbt.getD i 0 * s.factor.getD i 0 * 0.35) ∧
    (∀ j, j < 2 * nbInfos → s1.m_w.getD (s.nbrow + j) 0 = s1.w_klt.getD j 0 * 0.65) ∧
    (∀ i, i < s.nbrow → s1.w_mbt.getD i 0 =
      env.MEstimator_mbt s.iter (t.thresholdMBT / t.px) s1.R_mbt i) ∧
    (∀ j, j < 2 * nbInfos → s1.w_klt.getD j 0 =
      env.MEstimator_klt s.iter (t.thresholdKLT / t.px) s1.R_klt j) ∧
    ((∀ i, i < s.nbrow → 0 ≤ s1.w_mbt.getD i 0 ∧ s1.w_mbt.getD i 0 ≤ 1) →
      (∀ j, j < 2 * nbInfos → 0 ≤ s1.w_klt.getD j 0 ∧ s1.w_klt.getD j 0 ≤ 1) →
      ∀ cpt, cpt < s.nbrow + 2 * nbInfos → 0 ≤ s1.m_w.getD cpt 0 ∧ s1.m_w.getD cpt 0 ≤ 1) := by
  -- the state `s` of the loop
  obtain ⟨⟨p1, p2, p3, p4, -⟩, -⟩ := vvsIterate_rowInvariant h0 hk
  obtain ⟨nbrow0, factor, hfl, -, rfl⟩ := vvsInit_ok h0
  obtain ⟨⟨a1, a2, a3, a4, a5, -⟩, -⟩ := vvsIterate_iter k _ _ hk
  obtain ⟨i1, i2, i3, i4, i5, -⟩ :=
    initState_shares env m (if nbrow0 < 4 then 0 else nbrow0) nbInfos factor
  have hF := trackFirstLoop_factorVector hfl
  have hsinf : s.nbInfos = nbInfos := a2.trans i4
  have hfM : s.factorMBT = 0.35 := by rw [a4, i1, if_neg (by omega)]
  have hfK : s.factorKLT = 0.65 := by
    rw [a5, i2, if_neg (by rw [← i3, ← a1]; omega)]
  have hfac : s.factor = factor := a3.trans i5
  -- the accepted iteration
  obtain ⟨sa, sb, hre, rfl, hcase⟩ := iteration_ok hit
  obtain ⟨l1, l2, l3, l4, -, -⟩ := refill_length hre
  obtain ⟨⟨g1, g2, g3, g4, g5, -⟩, g7⟩ := refill_frame hre
  rcases hcase with ⟨hrej, -⟩ | ⟨-, hb⟩
  · rw [hacc] at hrej
    cases hrej
  obtain ⟨-, e2, e3, -, -⟩ := acceptedStep_m_error hb
  obtain ⟨sR, m_w, hR, hfuse, rfl⟩ := acceptedStep_ok hb
  obtain ⟨-, -, -, -, r5, r6⟩ := robustWeights_weights hR
  obtain ⟨⟨q1, q2, q3, q4, q5, -⟩, -⟩ := robustWeights_frame hR
  obtain ⟨c1, c2, c3, c4, c5, -, -, -, c9, -, -, c12, -, c14, -⟩ := allocateWeights_frame sa
  have hm := fuseWeights_ok hfuse
  have n1 : sR.nbrow = s.nbrow := by rw [q1, c1, g1]
  have n2 : sR.nbInfos = nbInfos := by rw [q2, c2, g2, hsinf]
  have n3 : sR.factor = s.factor := by rw [q3, c3, g3]
  have n4 : sR.factorMBT = 0.35 := by rw [q4, c4, g4, hfM]
  have n5 : sR.factorKLT = 0.65 := by rw [q5, c5, g5, hfK]
  rw [n1, n2] at hm
  have hcontour : ∀ i, i < s.nbrow →
      m_w.getD i 0 = sR.w_mbt.getD i 0 * s.factor.getD i 0 * 0.35 := by
    intro i hi
    rw [hm i (by omega)]
    unfold fusedWeight
    rw [n1, if_pos hi, n3, n4]
  have hpoint : ∀ j, j < 2 * nbInfos →
      m_w.getD (s.nbrow + j) 0 = sR.w_klt.getD j 0 * 0.65 := by
    intro j hj
    rw [hm (s.nbrow + j) (by omega)]
    unfold fusedWeight
    rw [n1, if_neg (by omega), n5, Nat.add_sub_cancel_left]
  refine ⟨hcontour, hpoint, ?_, ?_, ?_⟩
  · intro i hi
    show sR.w_mbt.getD i 0 =
      env.MEstimator_mbt s.iter (t.thresholdMBT / t.px) (weightedSolve env t sR m_w).R_mbt i
    rw [e2]
    have := r5 (by rw [c1, g1]; omega) i (by rw [c12, l2, p2]; exact hi)
    rw [this, c9, g7, c12]
  · intro j hj
    show sR.w_klt.getD j 0 =
      env.MEstimator_klt s.iter (t.thresholdKLT / t.px) (weightedSolve env t sR m_w).R_klt j
    rw [e3]
    have := r6 (by rw [c2, g2, hsinf]; omega) j (by rw [c14, l4, p4, hsinf]; exact hj)
    rw [this, c9, g7, c14]
  · intro hwm hwk cpt hcpt
    have hwm1 : ∀ i, i < s.nbrow → 0 ≤ sR.w_mbt.getD i 0 ∧ sR.w_mbt.getD i 0 ≤ 1 := hwm
    have hwk1 : ∀ j, j < 2 * nbInfos → 0 ≤ sR.w_klt.getD j 0 ∧ sR.w_klt.getD j 0 ≤ 1 := hwk
    show 0 ≤ m_w.getD cpt 0 ∧ m_w.getD cpt 0 ≤ 1
    by_cases hc : cpt < s.nbrow
    · rw [hcontour cpt hc]
      obtain ⟨w0, w1⟩ := hwm1 cpt hc
      obtain ⟨f0, f1⟩ := factorVector_getD_bounds hF cpt
      rw [hfac]
      have hp0 : 0 ≤ sR.w_mbt.getD cpt 0 * factor.getD cpt 0 := mul_nonneg w0 f0
      have hp1 : sR.w_mbt.getD cpt 0 * factor.getD cpt 0 ≤ 1 := by
        calc sR.w_mbt.getD cpt 0 * factor.getD cpt 0 ≤ 1 * 1 :=
              mul_le_mul w1 f1 f0 (by norm_num)
          _ = 1 := by norm_num
      constructor
      · exact mul_nonneg hp0 (by norm_num)
      · nlinarith
    · have hj : cpt = s.nbrow + (cpt - s.nbrow) := by omega
      rw [hj, hpoint (cpt - s.nbrow) (by omega)]
      obtain ⟨w0, w1⟩ := hwk1 (cpt - s.nbrow) (by omega)
      constructor
      · exact mul_nonneg w0 (by norm_num)
      · nlinarith

/-- Witness of C4: 4 contour rows and 4 tracked points, first iteration, all estimator weights
equal to 1: the contour rows get fused weight `1 * 1 * 0.35` and the point rows `1 * 0.65`. -/
theorem computeVVS_fused_weights_witness :
    ∃ s1, iteration (exEnv (-1)) (exTracker [exLine 4] [exKlt 4] .GAUSS_NEWTON_OPT 5) 0
        (initState (exEnv (-1)) (exMembers 1 [] []) 4 4 [1, 1, 1, 1]) = .ok s1 ∧
      s1.m_w = [0.35, 0.35, 0.35, 0.35, 0.65, 0.65, 0.65, 0.65, 0.65, 0.65, 0.65, 0.65] ∧
      (∀ i, i < 4 → s1.m_w.getD i 0 = s1.w_mbt.getD i 0 * ([1, 1, 1, 1] : ColVector).getD i 0
        * 0.35) :=
  ⟨_, by with_unfolding_all rfl, by with_unfolding_all rfl,
    (computeVVS_fused_weights (exEnv (-1))
      (exTracker [exLine 4] [exKlt 4] .GAUSS_NEWTON_OPT 5) 0 (exMembers 1 [] []) 4 0 _ _ _
      (by with_unfolding_all rfl) (by with_unfolding_all rfl) (by decide) (by decide)
      (by with_unfolding_all rfl) (by with_unfolding_all rfl)).1⟩

/-! ## The Levenberg-Marquardt acceptance test (C7) -/

/-- C7, the code at the failing input. Levenberg-Marquardt mode, 4 contour rows whose residual
equals the pose, no tracked point, and a solve that moves the pose from 1 to 2 in iteration 0.
In iteration 1 (`iter = 1 > 0`) the residual recomputed at the current pose is `[2, 2, 2, 2]`,
whose sum of squares 16 exceeds the sum of squares 4 of the residual of iteration 0; the test
compares the stored `m_error` with `m_error_prev`, which are both the residual of iteration 0,
so the step is not rejected: the damping is divided by 10 instead of multiplied, and the pose
moves on to 3 instead of going back to the snapshot 1. -/
theorem computeVVS_LM_accepts_larger_residual :
    ∃ s1 s2, vvsIterate (exEnv (-1)) (exTracker [exLine 4] [] .LEVENBERG_MARQUARDT_OPT 5) 0 1
        (initState (exEnv (-1)) (exMembers 1 [] []) 4 0 [1, 1, 1, 1]) = some s1 ∧
      iteration (exEnv (-1)) (exTracker [exLine 4] [] .LEVENBERG_MARQUARDT_OPT 5) 0 s1
        = .ok s2 ∧
      s1.iter = 1 ∧ s1.m_error = [1, 1, 1, 1] ∧ s1.m_error_prev = [1, 1, 1, 1] ∧
      s2.R_mbt = [2, 2, 2, 2] ∧ sumSquare s2.R_mbt > sumSquare s1.m_error ∧
      rejected (exTracker [exLine 4] [] .LEVENBERG_MARQUARDT_OPT 5) s1 = false ∧
      s1.mu = 1 / 100 ∧ s2.mu = 1 / 1000 ∧
      s1.cMoPrev = 1 ∧ s1.cMo = 2 ∧ s2.cMo = 3 := by
  refine ⟨_, _, by with_unfolding_all rfl, by with_unfolding_all rfl, by with_unfolding_all rfl,
    by with_unfolding_all rfl, by with_unfolding_all rfl, by with_unfolding_all rfl, ?_,
    by with_unfolding_all rfl, by with_unfolding_all rfl, by with_unfolding_all rfl,
    by with_unfolding_all rfl, by with_unfolding_all rfl, by with_unfolding_all rfl⟩
  with_unfolding_all decide

/-! ## Convergence test (C18) -/

theorem truncToInt_eq_zero_iff (x : ℚ) : truncToInt x = 0 ↔ |x| < 1 := by
  unfold truncToInt
  have hden : (0 : ℚ) < (x.den : ℚ) := by exact_mod_cast x.den_pos
  have hx : |x| < 1 ↔ x.num.natAbs < x.den := by
    conv_lhs => rw [← Rat.num_div_den x]
    rw [abs_div, abs_of_pos hden, div_lt_one hden]
    rw [← Int.cast_abs, Int.abs_eq_natAbs]
    norm_cast
  rw [hx, ← Int.natAbs_eq_zero, Int.natAbs_tdiv]
  show x.num.natAbs / (x.den : ℤ).natAbs = 0 ↔ _
  rw [Int.natAbs_ofNat, Nat.div_eq_zero_iff x.den_pos]

theorem allocateWeights_scalars (s : LoopState Pose) :
    (allocateWeights s).residu = s.residu ∧ (allocateWeights s).residu_1 = s.residu_1 ∧
    (allocateWeights s).m_error = s.m_error ∧ (allocateWeights s).cMoPrev = s.cMoPrev ∧
    (allocateWeights s).ctTc0_Prev = s.ctTc0_Prev ∧ (allocateWeights s).v = s.v := by
  unfold allocateWeights
  split <;> simp

/-- The scalars of the loop after an accepted iteration. -/
theorem acceptedStep_scalars {env : Collaborators Pose} {t : Tracker Pose}
    {s s2 : LoopState Pose} (h : acceptedStep env t s = .ok s2) :
    s2.residu_1 = s.residu ∧
    s2.mu = (if t.m_optimizationMethod = .LEVENBERG_MARQUARDT_OPT ∧ s.iter ≠ 0
      then s.mu / 10 else s.mu) ∧
    (t.m_optimizationMethod = .LEVENBERG_MARQUARDT_OPT → s2.m_error_prev = s2.m_error) ∧
    (t.m_optimizationMethod = .LEVENBERG_MARQUARDT_OPT → s2.m_w_prev = s2.m_w) := by
  obtain ⟨sa, m_w, ha, -, rfl⟩ := acceptedStep_ok h
  obtain ⟨_, _, _, _, rfl, -, -⟩ := robustWeights_ok ha
  obtain ⟨-, -, -, -, -, -, -, -, c9, c10, -⟩ := allocateWeights_frame s
  obtain ⟨d1, -⟩ := allocateWeights_scalars s
  refine ⟨?_, ?_, ?_, ?_⟩
  · simp [weightedSolve, poseUpdate, d1]
  · by_cases hLM : t.m_optimizationMethod = .LEVENBERG_MARQUARDT_OPT <;>
      by_cases hi : s.iter = 0 <;> simp [weightedSolve, poseUpdate, c9, c10, hLM, hi]
  · intro hLM
    simp [weightedSolve, poseUpdate, hLM]
  · intro hLM
    simp [weightedSolve, poseUpdate, hLM]

theorem rejected_false_of_eq {t : Tracker Pose} {s : LoopState Pose}
    (h : s.iter ≠ 0 → t.m_optimizationMethod = .LEVENBERG_MARQUARDT_OPT →
      s.m_error = s.m_error_prev) : rejected t s = false := by
  cases hr : rejected t s
  · rfl
  · have hr1 := hr
    simp only [rejected, Bool.and_eq_true, decide_eq_true_eq] at hr1
    have he := h hr1.1.1 hr1.1.2
    rw [he] at hr1
    exact absurd hr1.2 (lt_irrefl _)

theorem iteration_damping_invariant {env : Collaborators Pose} {t : Tracker Pose} {lvl : Nat}
    {s s3 : LoopState Pose} (hP : DampingInvariant t s)
    (hit : iteration env t lvl s = .ok s3) : DampingInvariant t s3 := by
  obtain ⟨hpos, hle, heq⟩ := hP
  obtain ⟨sa, sb, hre, rfl, hcase⟩ := iteration_ok hit
  obtain ⟨_, _, _, _, rfl, -, -⟩ := refill_ok hre
  rcases hcase with ⟨hrej, -⟩ | ⟨-, hb⟩
  · rw [rejected_false_of_eq heq] at hrej
    cases hrej
  · obtain ⟨-, hmu, hprev, -⟩ := acceptedStep_scalars hb
    have hmu1 : sb.mu = (if t.m_optimizationMethod = .LEVENBERG_MARQUARDT_OPT ∧ s.iter ≠ 0
        then s.mu / 10 else s.mu) := hmu
    refine ⟨?_, ?_, ?_⟩
    · show 0 < sb.mu
      rw [hmu1]
      split
      · positivity
      · exact hpos
    · show sb.mu ≤ 1 / 100
      rw [hmu1]
      split
      · linarith
      · exact hle
    · intro _ hLM
      exact (hprev hLM).symm

theorem initState_damping_invariant (env : Collaborators Pose) (t : Tracker Pose)
    (m : Members Pose) (nbrow nbInfos : Nat) (factor : ColVector) :
    DampingInvariant t (initState env m nbrow nbInfos factor) := by
  refine ⟨?_, ?_, fun h => absurd rfl h⟩
  · show (0 : ℚ) < 0.01
    norm_num
  · show (0.01 : ℚ) ≤ 1 / 100
    norm_num

/-- In every state that the loop of a call of `computeVVS` reaches, the damping is positive and
at most 0.01, the Levenberg-Marquardt test compares a residual with itself, and it does not
reject. -/
theorem vvsIterate_noReject {env : Collaborators Pose} {t : Tracker Pose} {lvl : Nat}
    {m : Members Pose} {nbInfos k : Nat} {s0 s : LoopState Pose}
    (h0 : vvsInit env t lvl m nbInfos = .ok s0) (hk : vvsIterate env t lvl k s0 = some s) :
    DampingInvariant t s ∧ rejected t s = false := by
  obtain ⟨nbrow, factor, -, -, rfl⟩ := vvsInit_ok h0
  have hP := vvsIterate_invariant (DampingInvariant t)
    (fun x y hx _ hxy => iteration_damping_invariant hx hxy) k _ s
    (initState_damping_invariant env t m _ nbInfos factor) hk
  exact ⟨hP, rejected_false_of_eq hP.2.2⟩

theorem iteration_error_of_accepted {env : Collaborators Pose} {t : Tracker Pose} {lvl : Nat}
    {s : LoopState Pose} {e : Err} (hacc : rejected t s = false)
    (h : iteration env t lvl s = .error e) : e ≠ .fatalDiverged := by
  unfold iteration at h
  split at h
  · rename_i h1
    cases h
    unfold refill at h1
    split at h1
    · rename_i h2
      cases h1
      split at h2
      · rw [trackSecondLoop_error h2]
        decide
      · cases h2
    · split at h1
      · rename_i h3
        cases h1
        split at h3
        · rcases kltFill_error h3 with h | h | h <;> rw [h] <;> decide
        · cases h3
      · cases h1
  · rename_i s1 h1
    split at h
    · rename_i h2
      cases h
      rw [rejected_refill h1, hacc] at h2
      have h3 : acceptedStep env t s1 = .error e := by simpa using h2
      rw [acceptedStep_error h3]
      decide
    · cases h

/-- C20. In every state that the loop of a call of `computeVVS` reaches, for every input: in
Levenberg-Marquardt mode with `iter >= 1` the stored residual `m_error` equals its snapshot
`m_error_prev`, so the acceptance test is false and the iteration is not rejected; the damping
`mu` is positive and never exceeds its initial value 0.01; the iteration does not raise
"Optimization diverged", and neither does the call. -/
theorem computeVVS_never_rejects (env : Collaborators Pose) (t : Tracker Pose) (lvl : Nat)
    (m : Members Pose) (nbInfos k : Nat) (s0 s : LoopState Pose)
    (h0 : vvsInit env t lvl m nbInfos = .ok s0)
    (hk : vvsIterate env t lvl k s0 = some s) :
    (t.m_optimizationMethod = .LEVENBERG_MARQUARDT_OPT → 1 ≤ s.iter →
      s.m_error = s.m_error_prev ∧
      ¬ (sumSquare s.m_error / ((2 * s.nbInfos + s.nbrow : Nat) : ℚ)
          > sumSquare s.m_error_prev / ((2 * s.nbInfos + s.nbrow : Nat) : ℚ))) ∧
    rejected t s = false ∧
    (0 < s.mu ∧ s.mu ≤ 0.01) ∧
    iteration env t lvl s ≠ .error .fatalDiverged ∧
    (∀ fuel m1, computeVVS env t lvl fuel m nbInfos ≠ some (.raised .fatalDiverged m1)) := by
  obtain ⟨⟨hpos, hle, heq⟩, hrej⟩ := vvsIterate_noReject h0 hk
  refine ⟨?_, hrej, ⟨hpos, by norm_num; linarith⟩, ?_, ?_⟩
  · intro hLM hi
    have he := heq (by omega) hLM
    refine ⟨he, ?_⟩
    rw [he]
    exact lt_irrefl _
  · intro he
    exact iteration_error_of_accepted hrej he rfl
  · intro fuel m1 hr
    rcases computeVVS_raised hr with ⟨hi, -⟩ | ⟨sa, k1, sb, ha, hb, he, -⟩
    · obtain ⟨s0a, hs0⟩ : ∃ x, vvsInit env t lvl m nbInfos = .ok x := ⟨s0, h0⟩
      rw [hi] at hs0
      cases hs0
    · exact iteration_error_of_accepted (vvsIterate_noReject ha hb).2 he rfl

/-- Witness of C20: after two iterations of the Levenberg-Marquardt solve whose residual grows,
`m_error` and `m_error_prev` are both `[2, 2, 2, 2]`, the step is not rejected and the damping
is 1/1000. -/
theorem computeVVS_never_rejects_witness :
    ∃ s, vvsIterate (exEnv (-1)) (exTracker [exLine 4] [] .LEVENBERG_MARQUARDT_OPT 5) 0 2
        (initState (exEnv (-1)) (exMembers 1 [] []) 4 0 [1, 1, 1, 1]) = some s ∧
      s.m_error = [2, 2, 2, 2] ∧ s.m_error_prev = [2, 2, 2, 2] ∧ s.mu = 1 / 1000 ∧
      rejected (exTracker [exLine 4] [] .LEVENBERG_MARQUARDT_OPT 5) s = false :=
  ⟨_, by with_unfolding_all rfl, by with_unfolding_all rfl, by with_unfolding_all rfl,
    by with_unfolding_all rfl,
    (computeVVS_never_rejects (exEnv (-1)) (exTracker [exLine 4] [] .LEVENBERG_MARQUARDT_OPT 5)
      0 (exMembers 1 [] []) 0 2 _ _ (by with_unfolding_all rfl)
      (by with_unfolding_all rfl)).2.1⟩

/-! ## Failure of a point group (C16) -/

/-- C16, the code at the failing input. A visible, tracked planar point group with 4 points
whose interaction matrix cannot be computed: the exception of the group leaves `computeVVS`
as it is (it is not caught), not as the fatal error "Cannot compute interaction matrix".  The
same failure of a point group on a cylinder does leave as that fatal error.  In general no
failure in the loop over the planar groups surfaces as that fatal error. -/
theorem computeVVS_planar_failure_not_fatal :
    computeVVS (exEnv 0) (exTracker [] [exKltFailing 4] .GAUSS_NEWTON_OPT 5) 0 5
      (exMembers 5 [] []) 4 = some (.raised .collaborator (exMembers 5 [] [])) ∧
    Err.collaborator ≠ Err.fatalInteractionMatrix ∧
    computeVVS (exEnv 0) (exCylinderTracker [exKltCylinderFailing 4]) 0 5
      (exMembers 5 [] []) 4 = some (.raised .fatalInteractionMatrix (exMembers 5 [] [])) ∧
    (∀ (ctTc0 : ℤ) (ls : List (KltPoints ℤ)) (shift : Nat) (L : VpMatrix) (R : ColVector)
      (e : Err), kltFillPolygons ctTc0 ls shift L R = .error e →
        e ≠ .fatalInteractionMatrix) := by
  refine ⟨by with_unfolding_all rfl, by decide, by with_unfolding_all rfl, ?_⟩
  intro ctTc0 ls shift L R e h
  rcases kltFillPolygons_error ls shift L R h with h1 | h1 <;> rw [h1] <;> decide

/-! ## Helper lemmas: the rows written by the attenuation pass -/

/-- The innermost loop of the attenuation pass: it writes the rows `n + i, ..., n + i + count - 1`
(all inside the vector), each with the factor of its site, and nothing else. -/
theorem factorSites_rows {fac : ℚ} {site : Nat → Option MeSite} {n : Nat} :
    ∀ (count i : Nat) (factor factor1 : ColVector),
      factorSites fac site n count i factor = .ok factor1 →
      factor1.length = factor.length ∧ (count ≠ 0 → n + i + count ≤ factor.length) ∧
      (∀ j, j < n + i ∨ n + i + count ≤ j → factor1.get? j = factor.get? j) ∧
      (∀ k, k < count → ∃ st, site (i + k) = some st ∧
        factor1.get? (n + i + k) = some (rowFactor fac st)) := by
  intro count
  induction count with
  | zero =>
    intro i factor factor1 h
    simp only [factorSites, Except.ok.injEq] at h
    subst h
    exact ⟨rfl, fun h => absurd rfl h, fun _ _ => rfl, fun k hk => absurd hk (Nat.not_lt_zero k)⟩
  | succ count ih =>
    intro i factor factor1 h
    unfold factorSites at h
    split at h
    · rename_i hlt
      split at h
      · cases h
      · rename_i st hst
        obtain ⟨h1, h2, h3, h4⟩ := ih (i + 1) _ factor1 h
        rw [List.length_set] at h1 h2
        refine ⟨h1, fun _ => ?_, ?_, ?_⟩
        · by_cases hc : count = 0
          · omega
          · have := h2 hc
            omega
        · intro j hj
          rw [h3 j (by omega)]
          simp only [List.get?_eq_getElem?]
          rw [List.getElem?_set_ne (by omega)]
        · intro k hk
          cases k with
          | zero =>
            refine ⟨st, hst, ?_⟩
            rw [h3 (n + i + 0) (by omega)]
            simp only [List.get?_eq_getElem?, Nat.add_zero]
            rw [List.getElem?_set_eq_of_lt _ hlt]
            rfl
          | succ k =>
            obtain ⟨st1, hs1, hv1⟩ := h4 k (by omega)
            refine ⟨st1, by rw [← hs1]; congr 1; omega, ?_⟩
            rw [← hv1]
            congr 1
            omega
    · cases h

/-- The loop over the moving-edge lines of one line: counter, length, untouched rows, and the
row of every site that has one. -/
theorem factorMelines_rows {fac : ℚ} {nbFeature : List Nat}
    (ms : List (Option (List MeSite))) :
    ∀ (a n : Nat) (factor : ColVector) (r : Nat × ColVector),
      factorMelines fac nbFeature ms a n factor = .ok r →
      r.1 = n + melineRows nbFeature ms a ∧ r.2.length = factor.length ∧
      (n ≤ factor.length → r.1 ≤ factor.length) ∧
      (∀ j, j < n ∨ r.1 ≤ j → r.2.get? j = factor.get? j) ∧
      (∀ mpre sites mpost, ms = mpre ++ some sites :: mpost →
        ∀ i, i < nbFeature.getD (a + mpre.length) 0 →
          n + melineRows nbFeature mpre a + i < r.1 ∧
          ∃ st, sites.get? i = some st ∧
            r.2.get? (n + melineRows nbFeature mpre a + i) = some (rowFactor fac st)) := by
  induction ms with
  | nil =>
    intro a n factor r h
    simp only [factorMelines, Except.ok.injEq] at h
    subst h
    refine ⟨rfl, rfl, fun h => h, fun _ _ => rfl, ?_⟩
    intro mpre sites mpost hd
    cases mpre <;> cases hd
  | cons mo rest ih =>
    intro a n factor r h
    cases mo with
    | none =>
      unfold factorMelines at h
      obtain ⟨h1, h2, h3, h4, h5⟩ := ih (a + 1) n factor r h
      refine ⟨h1, h2, h3, h4, ?_⟩
      intro mpre sites mpost hd i hi
      cases mpre with
      | nil => cases hd
      | cons m0 mpre1 =>
        simp only [List.cons_append, List.cons.injEq] at hd
        obtain ⟨hm0, hrest⟩ := hd
        subst hm0
        have := h5 mpre1 sites mpost hrest i
          (by rw [show a + 1 + mpre1.length = a + (mpre1.length + 1) by omega]; exact hi)
        exact this
    | some s0 =>
      unfold factorMelines at h
      split at h
      · cases h
      · rename_i nb hnb
        split at h
        · cases h
        · rename_i f1 hf1
          have hget : nbFeature.getD a 0 = nb := by
            rw [List.getD_eq_getElem?_getD, ← List.get?_eq_getElem?, hnb]
            rfl
          obtain ⟨s1, s2, s3, s4⟩ := factorSites_rows nb 0 factor f1 hf1
          obtain ⟨h1, h2, h3, h4, h5⟩ := ih (a + 1) (n + nb) f1 r h
          have hr1 : r.1 = n + melineRows nbFeature (some s0 :: rest) a := by
            rw [h1]
            show n + nb + melineRows nbFeature rest (a + 1)
              = n + (nbFeature.getD a 0 + melineRows nbFeature rest (a + 1))
            rw [hget]
            omega
          refine ⟨hr1, h2.trans s1, ?_, ?_, ?_⟩
          · intro hn
            rw [← s1]
            apply h3
            rw [s1]
            by_cases hz : nb = 0
            · omega
            · have := s2 hz
              omega
          · intro j hj
            rw [h4 j (by omega), s3 j (by omega)]
          · intro mpre sites mpost hd i hi
            cases mpre with
            | nil =>
              simp only [List.nil_append, List.cons.injEq, Option.some.injEq] at hd
              obtain ⟨hs, -⟩ := hd
              subst hs
              have hi1 : i < nb := by
                rw [← hget]
                exact hi
              obtain ⟨st, hst, hv⟩ := s4 i hi1
              have hrow : n + melineRows nbFeature ([] : List (Option (List MeSite))) a + i
                  = n + 0 + i := rfl
              rw [hrow]
              refine ⟨by omega, st, by rw [← hst]; congr 1; omega, ?_⟩
              rw [h4 (n + 0 + i) (by omega)]
              exact hv
            | cons m0 mpre1 =>
              simp only [List.cons_append, List.cons.injEq] at hd
              obtain ⟨hm0, hrest⟩ := hd
              subst hm0
              have := h5 mpre1 sites mpost hrest i
                (by rw [show a + 1 + mpre1.length = a + (mpre1.length + 1) by omega]; exact hi)
              have hrow : n + melineRows nbFeature (some s0 :: mpre1) a + i
                  = n + nb + melineRows nbFeature mpre1 (a + 1) + i := by
                show n + (nbFeature.getD a 0 + melineRows nbFeature mpre1 (a + 1)) + i = _
                rw [hget]
                omega
              rw [hrow]
              exact this

/-- The loop of the attenuation pass over lines: counter, length, untouched rows, and the row
of every site of a tracked line. -/
theorem factorLines_rows (ls : List (DistanceLine Pose)) :
    ∀ (n : Nat) (factor : ColVector) (r : Nat × ColVector),
      factorLines ls n factor = .ok r →
      r.1 = n + linesRowsFirst ls ∧ r.2.length = factor.length ∧
      (n ≤ factor.length → r.1 ≤ factor.length) ∧
      (∀ j, j < n ∨ r.1 ≤ j → r.2.get? j = factor.get? j) ∧
      (∀ pre l post, ls = pre ++ l :: post → l.isTracked = true →
        ∀ mpre sites mpost, l.meline = mpre ++ some sites :: mpost →
          ∀ i, i < l.nbFeature.getD mpre.length 0 →
            n + linesRowsFirst pre + melineRows l.nbFeature mpre 0 + i < r.1 ∧
            ∃ st, sites.get? i = some st ∧
              r.2.get? (n + linesRowsFirst pre + melineRows l.nbFeature mpre 0 + i)
                = some (rowFactor (lineFac l l.Lindex_polygon) st)) := by
  induction ls with
  | nil =>
    intro n factor r h
    simp only [factorLines, Except.ok.injEq] at h
    subst h
    refine ⟨rfl, rfl, fun h => h, fun _ _ => rfl, ?_⟩
    intro pre l post hd
    cases pre <;> cases hd
  | cons l0 rest ih =>
    intro n factor r h
    unfold factorLines at h
    split at h
    · rename_i htr
      split at h
      · cases h
      · rename_i n1 f1 hm
        obtain ⟨m1, m2, m3, m4, m5⟩ := factorMelines_rows _ _ _ _ _ hm
        obtain ⟨h1, h2, h3, h4, h5⟩ := ih n1 f1 r h
        have m1a : n1 = n + melineRows l0.nbFeature l0.meline 0 := m1
        have m2a : f1.length = factor.length := m2
        have hr1 : r.1 = n + linesRowsFirst (l0 :: rest) := by
          rw [h1, m1a]
          show _ = n + ((if l0.isTracked then melineRows l0.nbFeature l0.meline 0 else 0)
            + linesRowsFirst rest)
          rw [if_pos htr]
          omega
        have hn1 : n ≤ n1 := by omega
        have hn1r : n1 ≤ r.1 := by omega
        refine ⟨hr1, h2.trans m2a, ?_, ?_, ?_⟩
        · intro hn
          rw [← m2a]
          exact h3 (by rw [m2a]; exact m3 hn)
        · intro j hj
          rw [h4 j (by omega)]
          exact m4 j (by
            rcases hj with hj | hj
            · exact Or.inl hj
            · exact Or.inr (by show n1 ≤ j; omega))
        · intro pre l post hd hl mpre sites mpost hml i hi
          cases pre with
          | nil =>
            simp only [List.nil_append, List.cons.injEq] at hd
            obtain ⟨hl0, -⟩ := hd
            subst hl0
            obtain ⟨b1, st, hst, hv⟩ := m5 mpre sites mpost hml i (by simpa using hi)
            have hrow : n + linesRowsFirst ([] : List (DistanceLine Pose))
                + melineRows l0.nbFeature mpre 0 + i = n + melineRows l0.nbFeature mpre 0 + i := by
              show n + 0 + _ + i = _
              omega
            rw [hrow]
            have b1a : n + melineRows l0.nbFeature mpre 0 + i < n1 := b1
            refine ⟨by omega, st, hst, ?_⟩
            rw [h4 _ (Or.inl b1a)]
            exact hv
          | cons p0 pre1 =>
            simp only [List.cons_append, List.cons.injEq] at hd
            obtain ⟨hp0, hrest⟩ := hd
            subst hp0
            have := h5 pre1 l post hrest hl mpre sites mpost hml i hi
            have hrow : n + linesRowsFirst (l0 :: pre1) + melineRows l.nbFeature mpre 0 + i
                = n1 + linesRowsFirst pre1 + melineRows l.nbFeature mpre 0 + i := by
              show n + ((if l0.isTracked then melineRows l0.nbFeature l0.meline 0 else 0)
                + linesRowsFirst pre1) + _ + i = _
              rw [if_pos htr, m1a]
              omega
            rw [hrow]
            exact this
    · rename_i htr
      obtain ⟨h1, h2, h3, h4, h5⟩ := ih n factor r h
      have hr1 : r.1 = n + linesRowsFirst (l0 :: rest) := by
        rw [h1]
        show _ = n + ((if l0.isTracked then melineRows l0.nbFeature l0.meline 0 else 0)
          + linesRowsFirst rest)
        rw [if_neg htr]
        omega
      refine ⟨hr1, h2, h3, h4, ?_⟩
      intro pre l post hd hl mpre sites mpost hml i hi
      cases pre with
      | nil =>
        simp only [List.nil_append, List.cons.injEq] at hd
        obtain ⟨hl0, -⟩ := hd
        subst hl0
        exact absurd hl htr
      | cons p0 pre1 =>
        simp only [List.cons_append, List.cons.injEq] at hd
        obtain ⟨hp0, hrest⟩ := hd
        subst hp0
        have := h5 pre1 l post hrest hl mpre sites mpost hml i hi
        have hrow : n + linesRowsFirst (l0 :: pre1) + melineRows l.nbFeature mpre 0 + i
            = n + linesRowsFirst pre1 + melineRows l.nbFeature mpre 0 + i := by
          show n + ((if l0.isTracked then melineRows l0.nbFeature l0.meline 0 else 0)
            + linesRowsFirst pre1) + _ + i = _
          rw [if_neg htr]
          omega
        rw [hrow]
        exact this

/-- The loop of the attenuation pass over cylinders. -/
theorem factorCylinders_rows (ls : List (DistanceCylinder Pose)) :
    ∀ (n : Nat) (factor : ColVector) (r : Nat × ColVector),
      factorCylinders ls n factor = .ok r →
      r.1 = n + cylindersRows ls ∧ r.2.length = factor.length ∧
      (n ≤ factor.length → r.1 ≤ factor.length) ∧
      (∀ j, j < n ∨ r.1 ≤ j → r.2.get? j = factor.get? j) ∧
      (∀ pre cy post, ls = pre ++ cy :: post → cy.isTracked = true →
        ∃ site, cylinderSites cy = some site ∧
          ∀ i, i < cy.nbFeature →
            n + cylindersRows pre + i < r.1 ∧
            ∃ st, site i = some st ∧
              r.2.get? (n + cylindersRows pre + i) = some (rowFactor 1 st)) := by
  induction ls with
  | nil =>
    intro n factor r h
    simp only [factorCylinders, Except.ok.injEq] at h
    subst h
    refine ⟨rfl, rfl, fun h => h, fun _ _ => rfl, ?_⟩
    intro pre l post hd
    cases pre <;> cases hd
  | cons c0 rest ih =>
    intro n factor r h
    unfold factorCylinders at h
    split at h
    · rename_i htr
      split at h
      · cases h
      · rename_i site hsite
        split at h
        · cases h
        · rename_i f1 hf1
          obtain ⟨s1, s2, s3, s4⟩ := factorSites_rows c0.nbFeature 0 factor f1 hf1
          obtain ⟨h1, h2, h3, h4, h5⟩ := ih (n + c0.nbFeature) f1 r h
          have hr1 : r.1 = n + cylindersRows (c0 :: rest) := by
            rw [h1]
            show _ = n + ((if c0.isTracked then c0.nbFeature else 0) + cylindersRows rest)
            rw [if_pos htr]
            omega
          refine ⟨hr1, h2.trans s1, ?_, ?_, ?_⟩
          · intro hn
            rw [← s1]
            apply h3
            rw [s1]
            by_cases hz : c0.nbFeature = 0
            · omega
            · have := s2 hz
              omega
          · intro j hj
            rw [h4 j (by omega), s3 j (by omega)]
          · intro pre cy post hd hl
            cases pre with
            | nil =>
              simp only [List.nil_append, List.cons.injEq] at hd
              obtain ⟨hc0, -⟩ := hd
              subst hc0
              refine ⟨site, hsite, ?_⟩
              intro i hi
              obtain ⟨st, hst, hv⟩ := s4 i hi
              have hrow : n + cylindersRows ([] : List (DistanceCylinder Pose)) + i
                  = n + 0 + i := rfl
              rw [hrow]
              refine ⟨by omega, st, by rw [← hst]; congr 1; omega, ?_⟩
              rw [h4 (n + 0 + i) (by omega)]
              exact hv
            | cons p0 pre1 =>
              simp only [List.cons_append, List.cons.injEq] at hd
              obtain ⟨hp0, hrest⟩ := hd
              subst hp0
              obtain ⟨site1, hs1, hrows⟩ := h5 pre1 cy post hrest hl
              refine ⟨site1, hs1, ?_⟩
              intro i hi
              have hrow : n + cylindersRows (c0 :: pre1) + i
                  = n + c0.nbFeature + cylindersRows pre1 + i := by
                show n + ((if c0.isTracked then c0.nbFeature else 0) + cylindersRows pre1) + i
                  = _
                rw [if_pos htr]
                omega
              rw [hrow]
              exact hrows i hi
    · rename_i htr
      obtain ⟨h1, h2, h3, h4, h5⟩ := ih n factor r h
      have hr1 : r.1 = n + cylindersRows (c0 :: rest) := by
        rw [h1]
        show _ = n + ((if c0.isTracked then c0.nbFeature else 0) + cylindersRows rest)
        rw [if_neg htr]
        omega
      refine ⟨hr1, h2, h3, h4, ?_⟩
      intro pre cy post hd hl
      cases pre with
      | nil =>
        simp only [List.nil_append, List.cons.injEq] at hd
        obtain ⟨hc0, -⟩ := hd
        subst hc0
        exact absurd hl htr
      | cons p0 pre1 =>
        simp only [List.cons_append, List.cons.injEq] at hd
        obtain ⟨hp0, hrest⟩ := hd
        subst hp0
        obtain ⟨site1, hs1, hrows⟩ := h5 pre1 cy post hrest hl
        refine ⟨site1, hs1, ?_⟩
        intro i hi
        have hrow : n + cylindersRows (c0 :: pre1) + i = n + cylindersRows pre1 + i := by
          show n + ((if c0.isTracked then c0.nbFeature else 0) + cylindersRows pre1) + i = _
          rw [if_neg htr]
          omega
        rw [hrow]
        exact hrows i hi

/-- The loop of the attenuation pass over circles. -/
theorem factorCircles_rows (ls : List (DistanceCircle Pose)) :
    ∀ (n : Nat) (factor : ColVector) (r : Nat × ColVector),
      factorCircles ls n factor = .ok r →
      r.1 = n + circlesRows ls ∧ r.2.length = factor.length ∧
      (n ≤ factor.length → r.1 ≤ factor.length) ∧
      (∀ j, j < n ∨ r.1 ≤ j → r.2.get? j = factor.get? j) ∧
      (∀ pre ci post, ls = pre ++ ci :: post → ci.isTracked = true →
        ∀ i, i < ci.nbFeature →
          n + circlesRows pre + i < r.1 ∧
          ∃ st, (ci.meEllipse.getD []).get? i = some st ∧
            r.2.get? (n + circlesRows pre + i) = some (rowFactor 1 st)) := by
  induction ls with
  | nil =>
    intro n factor r h
    simp only [factorCircles, Except.ok.injEq] at h
    subst h
    refine ⟨rfl, rfl, fun h => h, fun _ _ => rfl, ?_⟩
    intro pre l post hd
    cases pre <;> cases hd
  | cons c0 rest ih =>
    intro n factor r h
    unfold factorCircles at h
    split at h
    · rename_i htr
      split at h
      · cases h
      · rename_i f1 hf1
        obtain ⟨s1, s2, s3, s4⟩ := factorSites_rows c0.nbFeature 0 factor f1 hf1
        obtain ⟨h1, h2, h3, h4, h5⟩ := ih (n + c0.nbFeature) f1 r h
        have hr1 : r.1 = n + circlesRows (c0 :: rest) := by
          rw [h1]
          show _ = n + ((if c0.isTracked then c0.nbFeature else 0) + circlesRows rest)
          rw [if_pos htr]
          omega
        refine ⟨hr1, h2.trans s1, ?_, ?_, ?_⟩
        · intro hn
          rw [← s1]
          apply h3
          rw [s1]
          by_cases hz : c0.nbFeature = 0
          · omega
          · have := s2 hz
            omega
        · intro j hj
          rw [h4 j (by omega), s3 j (by omega)]
        · intro pre ci post hd hl i hi
          cases pre with
          | nil =>
            simp only [List.nil_append, List.cons.injEq] at hd
            obtain ⟨hc0, -⟩ := hd
            subst hc0
            obtain ⟨st, hst, hv⟩ := s4 i hi
            have hrow : n + circlesRows ([] : List (DistanceCircle Pose)) + i
                = n + 0 + i := rfl
            rw [hrow]
            refine ⟨by omega, st, by rw [← hst]; congr 1; omega, ?_⟩
            rw [h4 (n + 0 + i) (by omega)]
            exact hv
          | cons p0 pre1 =>
            simp only [List.cons_append, List.cons.injEq] at hd
            obtain ⟨hp0, hrest⟩ := hd
            subst hp0
            have hrow : n + circlesRows (c0 :: pre1) + i
                = n + c0.nbFeature + circlesRows pre1 + i := by
              show n + ((if c0.isTracked then c0.nbFeature else 0) + circlesRows pre1) + i = _
              rw [if_pos htr]
              omega
            rw [hrow]
            exact h5 pre1 ci post hrest hl i hi
    · rename_i htr
      obtain ⟨h1, h2, h3, h4, h5⟩ := ih n factor r h
      have hr1 : r.1 = n + circlesRows (c0 :: rest) := by
        rw [h1]
        show _ = n + ((if c0.isTracked then c0.nbFeature else 0) + circlesRows rest)
        rw [if_neg htr]
        omega
      refine ⟨hr1, h2, h3, h4, ?_⟩
      intro pre ci post hd hl i hi
      cases pre with
      | nil =>
        simp only [List.nil_append, List.cons.injEq] at hd
        obtain ⟨hc0, -⟩ := hd
        subst hc0
        exact absurd hl htr
      | cons p0 pre1 =>
        simp only [List.cons_append, List.cons.injEq] at hd
        obtain ⟨hp0, hrest⟩ := hd
        subst hp0
        have hrow : n + circlesRows (c0 :: pre1) + i = n + circlesRows pre1 + i := by
          show n + ((if c0.isTracked then c0.nbFeature else 0) + circlesRows pre1) + i = _
          rw [if_neg htr]
          omega
        rw [hrow]
        exact h5 pre1 ci post hrest hl i hi

/-- The attenuation pass as a whole, when it returns a non-zero row count: the vector has one
entry per counted row; the rows it writes are the first
`linesRowsFirst + cylindersRows + circlesRows` ones, which lie inside the counted rows; the row
of every site of a tracked primitive holds the factor of that site; the rows it does not write
hold 1. -/
theorem trackFirstLoop_rows {t : Tracker Pose} {lvl nbrow : Nat} {factor : ColVector}
    (h : trackFirstLoop t [] lvl = .ok (nbrow, factor)) (hn : nbrow ≠ 0) :
    initMbtTracking t lvl = .ok nbrow ∧ factor.length = nbrow ∧
    linesRowsFirst (t.lines lvl) + cylindersRows (t.cylinders lvl) + circlesRows (t.circles lvl)
      ≤ nbrow ∧
    (∀ j, linesRowsFirst (t.lines lvl) + cylindersRows (t.cylinders lvl)
        + circlesRows (t.circles lvl) ≤ j → j < nbrow → factor.get? j = some 1) ∧
    (∀ pre l post, t.lines lvl = pre ++ l :: post → l.isTracked = true →
      ∀ mpre sites mpost, l.meline = mpre ++ some sites :: mpost →
        ∀ i, i < l.nbFeature.getD mpre.length 0 →
          ∃ st, sites.get? i = some st ∧
            factor.get? (linesRowsFirst pre + melineRows l.nbFeature mpre 0 + i)
              = some (rowFactor (lineFac l l.Lindex_polygon) st)) ∧
    (∀ pre cy post, t.cylinders lvl = pre ++ cy :: post → cy.isTracked = true →
      ∃ site, cylinderSites cy = some site ∧
        ∀ i, i < cy.nbFeature →
          ∃ st, site i = some st ∧
            factor.get? (linesRowsFirst (t.lines lvl) + cylindersRows pre + i)
              = some (rowFactor 1 st)) ∧
    (∀ pre ci post, t.circles lvl = pre ++ ci :: post → ci.isTracked = true →
      ∀ i, i < ci.nbFeature →
        ∃ st, (ci.meEllipse.getD []).get? i = some st ∧
          factor.get? (linesRowsFirst (t.lines lvl) + cylindersRows (t.cylinders lvl)
            + circlesRows pre + i) = some (rowFactor 1 st)) := by
  unfold trackFirstLoop at h
  split at h
  · cases h
  split at h
  · cases h
  rename_i nbrow0 hcount
  split at h
  · rename_i hz
    cases h
    exact absurd hz hn
  split at h
  · cases h
  rename_i n1 f1 hl
  split at h
  · cases h
  rename_i n2 f2 hc
  split at h
  · cases h
  rename_i n3 f3 hci
  cases h
  obtain ⟨a1, a2, a3, a4, a5⟩ := factorLines_rows _ _ _ _ hl
  obtain ⟨b1, b2, b3, b4, b5⟩ := factorCylinders_rows _ _ _ _ hc
  obtain ⟨c1, c2, c3, c4, c5⟩ := factorCircles_rows _ _ _ _ hci
  have a1a : n1 = 0 + linesRowsFirst (t.lines lvl) := a1
  have a2a : f1.length = (List.replicate nbrow (1 : ℚ)).length := a2
  have b1a : n2 = n1 + cylindersRows (t.cylinders lvl) := b1
  have b2a : f2.length = f1.length := b2
  have c1a : n3 = n2 + circlesRows (t.circles lvl) := c1
  have c2a : factor.length = f2.length := c2
  have hlen0 : (List.replicate nbrow (1 : ℚ)).length = nbrow := List.length_replicate _ _
  have hlen : factor.length = nbrow := by rw [c2a, b2a, a2a, hlen0]
  have hn1 : n1 ≤ f1.length := by
    rw [a2a]
    exact a3 (Nat.zero_le _)
  have hn2 : n2 ≤ f2.length := by
    rw [b2a]
    exact b3 hn1
  have hn3 : n3 ≤ factor.length := by
    rw [c2a]
    exact c3 hn2
  have c4a : ∀ j, j < n2 ∨ n3 ≤ j → factor.get? j = f2.get? j := c4
  have b4a : ∀ j, j < n1 ∨ n2 ≤ j → f2.get? j = f1.get? j := b4
  have a4a : ∀ j, j < 0 ∨ n1 ≤ j → f1.get? j = (List.replicate nbrow (1 : ℚ)).get? j := a4
  refine ⟨hcount, hlen, by omega, ?_, ?_, ?_, ?_⟩
  · intro j hj hjn
    rw [c4a j (by omega), b4a j (by omega), a4a j (by omega)]
    simp only [List.get?_eq_getElem?]
    rw [List.getElem?_replicate, if_pos hjn]
  · intro pre l post hd htr mpre sites mpost hml i hi
    obtain ⟨hb, st, hst, hv⟩ := a5 pre l post hd htr mpre sites mpost hml i hi
    have hb1 : 0 + linesRowsFirst pre + melineRows l.nbFeature mpre 0 + i < n1 := hb
    refine ⟨st, hst, ?_⟩
    have hrow : linesRowsFirst pre + melineRows l.nbFeature mpre 0 + i
        = 0 + linesRowsFirst pre + melineRows l.nbFeature mpre 0 + i := by omega
    rw [hrow, c4a _ (by omega), b4a _ (by omega)]
    exact hv
  · intro pre cy post hd htr
    obtain ⟨site, hsite, hrows⟩ := b5 pre cy post hd htr
    refine ⟨site, hsite, ?_⟩
    intro i hi
    obtain ⟨hb, st, hst, hv⟩ := hrows i hi
    have hb1 : n1 + cylindersRows pre + i < n2 := hb
    refine ⟨st, hst, ?_⟩
    have hrow : linesRowsFirst (t.lines lvl) + cylindersRows pre + i
        = n1 + cylindersRows pre + i := by omega
    rw [hrow, c4a _ (by omega)]
    exact hv
  · intro pre ci post hd htr i hi
    obtain ⟨hb, st, hst, hv⟩ := c5 pre ci post hd htr i hi
    refine ⟨st, hst, ?_⟩
    have hrow : linesRowsFirst (t.lines lvl) + cylindersRows (t.cylinders lvl)
        + circlesRows pre + i = n2 + circlesRows pre + i := by omega
    rw [hrow]
    exact hv

/-! ## Reliability attenuation (C11, C12) -/

theorem lineFac_away_from_border (l : DistanceLine Pose) (hb : l.closeToImageBorder = false)
    (idx : List Int) : lineFac l idx = if idx.any l.isAppearing = true then 0.2 else 1 := by
  induction idx with
  | nil => rfl
  | cons index rest ih =>
    unfold lineFac
    by_cases ha : l.isAppearing index = true
    · simp [ha]
    · rw [if_neg ha, if_neg (by rw [hb]; decide), ih]
      simp [ha]

theorem lineFac_near_border (l : DistanceLine Pose) (hb : l.closeToImageBorder = true)
    (idx : List Int) :
    lineFac l idx = match idx with
      | [] => 1
      | index :: _ => if l.isAppearing index = true then 0.2 else 0.1 := by
  cases idx with
  | nil => rfl
  | cons index rest =>
    unfold lineFac
    by_cases ha : l.isAppearing index = true
    · simp [ha]
    · simp [ha, hb]

/-- Counterexample to C11 as stated, on three lines near the image border (each one visible,
tracked, with 4 sites): a row whose site is not in the normal state gets 0.2; when the first
governing face is appearing every row gets 0.2; a line without governing polygon gets 1.0.
None of these rows gets 0.1. -/
theorem trackFirstLoop_border_rows_not_tenth :
    trackFirstLoop (exTracker [exFaceLine true [7] (fun _ => false)
        [⟨.NO_SUPPRESSION⟩, ⟨.M_ESTIMATOR⟩, ⟨.NO_SUPPRESSION⟩, ⟨.NO_SUPPRESSION⟩]] []
        .GAUSS_NEWTON_OPT 5) [] 0 = .ok (4, [0.1, 0.2, 0.1, 0.1]) ∧
    trackFirstLoop (exTracker [exFaceLine true [7] (fun _ => true) exNormalSites] []
        .GAUSS_NEWTON_OPT 5) [] 0 = .ok (4, [0.2, 0.2, 0.2, 0.2]) ∧
    trackFirstLoop (exTracker [exFaceLine true [] (fun _ => false) exNormalSites] []
        .GAUSS_NEWTON_OPT 5) [] 0 = .ok (4, [1, 1, 1, 1]) ∧
    (0.2 : ℚ) ≠ 0.1 ∧ (1 : ℚ) ≠ 0.1 := by
  refine ⟨by with_unfolding_all rfl, by with_unfolding_all rfl, by with_unfolding_all rfl,
    by norm_num, by norm_num⟩

/-- The rows of the tracked cylinders and circles in the factor vector: the site of row `i` of a
cylinder is site `i` of its first limb `meline1` for `i < nbFeaturel1` and site
`i - nbFeaturel1` of its second limb `meline2` otherwise; the site of row `i` of a circle is
site `i` of `meEllipse`; the row holds 0.2 when that site is not in the normal state and 1.0
otherwise. -/
theorem trackFirstLoop_curved_rows {t : Tracker Pose} {lvl nbrow : Nat} {factor : ColVector}
    (h : trackFirstLoop t [] lvl = .ok (nbrow, factor)) (hn : nbrow ≠ 0) :
    (∀ pre cy post, t.cylinders lvl = pre ++ cy :: post → cy.isTracked = true →
      ∀ i, i < cy.nbFeature →
        ∃ l1 l2, cy.meline1 = some l1 ∧ cy.meline2 = some l2 ∧
          (i < cy.nbFeaturel1 → ∃ st, l1.get? i = some st ∧
            factor.get? (linesRowsFirst (t.lines lvl) + cylindersRows pre + i) =
              some (if st.state ≠ MeSiteState.NO_SUPPRESSION then 0.2 else 1)) ∧
          (cy.nbFeaturel1 ≤ i → ∃ st, l2.get? (i - cy.nbFeaturel1) = some st ∧
            factor.get? (linesRowsFirst (t.lines lvl) + cylindersRows pre + i) =
              some (if st.state ≠ MeSiteState.NO_SUPPRESSION then 0.2 else 1))) ∧
    (∀ pre ci post, t.circles lvl = pre ++ ci :: post → ci.isTracked = true →
      ∀ i, i < ci.nbFeature →
        ∃ sites st, ci.meEllipse = some sites ∧ sites.get? i = some st ∧
          factor.get? (linesRowsFirst (t.lines lvl) + cylindersRows (t.cylinders lvl)
            + circlesRows pre + i) =
              some (if st.state ≠ MeSiteState.NO_SUPPRESSION then 0.2 else 1)) := by
  obtain ⟨-, -, -, -, -, hcyl, hcir⟩ := trackFirstLoop_rows h hn
  refine ⟨?_, ?_⟩
  · intro pre cy post hcy htr i hi
    obtain ⟨site, hsite, hrows⟩ := hcyl pre cy post hcy htr
    obtain ⟨st, hst, hv⟩ := hrows i hi
    unfold cylinderSites at hsite
    split at hsite
    · cases hsite
      cases hst
    · rename_i l1 l2 e1 e2
      cases hsite
      refine ⟨l1, l2, e1, e2, fun hlt => ⟨st, ?_, hv⟩, fun hge => ⟨st, ?_, hv⟩⟩
      · simpa [hlt] using hst
      · have hnlt : ¬ i < cy.nbFeaturel1 := by omega
        simpa [hnlt] using hst
    · cases hsite
  · intro pre ci post hci htr i hi
    obtain ⟨st, hst, hv⟩ := hcir pre ci post hci htr i hi
    cases hme : ci.meEllipse with
    | none =>
      rw [hme] at hst
      simp at hst
    | some sites =>
      rw [hme] at hst
      exact ⟨sites, st, rfl, by simpa using hst, hv⟩

/-- C11, amended. When the attenuation pass returns a non-zero row count: for every tracked
line that is near the image border (`closeToImageBorder(I, 10)`) and every row of that line,
the factor is 0.2 when the site of the row is not in the normal state; otherwise it is 0.1 when
the line has a governing polygon and the first one is not appearing, 0.2 when the first
governing face is appearing, and 1.0 when the line has no governing polygon.  Cylinders and
circles have no border test: every row of a tracked cylinder (its site taken from the first limb
for the first `nbFeaturel1` rows, from the second limb after) and of a tracked circle gets 0.2
when its site is not in the normal state and 1.0 otherwise. -/
theorem trackFirstLoop_factor_near_border (t : Tracker Pose) (lvl nbrow : Nat)
    (factor : ColVector) (h : trackFirstLoop t [] lvl = .ok (nbrow, factor)) (hn : nbrow ≠ 0) :
    (∀ pre l post, t.lines lvl = pre ++ l :: post → l.isTracked = true →
      l.closeToImageBorder = true →
      ∀ mpre sites mpost, l.meline = mpre ++ some sites :: mpost →
        ∀ i, i < l.nbFeature.getD mpre.length 0 →
          ∃ st, sites.get? i = some st ∧
            factor.get? (linesRowsFirst pre + melineRows l.nbFeature mpre 0 + i) =
              some (if st.state ≠ MeSiteState.NO_SUPPRESSION then 0.2
                else match l.Lindex_polygon with
                  | [] => 1
                  | index :: _ => if l.isAppearing index = true then 0.2 else 0.1)) ∧
    (∀ pre cy post, t.cylinders lvl = pre ++ cy :: post → cy.isTracked = true →
      ∀ i, i < cy.nbFeature →
        ∃ l1 l2, cy.meline1 = some l1 ∧ cy.meline2 = some l2 ∧
          (i < cy.nbFeaturel1 → ∃ st, l1.get? i = some st ∧
            factor.get? (linesRowsFirst (t.lines lvl) + cylindersRows pre + i) =
              some (if st.state ≠ MeSiteState.NO_SUPPRESSION then 0.2 else 1)) ∧
          (cy.nbFeaturel1 ≤ i → ∃ st, l2.get? (i - cy.nbFeaturel1) = some st ∧
            factor.get? (linesRowsFirst (t.lines lvl) + cylindersRows pre + i) =
              some (if st.state ≠ MeSiteState.NO_SUPPRESSION then 0.2 else 1))) ∧
    (∀ pre ci post, t.circles lvl = pre ++ ci :: post → ci.isTracked = true →
      ∀ i, i < ci.nbFeature →
        ∃ sites st, ci.meEllipse = some sites ∧ sites.get? i = some st ∧
          factor.get? (linesRowsFirst (t.lines lvl) + cylindersRows (t.cylinders lvl)
            + circlesRows pre + i) =
              some (if st.state ≠ MeSiteState.NO_SUPPRESSION then 0.2 else 1)) := by
  obtain ⟨-, -, -, -, hlines, -, -⟩ := trackFirstLoop_rows h hn
  obtain ⟨hcyl, hcir⟩ := trackFirstLoop_curved_rows h hn
  refine ⟨?_, hcyl, hcir⟩
  intro pre l post hl htr hb mpre sites mpost hml i hi
  obtain ⟨st, hst, hv⟩ := hlines pre l post hl htr mpre sites mpost hml i hi
  refine ⟨st, hst, ?_⟩
  rw [hv, lineFac_near_border l hb]
  rfl

/-- Witness of the amended C11: a line near the border whose only governing face is not
appearing, with the second site flagged by the estimator, followed by a cylinder and a circle:
the rows of the line get 0.1, 0.2, 0.1, 0.1, those of the cylinder 1, 0.2 (first limb) and 0.2
(second limb), those of the circle 1, 0.2. -/
theorem trackFirstLoop_factor_near_border_witness :
    trackFirstLoop (exContourTracker [exFaceLine true [7] (fun _ => false)
        [⟨.NO_SUPPRESSION⟩, ⟨.M_ESTIMATOR⟩, ⟨.NO_SUPPRESSION⟩, ⟨.NO_SUPPRESSION⟩]]
        [exCylinder] [exCircle]) [] 0
      = .ok (9, [0.1, 0.2, 0.1, 0.1, 1, 0.2, 0.2, 1, 0.2]) ∧
    (∃ st, ([⟨.NO_SUPPRESSION⟩, ⟨.M_ESTIMATOR⟩, ⟨.NO_SUPPRESSION⟩, ⟨.NO_SUPPRESSION⟩] :
        List MeSite).get? 0 = some st ∧
      ([0.1, 0.2, 0.1, 0.1, 1, 0.2, 0.2, 1, 0.2] : ColVector).get? (0 + 0 + 0) =
        some (if st.state ≠ MeSiteState.NO_SUPPRESSION then 0.2
          else if (fun _ => false) (7 : ℤ) = true then 0.2 else 0.1)) ∧
    (∃ l1 l2, exCylinder.meline1 = some l1 ∧ exCylinder.meline2 = some l2 ∧
      (1 < exCylinder.nbFeaturel1 → ∃ st, l1.get? 1 = some st ∧
        ([0.1, 0.2, 0.1, 0.1, 1, 0.2, 0.2, 1, 0.2] : ColVector).get? (4 + 0 + 1) =
          some (if st.state ≠ MeSiteState.NO_SUPPRESSION then 0.2 else 1)) ∧
      (exCylinder.nbFeaturel1 ≤ 1 → ∃ st, l2.get? (1 - exCylinder.nbFeaturel1) = some st ∧
        ([0.1, 0.2, 0.1, 0.1, 1, 0.2, 0.2, 1, 0.2] : ColVector).get? (4 + 0 + 1) =
          some (if st.state ≠ MeSiteState.NO_SUPPRESSION then 0.2 else 1))) :=
  ⟨by with_unfolding_all rfl,
    (trackFirstLoop_factor_near_border
      (exContourTracker [exFaceLine true [7] (fun _ => false)
        [⟨.NO_SUPPRESSION⟩, ⟨.M_ESTIMATOR⟩, ⟨.NO_SUPPRESSION⟩, ⟨.NO_SUPPRESSION⟩]]
        [exCylinder] [exCircle]) 0 9 [0.1, 0.2, 0.1, 0.1, 1, 0.2, 0.2, 1, 0.2]
      (by with_unfolding_all rfl) (by decide)).1
      [] _ [] rfl rfl rfl [] _ [] rfl 0 (by decide),
    (trackFirstLoop_factor_near_border
      (exContourTracker [exFaceLine true [7] (fun _ => false)
        [⟨.NO_SUPPRESSION⟩, ⟨.M_ESTIMATOR⟩, ⟨.NO_SUPPRESSION⟩, ⟨.NO_SUPPRESSION⟩]]
        [exCylinder] [exCircle]) 0 9 [0.1, 0.2, 0.1, 0.1, 1, 0.2, 0.2, 1, 0.2]
      (by with_unfolding_all rfl) (by decide)).2.1
      [] exCylinder [] rfl rfl 1 (by decide)⟩

/-- C12. When the attenuation pass returns a non-zero row count: for every tracked line that is
not near the image border and every row of that line, the factor is exactly 0.2 when the site of
the row is not in the normal state or one of the governing faces of the line is appearing, and
exactly 1.0 otherwise; for every tracked cylinder and every tracked circle (which have no border
test) and every row of it, the factor is exactly 0.2 when the site of the row is not in the
normal state and exactly 1.0 otherwise, the site of a cylinder row being site `i` of the first
limb `meline1` for `i < nbFeaturel1` and site `i - nbFeaturel1` of the second limb `meline2`
after, and the site of a circle row being site `i` of `meEllipse`; and every entry of the factor
vector is one of 1.0, 0.2, 0.1. -/
theorem trackFirstLoop_factor_away_from_border (t : Tracker Pose) (lvl nbrow : Nat)
    (factor : ColVector) (h : trackFirstLoop t [] lvl = .ok (nbrow, factor)) (hn : nbrow ≠ 0) :
    (∀ pre l post, t.lines lvl = pre ++ l :: post → l.isTracked = true →
      l.closeToImageBorder = false →
      ∀ mpre sites mpost, l.meline = mpre ++ some sites :: mpost →
        ∀ i, i < l.nbFeature.getD mpre.length 0 →
          ∃ st, sites.get? i = some st ∧
            factor.get? (linesRowsFirst pre + melineRows l.nbFeature mpre 0 + i) =
              some (if st.state ≠ MeSiteState.NO_SUPPRESSION ∨
                  l.Lindex_polygon.any l.isAppearing = true then 0.2 else 1)) ∧
    (∀ pre cy post, t.cylinders lvl = pre ++ cy :: post → cy.isTracked = true →
      ∀ i, i < cy.nbFeature →
        ∃ l1 l2, cy.meline1 = some l1 ∧ cy.meline2 = some l2 ∧
          (i < cy.nbFeaturel1 → ∃ st, l1.get? i = some st ∧
            factor.get? (linesRowsFirst (t.lines lvl) + cylindersRows pre + i) =
              some (if st.state ≠ MeSiteState.NO_SUPPRESSION then 0.2 else 1)) ∧
          (cy.nbFeaturel1 ≤ i → ∃ st, l2.get? (i - cy.nbFeaturel1) = some st ∧
            factor.get? (linesRowsFirst (t.lines lvl) + cylindersRows pre + i) =
              some (if st.state ≠ MeSiteState.NO_SUPPRESSION then 0.2 else 1))) ∧
    (∀ pre ci post, t.circles lvl = pre ++ ci :: post → ci.isTracked = true →
      ∀ i, i < ci.nbFeature →
        ∃ sites st, ci.meEllipse = some sites ∧ sites.get? i = some st ∧
          factor.get? (linesRowsFirst (t.lines lvl) + cylindersRows (t.cylinders lvl)
            + circlesRows pre + i) =
              some (if st.state ≠ MeSiteState.NO_SUPPRESSION then 0.2 else 1)) ∧
    (∀ x ∈ factor, x = 1 ∨ x = 0.2 ∨ x = 0.1) := by
  obtain ⟨-, -, -, -, hlines, -, -⟩ := trackFirstLoop_rows h hn
  obtain ⟨hcyl, hcir⟩ := trackFirstLoop_curved_rows h hn
  refine ⟨?_, hcyl, hcir, (trackFirstLoop_factorVector h).2⟩
  intro pre l post hl htr hb mpre sites mpost hml i hi
  obtain ⟨st, hst, hv⟩ := hlines pre l post hl htr mpre sites mpost hml i hi
  refine ⟨st, hst, ?_⟩
  rw [hv, lineFac_away_from_border l hb]
  unfold rowFactor
  by_cases hs : st.state ≠ MeSiteState.NO_SUPPRESSION
  · rw [if_pos hs, if_pos (Or.inl hs)]
  · by_cases ha : l.Lindex_polygon.any l.isAppearing = true
    · rw [if_neg hs, if_pos ha, if_pos (Or.inr ha)]
    · rw [if_neg hs, if_neg ha, if_neg (by tauto)]

/-- Witness of C12: a line away from the border whose second governing face is appearing gets
0.2 in every row; with no appearing face and one site flagged it gets 1, 0.2, 1, 1, and the
cylinder and the circle that follow get 1, 0.2 (first limb), 0.2 (second limb) and 1, 0.2: the
flagged site of the second limb is the one of row 2 of the cylinder. -/
theorem trackFirstLoop_factor_away_from_border_witness :
    trackFirstLoop (exTracker [exFaceLine false [7, 8] (fun x => decide (x = 8)) exNormalSites]
        [] .GAUSS_NEWTON_OPT 5) [] 0 = .ok (4, [0.2, 0.2, 0.2, 0.2]) ∧
    trackFirstLoop (exContourTracker [exFaceLine false [7, 8] (fun _ => false)
        [⟨.NO_SUPPRESSION⟩, ⟨.M_ESTIMATOR⟩, ⟨.NO_SUPPRESSION⟩, ⟨.NO_SUPPRESSION⟩]]
        [exCylinder] [exCircle]) [] 0 = .ok (9, [1, 0.2, 1, 1, 1, 0.2, 0.2, 1, 0.2]) ∧
    (∃ l1 l2, exCylinder.meline1 = some l1 ∧ exCylinder.meline2 = some l2 ∧
      (2 < exCylinder.nbFeaturel1 → ∃ st, l1.get? 2 = some st ∧
        ([1, 0.2, 1, 1, 1, 0.2, 0.2, 1, 0.2] : ColVector).get? (4 + 0 + 2) =
          some (if st.state ≠ MeSiteState.NO_SUPPRESSION then 0.2 else 1)) ∧
      (exCylinder.nbFeaturel1 ≤ 2 → ∃ st, l2.get? (2 - exCylinder.nbFeaturel1) = some st ∧
        ([1, 0.2, 1, 1, 1, 0.2, 0.2, 1, 0.2] : ColVector).get? (4 + 0 + 2) =
          some (if st.state ≠ MeSiteState.NO_SUPPRESSION then 0.2 else 1))) ∧
    (∃ sites st, exCircle.meEllipse = some sites ∧ sites.get? 1 = some st ∧
      ([1, 0.2, 1, 1, 1, 0.2, 0.2, 1, 0.2] : ColVector).get? (4 + 3 + 0 + 1) =
        some (if st.state ≠ MeSiteState.NO_SUPPRESSION then 0.2 else 1)) ∧
    (∀ x ∈ ([1, 0.2, 1, 1, 1, 0.2, 0.2, 1, 0.2] : ColVector), x = 1 ∨ x = 0.2 ∨ x = 0.1) :=
  ⟨by with_unfolding_all rfl, by with_unfolding_all rfl,
    (trackFirstLoop_factor_away_from_border
      (exContourTracker [exFaceLine false [7, 8] (fun _ => false)
        [⟨.NO_SUPPRESSION⟩, ⟨.M_ESTIMATOR⟩, ⟨.NO_SUPPRESSION⟩, ⟨.NO_SUPPRESSION⟩]]
        [exCylinder] [exCircle]) 0 9 [1, 0.2, 1, 1, 1, 0.2, 0.2, 1, 0.2]
      (by with_unfolding_all rfl) (by decide)).2.1 [] exCylinder [] rfl rfl 2 (by decide),
    (trackFirstLoop_factor_away_from_border
      (exContourTracker [exFaceLine false [7, 8] (fun _ => false)
        [⟨.NO_SUPPRESSION⟩, ⟨.M_ESTIMATOR⟩, ⟨.NO_SUPPRESSION⟩, ⟨.NO_SUPPRESSION⟩]]
        [exCylinder] [exCircle]) 0 9 [1, 0.2, 1, 1, 1, 0.2, 0.2, 1, 0.2]
      (by with_unfolding_all rfl) (by decide)).2.2.1 [] exCircle [] rfl rfl 1 (by decide),
    (trackFirstLoop_factor_away_from_border
      (exContourTracker [exFaceLine false [7, 8] (fun _ => false)
        [⟨.NO_SUPPRESSION⟩, ⟨.M_ESTIMATOR⟩, ⟨.NO_SUPPRESSION⟩, ⟨.NO_SUPPRESSION⟩]]
        [exCylinder] [exCircle]) 0 9 [1, 0.2, 1, 1, 1, 0.2, 0.2, 1, 0.2]
      (by with_unfolding_all rfl) (by decide)).2.2.2⟩

/-! ## Row offsets of the three passes (C19) -/

theorem foldl_count_lines (ls : List (DistanceLine Pose)) (acc : Nat)
    (hv : ∀ l ∈ ls, l.isTracked = true → l.isVisible = true) :
    ls.foldl (fun nbrow l => if l.isVisible && l.isTracked then nbrow + l.nbFeatureTotal
      else nbrow) acc = acc + linesRowsSecond ls := by
  induction ls generalizing acc with
  | nil => rfl
  | cons l rest ih =>
    have hrest := fun acc1 => ih acc1 (fun x hx => hv x (List.mem_cons_of_mem _ hx))
    have hl := hv l (List.mem_cons_self _ _)
    rw [List.foldl_cons, hrest]
    simp only [linesRowsSecond]
    cases htr : l.isTracked
    · simp
    · simp [hl htr]; omega

theorem foldl_count_cylinders (ls : List (DistanceCylinder Pose)) (acc : Nat)
    (hv : ∀ cy ∈ ls, cy.isTracked = true → cy.isVisible = true) :
    ls.foldl (fun nbrow cy => if cy.isVisible && cy.isTracked then nbrow + cy.nbFeature
      else nbrow) acc = acc + cylindersRows ls := by
  induction ls generalizing acc with
  | nil => rfl
  | cons cy rest ih =>
    have hrest := fun acc1 => ih acc1 (fun x hx => hv x (List.mem_cons_of_mem _ hx))
    have hl := hv cy (List.mem_cons_self _ _)
    rw [List.foldl_cons, hrest]
    simp only [cylindersRows]
    cases htr : cy.isTracked
    · simp
    · simp [hl htr]; omega

theorem foldl_count_circles (ls : List (DistanceCircle Pose)) (acc : Nat)
    (hv : ∀ ci ∈ ls, ci.isTracked = true → ci.isVisible = true) :
    ls.foldl (fun nbrow ci => if ci.isVisible && ci.isTracked then nbrow + ci.nbFeature
      else nbrow) acc = acc + circlesRows ls := by
  induction ls generalizing acc with
  | nil => rfl
  | cons ci rest ih =>
    have hrest := fun acc1 => ih acc1 (fun x hx => hv x (List.mem_cons_of_mem _ hx))
    have hl := hv ci (List.mem_cons_self _ _)
    rw [List.foldl_cons, hrest]
    simp only [circlesRows]
    cases htr : ci.isTracked
    · simp
    · simp [hl htr]; omega

/-- When every tracked primitive of the level is visible, the row-count pass returns the number
of rows the fill pass writes. -/
theorem initMbtTracking_eq_rows (t : Tracker Pose) (lvl : Nat)
    (hlvl : lvlNotUsed t.scales lvl = false)
    (h1 : ∀ l ∈ t.lines lvl, l.isTracked = true → l.isVisible = true)
    (h2 : ∀ cy ∈ t.cylinders lvl, cy.isTracked = true → cy.isVisible = true)
    (h3 : ∀ ci ∈ t.circles lvl, ci.isTracked = true → ci.isVisible = true) :
    initMbtTracking t lvl = .ok (linesRowsSecond (t.lines lvl) + cylindersRows (t.cylinders lvl)
      + circlesRows (t.circles lvl)) := by
  unfold initMbtTracking
  rw [hlvl]
  simp only [Bool.false_eq_true, if_false]
  rw [foldl_count_lines _ _ h1, foldl_count_cylinders _ _ h2, foldl_count_circles _ _ h3]
  simp

/-- C19, failing input. With a visible tracked line of 4 sites followed by a tracked line that
is not visible and holds 2 sites, the row-count pass returns 4 (it skips the hidden line), while
the attenuation pass and the fill pass both walk the hidden line too: they write rows 4 and 5 of
buffers that have 4 rows, which is an out-of-range write.  The two passes write 6 rows, not the
4 counted. -/
theorem row_count_skips_hidden_tracked_line :
    initMbtTracking (exTracker [exLine 4, exHiddenLine 2] [] .GAUSS_NEWTON_OPT 5) 0 = .ok 4 ∧
    linesRowsFirst [exLine 4, exHiddenLine 2] = 6 ∧
    linesRowsSecond [exLine 4, exHiddenLine 2] = 6 ∧
    trackFirstLoop (exTracker [exLine 4, exHiddenLine 2] [] .GAUSS_NEWTON_OPT 5) [] 0
      = .error .undefinedBehaviour ∧
    trackSecondLoop (exTracker [exLine 4, exHiddenLine 2] [] .GAUSS_NEWTON_OPT 5)
      (List.replicate 4 (List.replicate 6 0)) (List.replicate 4 0) 1 0
      = .error .undefinedBehaviour := by
  refine ⟨by with_unfolding_all rfl, by with_unfolding_all rfl, by with_unfolding_all rfl,
    by with_unfolding_all rfl, by with_unfolding_all rfl⟩

/-! ## Helper lemmas: the verdicts of `postTrackingMbt` -/

theorem verdictSites_ok {w : ColVector} {count row : Nat} {acc acc1 : ℚ}
    {sites sites1 : List MeSite}
    (h : verdictSites w count row acc sites = .ok (acc1, sites1)) :
    Marked w row count sites sites1 ∧
      acc1 = ((w.drop row).take count).foldl doubleAdd acc ∧
      (count ≠ 0 → row + count ≤ w.length) := by
  induction count generalizing row acc acc1 sites sites1 with
  | zero =>
    unfold verdictSites at h
    cases h
    refine ⟨⟨rfl, fun k p hk => ⟨fun hlt => absurd hlt (Nat.not_lt_zero k), fun _ => hk⟩⟩,
      by simp, fun h0 => absurd rfl h0⟩
  | succ count ih =>
    unfold verdictSites at h
    split at h
    · rename_i wi p rest hw
      split at h
      · cases h
      · rename_i wmean1 rest1 hrec
        cases h
        obtain ⟨⟨hlen, hm⟩, hsum, hb⟩ := ih hrec
        have hrow : row < w.length := by
          by_contra hge
          rw [List.get?_eq_none.mpr (by omega)] at hw
          cases hw
        have hwi : w[row] = wi := by
          rw [List.get?_eq_getElem? , List.getElem?_eq_getElem hrow] at hw
          exact Option.some.inj hw
        refine ⟨⟨by simp [hlen], ?_⟩, ?_, ?_⟩
        · intro k q hk
          cases k with
          | zero =>
            simp only [List.get?_cons_zero, Option.some.injEq] at hk
            subst hk
            exact ⟨fun _ => ⟨wi, by simpa using hw, rfl⟩, fun hle => absurd hle (by omega)⟩
          | succ k =>
            simp only [List.get?_cons_succ] at hk
            obtain ⟨h1, h2⟩ := hm k q hk
            refine ⟨fun hlt => ?_, fun hle => ?_⟩
            · obtain ⟨wk, hwk, hs⟩ := h1 (by omega)
              refine ⟨wk, ?_, by simpa using hs⟩
              rw [← hwk]
              congr 1
              omega
            · simpa using h2 (by omega)
        · rw [hsum, List.drop_eq_getElem_cons hrow, List.take_succ_cons, List.foldl_cons, hwi]
        · intro _
          by_cases hc : count = 0
          · omega
          · have := hb hc
            omega
    · cases h

theorem marked_refl (w : ColVector) (row : Nat) (sites : List MeSite) :
    Marked w row 0 sites sites :=
  ⟨rfl, fun k _ hk => ⟨fun hlt => absurd hlt (Nat.not_lt_zero k), fun _ => hk⟩⟩

theorem foldl_take_add (w : ColVector) (row m n : Nat) (acc : ℚ) :
    ((w.drop row).take (m + n)).foldl doubleAdd acc
      = ((w.drop (row + m)).take n).foldl doubleAdd
          (((w.drop row).take m).foldl doubleAdd acc) := by
  rw [List.take_add, List.foldl_append, List.drop_drop]

theorem verdictMelines_ok {w : ColVector} {nbFeature : List Nat}
    {ml ml1 : List (Option (List MeSite))} {a row : Nat} {acc acc1 : ℚ}
    (h : verdictMelines w nbFeature ml a row acc = .ok (acc1, ml1)) :
    ml1.length = ml.length ∧
    (∀ j, ml.get? j = some none → ml1.get? j = some none) ∧
    (∀ j sites, ml.get? j = some (some sites) →
      ∃ sites1, ml1.get? j = some (some sites1) ∧
        Marked w (row + ((nbFeature.drop a).take j).sum) (nbFeature.getD (a + j) 0)
          sites sites1) ∧
    acc1 = ((w.drop row).take ((nbFeature.drop a).take ml.length).sum).foldl doubleAdd acc ∧
    (((nbFeature.drop a).take ml.length).sum ≠ 0 →
      row + ((nbFeature.drop a).take ml.length).sum ≤ w.length) := by
  induction ml generalizing ml1 a row acc acc1 with
  | nil =>
    unfold verdictMelines at h
    cases h
    refine ⟨rfl, fun j hj => by simp at hj, fun j sites hj => by simp at hj, by simp, by simp⟩
  | cons m rest ih =>
    unfold verdictMelines at h
    split at h
    · cases h
    · rename_i nb hnb
      have ha : a < nbFeature.length := by
        by_contra hge
        rw [List.get?_eq_none.mpr (by omega)] at hnb
        cases hnb
      have hnb1 : nbFeature[a] = nb := by
        rw [List.get?_eq_getElem?, List.getElem?_eq_getElem ha] at hnb
        exact Option.some.inj hnb
      have hdrop : nbFeature.drop a = nb :: nbFeature.drop (a + 1) := by
        rw [List.drop_eq_getElem_cons ha, hnb1]
      have hgetD : nbFeature.getD (a + 0) 0 = nb := by
        simp [List.getD_eq_getElem?_getD, List.getElem?_eq_getElem ha, hnb1]
      split at h
      · rename_i hpos
        split at h
        · cases h
        · rename_i sites0
          split at h
          · cases h
          · rename_i wmean1 sites1 hs
            split at h
            · cases h
            · rename_i wmean2 rest1 hrec
              cases h
              obtain ⟨hm, hsum, hb⟩ := verdictSites_ok hs
              obtain ⟨i1, i2, i3, i4, i5⟩ := ih hrec
              refine ⟨by simp [i1], ?_, ?_, ?_, ?_⟩
              · intro j hj
                cases j with
                | zero => simp at hj
                | succ j => simpa using i2 j (by simpa using hj)
              · intro j sites hj
                cases j with
                | zero =>
                  simp only [List.get?_cons_zero, Option.some.injEq] at hj
                  subst hj
                  refine ⟨sites1, rfl, ?_⟩
                  rw [hgetD]
                  simpa using hm
                | succ j =>
                  obtain ⟨s1, hs1, hmk⟩ := i3 j sites (by simpa using hj)
                  refine ⟨s1, by simpa using hs1, ?_⟩
                  rw [hdrop, List.take_succ_cons, List.sum_cons, ← Nat.add_assoc,
                    show a + (j + 1) = a + 1 + j by omega]
                  exact hmk
              · rw [i4, hsum, hdrop, List.length_cons, List.take_succ_cons, List.sum_cons,
                  foldl_take_add]
              · intro _
                rw [hdrop, List.length_cons, List.take_succ_cons, List.sum_cons]
                by_cases hz : ((nbFeature.drop (a + 1)).take rest.length).sum = 0
                · rw [hz]
                  exact hb (by omega)
                · have := i5 hz
                  omega
      · rename_i hpos
        have hz : nb = 0 := by omega
        subst hz
        split at h
        · cases h
        · rename_i wmean2 rest1 hrec
          cases h
          obtain ⟨i1, i2, i3, i4, i5⟩ := ih hrec
          refine ⟨by simp [i1], ?_, ?_, ?_, ?_⟩
          · intro j hj
            cases j with
            | zero => simpa using hj
            | succ j => simpa using i2 j (by simpa using hj)
          · intro j sites hj
            cases j with
            | zero =>
              simp only [List.get?_cons_zero, Option.some.injEq] at hj
              subst hj
              refine ⟨sites, rfl, ?_⟩
              rw [hgetD]
              exact marked_refl w _ sites
            | succ j =>
              obtain ⟨s1, hs1, hmk⟩ := i3 j sites (by simpa using hj)
              refine ⟨s1, by simpa using hs1, ?_⟩
              rw [hdrop, List.take_succ_cons, List.sum_cons, Nat.zero_add,
                show a + (j + 1) = a + 1 + j by omega]
              exact hmk
          · rw [i4, hdrop, List.length_cons, List.take_succ_cons, List.sum_cons, Nat.zero_add]
          · rw [hdrop, List.length_cons, List.take_succ_cons, List.sum_cons, Nat.zero_add]
            exact i5

theorem verdictPrimitives_ok {α : Type} {isTracked : α → Bool} {rows : α → Nat}
    {verdict : Nat → α → Except Err α} {ls ls1 : List α} {n n1 : Nat}
    (h : verdictPrimitives isTracked rows verdict ls n = .ok (n1, ls1)) :
    n1 = n + trackedRows isTracked rows ls ∧ ls1.length = ls.length ∧
    ∀ j x, ls.get? j = some x →
      ∃ x1, ls1.get? j = some x1 ∧ (isTracked x = false → x1 = x) ∧
        (isTracked x = true →
          verdict (n + trackedRows isTracked rows (ls.take j)) x = .ok x1) := by
  induction ls generalizing ls1 n n1 with
  | nil =>
    unfold verdictPrimitives at h
    cases h
    exact ⟨rfl, rfl, fun j x hj => by simp at hj⟩
  | cons y rest ih =>
    unfold verdictPrimitives at h
    split at h
    · rename_i htr
      split at h
      · cases h
      · rename_i y1 hy
        split at h
        · cases h
        · rename_i n2 rest1 hrec
          cases h
          obtain ⟨i1, i2, i3⟩ := ih hrec
          refine ⟨?_, by simp [i2], ?_⟩
          · rw [i1]
            simp only [trackedRows, htr, if_true]
            omega
          · intro j x hj
            cases j with
            | zero =>
              simp only [List.get?_cons_zero, Option.some.injEq] at hj
              subst hj
              refine ⟨y1, rfl, fun hf => ?_, fun _ => ?_⟩
              · rw [htr] at hf
                cases hf
              · simpa [trackedRows] using hy
            | succ j =>
              obtain ⟨x1, hx1, hu, ht⟩ := i3 j x (by simpa using hj)
              refine ⟨x1, by simpa using hx1, hu, fun hx => ?_⟩
              have := ht hx
              simp only [List.take_succ_cons, trackedRows, htr, if_true]
              rw [← Nat.add_assoc]
              exact this
    · rename_i htr
      split at h
      · cases h
      · rename_i n2 rest1 hrec
        cases h
        obtain ⟨i1, i2, i3⟩ := ih hrec
        refine ⟨?_, by simp [i2], ?_⟩
        · rw [i1]
          simp only [trackedRows, htr]
          simp
        · intro j x hj
          cases j with
          | zero =>
            simp only [List.get?_cons_zero, Option.some.injEq] at hj
            subst hj
            refine ⟨y, rfl, fun _ => rfl, fun ht => absurd ht htr⟩
          | succ j =>
            obtain ⟨x1, hx1, hu, ht⟩ := i3 j x (by simpa using hj)
            refine ⟨x1, by simpa using hx1, hu, fun hx => ?_⟩
            have := ht hx
            simp only [List.take_succ_cons, trackedRows, htr]
            simpa using this

theorem trackedRows_lines (ls : List (DistanceLine Pose)) :
    trackedRows (fun l => l.isTracked) (fun l => l.nbFeatureTotal) ls = linesRowsSecond ls := by
  induction ls with
  | nil => rfl
  | cons l rest ih => simp only [trackedRows, linesRowsSecond, ih]

theorem trackedRows_cylinders (ls : List (DistanceCylinder Pose)) :
    trackedRows (fun cy => cy.isTracked) (fun cy => cy.nbFeature) ls = cylindersRows ls := by
  induction ls with
  | nil => rfl
  | cons cy rest ih => simp only [trackedRows, cylindersRows, ih]

theorem trackedRows_circles (ls : List (DistanceCircle Pose)) :
    trackedRows (fun ci => ci.isTracked) (fun ci => ci.nbFeature) ls = circlesRows ls := by
  induction ls with
  | nil => rfl
  | cons ci rest ih => simp only [trackedRows, circlesRows, ih]

/-- What `postTrackingMbt` does, primitive by primitive: the lists keep their lengths, a
primitive that is not tracked is left as it is, and a tracked primitive is replaced by its
verdict at its row offset. -/
theorem postTrackingMbt_ok {t : Tracker Pose} {w : ColVector} {lvl : Nat}
    {ls : List (DistanceLine Pose)} {cys : List (DistanceCylinder Pose)}
    {cis : List (DistanceCircle Pose)}
    (h : postTrackingMbt t w lvl = .ok (ls, cys, cis)) :
    lvlNotUsed t.scales lvl = false ∧
    ls.length = (t.lines lvl).length ∧ cys.length = (t.cylinders lvl).length ∧
    cis.length = (t.circles lvl).length ∧
    (∀ j l, (t.lines lvl).get? j = some l →
      ∃ l1, ls.get? j = some l1 ∧ (l.isTracked = false → l1 = l) ∧
        (l.isTracked = true →
          verdictLine w (linesRowsSecond ((t.lines lvl).take j)) l = .ok l1)) ∧
    (∀ j cy, (t.cylinders lvl).get? j = some cy →
      ∃ cy1, cys.get? j = some cy1 ∧ (cy.isTracked = false → cy1 = cy) ∧
        (cy.isTracked = true →
          verdictCylinder w (linesRowsSecond (t.lines lvl)
            + cylindersRows ((t.cylinders lvl).take j)) cy = .ok cy1)) ∧
    (∀ j ci, (t.circles lvl).get? j = some ci →
      ∃ ci1, cis.get? j = some ci1 ∧ (ci.isTracked = false → ci1 = ci) ∧
        (ci.isTracked = true →
          verdictCircle w (linesRowsSecond (t.lines lvl) + cylindersRows (t.cylinders lvl)
            + circlesRows ((t.circles lvl).take j)) ci = .ok ci1)) := by
  unfold postTrackingMbt at h
  split at h
  · cases h
  · rename_i hlvl
    split at h
    · cases h
    · rename_i n1 ls0 h1
      split at h
      · cases h
      · rename_i n2 cys0 h2
        split at h
        · cases h
        · rename_i n3 cis0 h3
          cases h
          obtain ⟨a1, a2, a3⟩ := verdictPrimitives_ok h1
          obtain ⟨b1, b2, b3⟩ := verdictPrimitives_ok h2
          obtain ⟨c1, c2, c3⟩ := verdictPrimitives_ok h3
          rw [trackedRows_lines, Nat.zero_add] at a1
          rw [trackedRows_cylinders] at b1
          subst a1
          subst b1
          refine ⟨by simpa using hlvl, a2, b2, c2, ?_, ?_, ?_⟩
          · intro j l hj
            obtain ⟨l1, e1, e2, e3⟩ := a3 j l hj
            refine ⟨l1, e1, e2, fun ht => ?_⟩
            have := e3 ht
            rwa [trackedRows_lines, Nat.zero_add] at this
          · intro j cy hj
            obtain ⟨cy1, e1, e2, e3⟩ := b3 j cy hj
            refine ⟨cy1, e1, e2, fun ht => ?_⟩
            have := e3 ht
            rwa [trackedRows_cylinders] at this
          · intro j ci hj
            obtain ⟨ci1, e1, e2, e3⟩ := c3 j ci hj
            refine ⟨ci1, e1, e2, fun ht => ?_⟩
            have := e3 ht
            rwa [trackedRows_circles] at this

theorem verdictLine_ok {w : ColVector} {n : Nat} {l l1 : DistanceLine Pose}
    (h : verdictLine w n l = .ok l1) :
    l1.meline.length = l.meline.length ∧
    (∀ a, l.meline.get? a = some none → l1.meline.get? a = some none) ∧
    (∀ a sites, l.meline.get? a = some (some sites) →
      ∃ sites1, l1.meline.get? a = some (some sites1) ∧
        Marked w (n + (l.nbFeature.take a).sum) (l.nbFeature.getD a 0) sites sites1) ∧
    l1.meanWeight
      = meanOrOne (((w.drop n).take (l.nbFeature.take l.meline.length).sum).foldl doubleAdd 0)
          l.nbFeatureTotal ∧
    l1.Reinit = (if l1.meanWeight < reinitThreshold then true else l.Reinit) ∧
    ((l.nbFeature.take l.meline.length).sum ≠ 0 →
      n + (l.nbFeature.take l.meline.length).sum ≤ w.length) := by
  unfold verdictLine at h
  split at h
  · cases h
  · rename_i wsum meline1 hrec
    cases h
    obtain ⟨i1, i2, i3, i4, i5⟩ := verdictMelines_ok hrec
    simp only [List.drop_zero, Nat.zero_add] at i3 i4 i5
    exact ⟨i1, i2, i3, by rw [i4], rfl, i5⟩

theorem verdictCylinder_ok {w : ColVector} {n : Nat} {cy cy1 : DistanceCylinder Pose}
    (h : verdictCylinder w n cy = .ok cy1) :
    (cy.meline1 = none → cy1.meline1 = none) ∧
    (∀ sites, cy.meline1 = some sites →
      ∃ sites1, cy1.meline1 = some sites1 ∧ Marked w n cy.nbFeaturel1 sites sites1) ∧
    (cy.meline2 = none → cy1.meline2 = none) ∧
    (∀ sites, cy.meline2 = some sites →
      ∃ sites1, cy1.meline2 = some sites1 ∧
        Marked w (n + cy.nbFeaturel1) (cy.nbFeature - cy.nbFeaturel1) sites sites1) ∧
    cy1.meanWeight1
      = meanOrOne (((w.drop n).take cy.nbFeaturel1).foldl doubleAdd 0) cy.nbFeaturel1 ∧
    cy1.meanWeight2
      = meanOrOne (((w.drop (n + cy.nbFeaturel1)).take
          (cy.nbFeature - cy.nbFeaturel1)).foldl doubleAdd 0) cy.nbFeaturel2 ∧
    cy1.Reinit = (if cy1.meanWeight2 < reinitThreshold then true
      else if cy1.meanWeight1 < reinitThreshold then true else cy.Reinit) ∧
    (cy.nbFeaturel1 ≠ 0 → n + cy.nbFeaturel1 ≤ w.length) ∧
    (cy.nbFeature - cy.nbFeaturel1 ≠ 0 →
      n + cy.nbFeaturel1 + (cy.nbFeature - cy.nbFeaturel1) ≤ w.length) := by
  unfold verdictCylinder at h
  split at h
  · split at h
    · rename_i l1 l2 e1 e2
      split at h
      · cases h
      · rename_i wsum1 sites1 hs1
        split at h
        · cases h
        · rename_i wsum2 sites2 hs2
          cases h
          obtain ⟨m1, s1, b1⟩ := verdictSites_ok hs1
          obtain ⟨m2, s2, b2⟩ := verdictSites_ok hs2
          refine ⟨fun hn => ?_, fun sites hs => ?_, fun hn => ?_, fun sites hs => ?_,
            by rw [s1], by rw [s2], rfl, b1, b2⟩
          · rw [e1] at hn
            cases hn
          · rw [e1] at hs
            cases hs
            exact ⟨sites1, rfl, m1⟩
          · rw [e2] at hn
            cases hn
          · rw [e2] at hs
            cases hs
            exact ⟨sites2, rfl, m2⟩
    · cases h
  · rename_i hpos
    split at h
    · rename_i hz
      cases h
      have hsub : cy.nbFeature - cy.nbFeaturel1 = 0 := by omega
      refine ⟨fun hn => hn, fun sites hs => ⟨sites, hs, ?_⟩, fun hn => hn,
        fun sites hs => ⟨sites, hs, ?_⟩, ?_, ?_, ?_, fun hne => absurd hz hne,
        fun hne => absurd hsub hne⟩
      · rw [hz]
        exact marked_refl w n sites
      · rw [hsub]
        exact marked_refl w _ sites
      · simp [hz, meanOrOne]
      · simp [hsub]
      · have h1 : ¬ ((1 : ℚ) < reinitThreshold) := by with_unfolding_all decide
        simp only [h1, if_false]
    · cases h

theorem verdictCircle_ok {w : ColVector} {n : Nat} {ci ci1 : DistanceCircle Pose}
    (h : verdictCircle w n ci = .ok ci1) :
    (ci.meEllipse = none → ci1.meEllipse = none) ∧
    (∀ sites, ci.meEllipse = some sites →
      ∃ sites1, ci1.meEllipse = some sites1 ∧ Marked w n ci.nbFeature sites sites1) ∧
    ci1.meanWeight = meanOrOne (((w.drop n).take ci.nbFeature).foldl doubleAdd 0) ci.nbFeature ∧
    ci1.Reinit = (if ci1.meanWeight < reinitThreshold then true else ci.Reinit) ∧
    (ci.nbFeature ≠ 0 → n + ci.nbFeature ≤ w.length) := by
  unfold verdictCircle at h
  split at h
  · split at h
    · cases h
    · rename_i sites0 e0
      split at h
      · cases h
      · rename_i wsum sites1 hs
        cases h
        obtain ⟨m1, s1, b1⟩ := verdictSites_ok hs
        refine ⟨fun hn => ?_, fun sites hs0 => ?_, by rw [s1], rfl, b1⟩
        · rw [e0] at hn
          cases hn
        · rw [e0] at hs0
          cases hs0
          exact ⟨sites1, rfl, m1⟩
  · rename_i hpos
    cases h
    have hz : ci.nbFeature = 0 := by omega
    refine ⟨fun hn => hn, fun sites hs => ⟨sites, hs, ?_⟩, ?_, ?_, fun hne => absurd hz hne⟩
    · rw [hz]
      exact marked_refl w n sites
    · simp [hz, meanOrOne]
    · have h1 : ¬ ((1 : ℚ) < reinitThreshold) := by with_unfolding_all decide
      simp only [h1, if_false]

/-! ## Site verdicts and mean weights (C13, C14) -/

theorem computeVVS_ne_none (env : Collaborators Pose) (t : Tracker Pose) (lvl : Nat)
    (m : Members Pose) (nbInfos : Nat) : computeVVS env t lvl t.maxIter m nbInfos ≠ none := by
  unfold computeVVS
  split
  · simp
  · rename_i s0 h0
    have hne := @vvsLoop_terminates Pose env t lvl t.maxIter s0 (by omega)
    split
    · rename_i hl
      exact absurd hl hne
    · simp
    · simp

theorem pointSolve_error_iff (fenv : FrameCollaborators Pose) (t : Tracker Pose)
    (m : Members Pose) (nbInfos : Nat) (e : Err) :
    pointSolve fenv t m nbInfos = .error e ↔
      4 ≤ nbInfos ∧ fenv.kltComputeVVS t { m with w_klt := [] } nbInfos = .error e := by
  constructor
  · intro h
    unfold pointSolve at h
    split at h
    · rename_i h4
      split at h
      · rename_i e1 he
        cases h
        exact ⟨h4, he⟩
      · cases h
    · cases h
  · rintro ⟨h4, he⟩
    unfold pointSolve
    rw [if_pos h4, he]

theorem postTracking_error_iff (fenv : FrameCollaborators Pose) (t : Tracker Pose)
    (m : Members Pose) (w_mbt w_klt : ColVector) (lvl : Nat) (e : Err) :
    postTracking fenv t m w_mbt w_klt lvl = .error e ↔
      postTrackingMbt t w_mbt lvl = .error e ∨
      ∃ ls cys cis, postTrackingMbt t w_mbt lvl = .ok (ls, cys, cis) ∧
        (fenv.displayMovingEdges (setPrimitives t lvl ls cys cis) lvl = .error e ∨
         (∃ u, fenv.displayMovingEdges (setPrimitives t lvl ls cys cis) lvl = .ok u) ∧
         (fenv.kltPostTracking (setPrimitives t lvl ls cys cis) m w_klt = .error e ∨
          ∃ t2 reInit, fenv.kltPostTracking (setPrimitives t lvl ls cys cis) m w_klt
              = .ok (t2, reInit) ∧ fenv.updateEdges t2 m = .error e)) := by
  constructor
  · intro h
    unfold postTracking at h
    split at h
    · rename_i e1 h1
      cases h
      exact Or.inl h1
    · rename_i ls cys cis h1
      refine Or.inr ⟨ls, cys, cis, h1, ?_⟩
      split at h
      · rename_i e2 h2
        cases h
        exact Or.inl h2
      · rename_i u h2
        refine Or.inr ⟨⟨u, h2⟩, ?_⟩
        split at h
        · rename_i e3 h3
          cases h
          exact Or.inl h3
        · rename_i t2 reInit h3
          split at h
          · rename_i e4 h4
            cases h
            exact Or.inr ⟨t2, reInit, h3, h4⟩
          · cases h
  · intro h
    unfold postTracking
    rcases h with h1 | ⟨ls, cys, cis, h1, h2 | ⟨⟨u, h2⟩, h3 | ⟨t2, reInit, h3, h4⟩⟩⟩
    · rw [h1]
    · rw [h1]
      simp only []
      rw [h2]
    · rw [h1]
      simp only []
      rw [h2]
      simp only []
      rw [h3]
    · rw [h1]
      simp only []
      rw [h2]
      simp only []
      rw [h3]
      simp only []
      rw [h4]

theorem reconcile_error_iff (fenv : FrameCollaborators Pose) (t : Tracker Pose)
    (m : Members Pose) (w_mbt w_klt : ColVector) (e : Err) :
    reconcile fenv t m w_mbt w_klt = .error e ↔
      postTracking fenv t m w_mbt w_klt 0 = .error e ∨
      ∃ t3, postTracking fenv t m w_mbt w_klt 0 = .ok (t3, true) ∧
        fenv.kltReinit t3 m = .error e := by
  constructor
  · intro h
    unfold reconcile at h
    split at h
    · rename_i e1 h1
      cases h
      exact Or.inl h1
    · rename_i t3 reInit h1
      cases reInit with
      | false => simp at h
      | true => exact Or.inr ⟨t3, h1, by simpa using h⟩
  · intro h
    unfold reconcile
    rcases h with h1 | ⟨t3, h1, h2⟩
    · rw [h1]
    · rw [h1]
      simpa using h2

/-- Counterexample to C17 as stated: the correspondence refresh `preTracking` aborts with an
error and leaves no usable point; `track` catches the error, goes on with the contour
modality alone (one line of 4 sites) and returns normally. -/
theorem track_swallows_preTracking_error :
    ((exFrameEnv (some .collaborator) 0).preTracking
        (exTracker [exLine 4] [] .GAUSS_NEWTON_OPT 5) (exMembers 2 [] [])).1
      = some .collaborator ∧
    ∃ r, track (exEnv 0) (exFrameEnv (some .collaborator) 0)
        (exTracker [exLine 4] [] .GAUSS_NEWTON_OPT 5) (exMembers 2 [] []) = some (.ok r) :=
  ⟨rfl, _, by with_unfolding_all rfl⟩

/-- C17, amended. `track` fails with the error `e` exactly when one of its steps after
`preTracking` fails with `e`: the point-only solve (run when `preTracking` left at least 4
points), `trackMovingEdge`, the fused solve `computeVVS`, `postTracking` (that is
`postTrackingMbt`, the display, the point collaborator's `postTracking`, the update of the
moving edges) or the re-initialisation it asks for; `track` always ends (it returns or fails);
and an error of `preTracking` is never seen by the caller: the outcome of `track` is the same
whatever `preTracking` throws. -/
theorem track_fails_iff_later_step_fails (env : Collaborators Pose)
    (fenv : FrameCollaborators Pose) (t : Tracker Pose) (m : Members Pose) (e : Err) :
    (track env fenv t m = some (.error e) ↔
      pointSolve fenv (fenv.preTracking t m).2.1 m (fenv.preTracking t m).2.2 = .error e ∨
      ∃ m1 nbInfos,
        pointSolve fenv (fenv.preTracking t m).2.1 m (fenv.preTracking t m).2.2
          = .ok (m1, nbInfos) ∧
        (fenv.trackMovingEdge (fenv.preTracking t m).2.1 m1 = .error e ∨
          ∃ t2, fenv.trackMovingEdge (fenv.preTracking t m).2.1 m1 = .ok t2 ∧
            ((∃ mm, computeVVS env t2 0 t2.maxIter { m1 with w_mbt := [] } nbInfos
                = some (.raised e mm)) ∨
              ∃ s, computeVVS env t2 0 t2.maxIter { m1 with w_mbt := [] } nbInfos
                  = some (.returned s) ∧
                reconcile fenv t2 s.toMembers s.w_mbt s.w_klt = .error e))) ∧
    (∀ t1 m1 n, pointSolve fenv t1 m1 n = .error e ↔
      4 ≤ n ∧ fenv.kltComputeVVS t1 { m1 with w_klt := [] } n = .error e) ∧
    (∀ t2 m2 w_mbt w_klt, reconcile fenv t2 m2 w_mbt w_klt = .error e ↔
      postTracking fenv t2 m2 w_mbt w_klt 0 = .error e ∨
      ∃ t3, postTracking fenv t2 m2 w_mbt w_klt 0 = .ok (t3, true) ∧
        fenv.kltReinit t3 m2 = .error e) ∧
    (∀ t2 m2 w_mbt w_klt lvl, postTracking fenv t2 m2 w_mbt w_klt lvl = .error e ↔
      postTrackingMbt t2 w_mbt lvl = .error e ∨
      ∃ ls cys cis, postTrackingMbt t2 w_mbt lvl = .ok (ls, cys, cis) ∧
        (fenv.displayMovingEdges (setPrimitives t2 lvl ls cys cis) lvl = .error e ∨
         (∃ u, fenv.displayMovingEdges (setPrimitives t2 lvl ls cys cis) lvl = .ok u) ∧
         (fenv.kltPostTracking (setPrimitives t2 lvl ls cys cis) m2 w_klt = .error e ∨
          ∃ t3 reInit, fenv.kltPostTracking (setPrimitives t2 lvl ls cys cis) m2 w_klt
              = .ok (t3, reInit) ∧ fenv.updateEdges t3 m2 = .error e))) ∧
    track env fenv t m ≠ none ∧
    (∀ x : Option Err,
      track env { fenv with preTracking := fun t0 m0 => (x, (fenv.preTracking t0 m0).2) } t m
        = track env fenv t m) := by
  refine ⟨?_, fun t1 m1 n => pointSolve_error_iff fenv t1 m1 n e,
    fun t2 m2 w_mbt w_klt => reconcile_error_iff fenv t2 m2 w_mbt w_klt e,
    fun t2 m2 w_mbt w_klt lvl => postTracking_error_iff fenv t2 m2 w_mbt w_klt lvl e,
    ?_, fun x => rfl⟩
  · constructor
    · intro h
      unfold track at h
      simp only [] at h
      split at h
      · rename_i e1 h1
        cases h
        exact Or.inl h1
      · rename_i m1 nbInfos h1
        refine Or.inr ⟨m1, nbInfos, h1, ?_⟩
        split at h
        · rename_i e2 h2
          cases h
          exact Or.inl h2
        · rename_i t2 h2
          refine Or.inr ⟨t2, h2, ?_⟩
          split at h
          · cases h
          · rename_i e3 mm h3
            cases h
            exact Or.inl ⟨mm, h3⟩
          · rename_i s h3
            exact Or.inr ⟨s, h3, by simpa using h⟩
    · intro h
      unfold track
      simp only []
      rcases h with h1 | ⟨m1, nbInfos, h1, h2 | ⟨t2, h2, ⟨mm, h3⟩ | ⟨s, h3, h4⟩⟩⟩
      · rw [h1]
      · rw [h1]
        simp only []
        rw [h2]
      · rw [h1]
        simp only []
        rw [h2]
        simp only []
        rw [h3]
      · rw [h1]
        simp only []
        rw [h2]
        simp only []
        rw [h3]
        simp only []
        rw [h4]
  · unfold track
    simp only []
    split
    · simp
    · split
      · simp
      · rename_i t2 h2
        split
        · rename_i h3
          exact absurd h3 (computeVVS_ne_none env t2 0 _ _)
        · simp
        · simp

/-- Witness of the amended C17: a point-only solve that aborts makes `track` abort with the
same error. -/
theorem track_fails_iff_later_step_fails_witness :
    track (exEnv 0)
      { exFrameEnv none 4 with kltComputeVVS := fun _ _ _ => .error .collaborator }
      (exTracker [exLine 4] [exKlt 4] .GAUSS_NEWTON_OPT 5) (exMembers 2 [] [])
      = some (.error .collaborator) :=
  (track_fails_iff_later_step_fails (exEnv 0)
    { exFrameEnv none 4 with kltComputeVVS := fun _ _ _ => .error .collaborator }
    (exTracker [exLine 4] [exKlt 4] .GAUSS_NEWTON_OPT 5) (exMembers 2 [] [])
    .collaborator).1.2 (Or.inl rfl)

/-! ## The weights handed to the reconciliation (C15) -/

theorem iteration_handed_weights {env : Collaborators Pose} {t : Tracker Pose} {lvl : Nat}
    {m : Members Pose} {s s1 : LoopState Pose} (hP : RowInvariant m s)
    (hacc : rejected t s = false) (hit : iteration env t lvl s = .ok s1) :
    (∀ cpt, cpt < s1.nbrow + 2 * s1.nbInfos → s1.m_w.getD cpt 0 = fusedWeight s1 cpt) ∧
    (3 < s1.nbrow → ∀ i, i < s1.nbrow →
      s1.w_mbt.getD i 0 = env.MEstimator_mbt s.iter (t.thresholdMBT / t.px) s1.R_mbt i) ∧
    (3 < s1.nbInfos → ∀ j, j < 2 * s1.nbInfos →
      s1.w_klt.getD j 0 = env.MEstimator_klt s.iter (t.thresholdKLT / t.px) s1.R_klt j) ∧
    s1.iter = s.iter + 1 := by
  obtain ⟨p1, p2, p3, p4, -⟩ := hP
  obtain ⟨-, f7⟩ := iteration_frame hit
  obtain ⟨sa, sb, hre, rfl, hcase⟩ := iteration_ok hit
  obtain ⟨l1, l2, l3, l4, -, -⟩ := refill_length hre
  obtain ⟨⟨g1, g2, g3, g4, g5, -⟩, g7⟩ := refill_frame hre
  rcases hcase with ⟨hrej, -⟩ | ⟨-, hb⟩
  · rw [hacc] at hrej
    cases hrej
  obtain ⟨-, e2, e3, -, -⟩ := acceptedStep_m_error hb
  obtain ⟨sR, m_w, hR, hfuse, rfl⟩ := acceptedStep_ok hb
  obtain ⟨-, -, -, -, r5, r6⟩ := robustWeights_weights hR
  obtain ⟨⟨q1, q2, q3, q4, q5, -⟩, -⟩ := robustWeights_frame hR
  obtain ⟨c1, c2, c3, c4, c5, -, -, -, c9, -, -, c12, -, c14, -⟩ := allocateWeights_frame sa
  have hm := fuseWeights_ok hfuse
  have n1 : sR.nbrow = s.nbrow := by rw [q1, c1, g1]
  have n2 : sR.nbInfos = s.nbInfos := by rw [q2, c2, g2]
  refine ⟨?_, ?_, ?_, f7⟩
  · intro cpt hcpt
    exact hm cpt hcpt
  · intro h3 i hi
    have h3s : 3 < sR.nbrow := h3
    have his : i < sR.nbrow := hi
    show sR.w_mbt.getD i 0 =
      env.MEstimator_mbt s.iter (t.thresholdMBT / t.px) (weightedSolve env t sR m_w).R_mbt i
    rw [e2]
    have := r5 (by rw [c1, g1, ← n1]; exact h3s) i (by rw [c12, l2, p2, ← n1]; exact his)
    rw [this, c9, g7, c12]
  · intro h3 j hj
    have h3s : 3 < sR.nbInfos := h3
    have hjs : j < 2 * sR.nbInfos := hj
    show sR.w_klt.getD j 0 =
      env.MEstimator_klt s.iter (t.thresholdKLT / t.px) (weightedSolve env t sR m_w).R_klt j
    rw [e3]
    have := r6 (by rw [c2, g2, ← n2]; exact h3s) j (by rw [c14, l4, p4, ← n2]; exact hjs)
    rw [this, c9, g7, c14]

theorem vvsIterate_last {env : Collaborators Pose} {t : Tracker Pose} {lvl : Nat} :
    ∀ (k : Nat) (s0 s : LoopState Pose), vvsIterate env t lvl (k + 1) s0 = some s →
      ∃ s1, vvsIterate env t lvl k s0 = some s1 ∧ iteration env t lvl s1 = .ok s := by
  intro k
  induction k with
  | zero =>
    intro s0 s h
    unfold vvsIterate at h
    split at h
    · split at h
      · cases h
      · rename_i s1 h1
        unfold vvsIterate at h
        cases h
        exact ⟨s0, rfl, h1⟩
    · cases h
  | succ k ih =>
    intro s0 s h
    unfold vvsIterate at h
    split at h
    · rename_i hc
      split at h
      · cases h
      · rename_i s1 h1
        obtain ⟨s2, h2, h3⟩ := ih s1 s h
        refine ⟨s2, ?_, h3⟩
        unfold vvsIterate
        rw [if_pos hc, h1]
        exact h2
    · cases h

theorem finishCovariance_weights (env : Collaborators Pose) (t : Tracker Pose)
    (s : LoopState Pose) :
    (finishCovariance env t s).m_w = s.m_w ∧ (finishCovariance env t s).w_mbt = s.w_mbt ∧
    (finishCovariance env t s).w_klt = s.w_klt ∧ (finishCovariance env t s).R_mbt = s.R_mbt ∧
    (finishCovariance env t s).R_klt = s.R_klt ∧ (finishCovariance env t s).nbrow = s.nbrow ∧
    (finishCovariance env t s).nbInfos = s.nbInfos ∧
    (finishCovariance env t s).factor = s.factor ∧
    (finishCovariance env t s).factorMBT = s.factorMBT ∧
    (finishCovariance env t s).factorKLT = s.factorKLT := by
  unfold finishCovariance
  split <;> exact ⟨rfl, rfl, rfl, rfl, rfl, rfl, rfl, rfl, rfl, rfl⟩

theorem loopCond_initState (env : Collaborators Pose) (t : Tracker Pose) (m : Members Pose)
    (nbrow nbInfos : Nat) (factor : ColVector) (hmax : 0 < t.maxIter) :
    loopCond t (initState env m nbrow nbInfos factor) = true := by
  simp only [loopCond, Bool.and_eq_true, decide_eq_true_eq, ne_eq]
  refine ⟨?_, hmax⟩
  rw [truncToInt_eq_zero_iff]
  show ¬ |((0 : ℚ) - (-1)) * 100000000| < 1
  norm_num

/-- What a call of `computeVVS` that returns after at least one iteration leaves in the weight
vectors: the fused weights in `m_w`, the weights of the two M-estimators in `w_mbt` and
`w_klt`. -/
theorem computeVVS_handed_weights {env : Collaborators Pose} {t : Tracker Pose}
    {lvl fuel : Nat} {m : Members Pose} {nbInfos : Nat} {sF : LoopState Pose}
    (hmax : 0 < t.maxIter)
    (h : computeVVS env t lvl fuel m nbInfos = some (.returned sF)) :
    sF.iter ≠ 0 ∧ sF.nbInfos = nbInfos ∧
    sF.factorMBT = (if nbInfos < 4 then 1 else 0.35) ∧
    sF.factorKLT = (if sF.nbrow < 4 then 1 else 0.65) ∧
    (∀ cpt, cpt < sF.nbrow + 2 * sF.nbInfos → sF.m_w.getD cpt 0 = fusedWeight sF cpt) ∧
    (3 < sF.nbrow → ∀ i, i < sF.nbrow →
      sF.w_mbt.getD i 0
        = env.MEstimator_mbt (sF.iter - 1) (t.thresholdMBT / t.px) sF.R_mbt i) ∧
    (3 < sF.nbInfos → ∀ j, j < 2 * sF.nbInfos →
      sF.w_klt.getD j 0
        = env.MEstimator_klt (sF.iter - 1) (t.thresholdKLT / t.px) sF.R_klt j) := by
  obtain ⟨s0, k, s, h0, hk, hc, rfl⟩ := computeVVS_returned h
  obtain ⟨nbrow0, factor, -, -, hs0⟩ := vvsInit_ok h0
  obtain ⟨-, -, -, hit⟩ := finishCovariance_frame env t s
  obtain ⟨v1, v2, v3, v4, v5, v6, v7, v8, v9, v10⟩ := finishCovariance_weights env t s
  obtain ⟨⟨a1, a2, a3, a4, a5, -⟩, a7⟩ := vvsIterate_iter k _ _ hk
  obtain ⟨i1, i2, i3, i4, i5, i6, -⟩ :=
    initState_shares env m (if nbrow0 < 4 then 0 else nbrow0) nbInfos factor
  rw [hs0] at a1 a2 a3 a4 a5 a7
  rw [v1, v2, v3, v4, v5, v6, v7, v9, v10, hit]
  cases k with
  | zero =>
    simp only [vvsIterate, Option.some.injEq] at hk
    subst hk
    rw [hs0, loopCond_initState env t m _ nbInfos factor hmax] at hc
    cases hc
  | succ k =>
    obtain ⟨sp, hp, hlast⟩ := vvsIterate_last k s0 s hk
    obtain ⟨hrow, hpi⟩ := vvsIterate_rowInvariant h0 hp
    obtain ⟨-, hnr⟩ := vvsIterate_noReject h0 hp
    obtain ⟨w1, w2, w3, w4⟩ := iteration_handed_weights hrow hnr hlast
    have hiter : s.iter - 1 = sp.iter := by omega
    have hfw : ∀ cpt, fusedWeight (finishCovariance env t s) cpt = fusedWeight s cpt := by
      intro cpt
      unfold fusedWeight
      rw [v2, v3, v6, v8, v9, v10]
    refine ⟨by omega, by rw [a2, i4], by rw [a4, i1], ?_, ?_, ?_, ?_⟩
    · rw [a5, i2, a1, i3]
    · intro cpt hcpt
      rw [hfw]
      exact w1 cpt hcpt
    · rw [hiter]
      exact w2
    · rw [hiter]
      exact w3

theorem reconcile_ok {fenv : FrameCollaborators Pose} {t : Tracker Pose} {m : Members Pose}
    {w_mbt w_klt : ColVector} {r : Tracker Pose × Members Pose}
    (h : reconcile fenv t m w_mbt w_klt = .ok r) :
    ∃ ls cys cis tk reInit, postTrackingMbt t w_mbt 0 = .ok (ls, cys, cis) ∧
      fenv.kltPostTracking (setPrimitives t 0 ls cys cis) m w_klt = .ok (tk, reInit) := by
  unfold reconcile at h
  split at h
  · cases h
  · rename_i t3 reInit h1
    unfold postTracking at h1
    split at h1
    · cases h1
    · rename_i ls cys cis h2
      split at h1
      · cases h1
      · split at h1
        · cases h1
        · rename_i tk r1 h3
          exact ⟨ls, cys, cis, tk, r1, h2, h3⟩

/-- Counterexample to C15 as stated: 4 contour rows and 4 tracked points (both modalities
active), every estimator weight equal to 1.  The vectors that `computeVVS` hands back, and that
`track` passes on to the reconciliation, hold the estimator weights 1, while the fused weights
used in the normal equations are 0.35 for the contour rows and 0.65 for the point rows. -/
theorem computeVVS_hands_back_unfused_weights :
    ∃ s, computeVVS (exEnv 0) (exTracker [exLine 4] [exKlt 4] .GAUSS_NEWTON_OPT 5) 0 5
        { exMembers 2 [] [] with w_klt := List.replicate 8 1 } 4 = some (.returned s) ∧
      s.nbrow = 4 ∧ s.nbInfos = 4 ∧
      s.w_mbt = [1, 1, 1, 1] ∧ s.w_klt = [1, 1, 1, 1, 1, 1, 1, 1] ∧
      s.m_w = [0.35, 0.35, 0.35, 0.35, 0.65, 0.65, 0.65, 0.65, 0.65, 0.65, 0.65, 0.65] ∧
      track (exEnv 0) (exFrameEnv none 4) (exTracker [exLine 4] [exKlt 4] .GAUSS_NEWTON_OPT 5)
          (exMembers 2 [] [])
        = some (reconcile (exFrameEnv none 4)
            (exTracker [exLine 4] [exKlt 4] .GAUSS_NEWTON_OPT 5) s.toMembers
            [1, 1, 1, 1] [1, 1, 1, 1, 1, 1, 1, 1]) :=
  ⟨_, by with_unfolding_all rfl, by with_unfolding_all rfl, by with_unfolding_all rfl,
    by with_unfolding_all rfl, by with_unfolding_all rfl, by with_unfolding_all rfl,
    by with_unfolding_all rfl⟩

/-- C15, amended. In a frame in which both modalities are active (at least 4 contour rows and
at least 4 points), `maxIter > 0` and the fused solve returns: `track` hands to the
reconciliation exactly the vectors `w_mbt` and `w_klt` that `computeVVS` leaves (`w_mbt` goes
to `postTrackingMbt`, `w_klt` to the point collaborator's `postTracking`).  These are the
weights of the two M-estimators in the last iteration, not the fused weights: the fused weight
of contour row `i` is `m_w[i] = w_mbt[i] * factor[i] * 0.35` and that of point row `j` is
`m_w[nbrow + j] = w_klt[j] * 0.65`. -/
theorem track_hands_back_estimator_weights (env : Collaborators Pose)
    (fenv : FrameCollaborators Pose) (t t2 : Tracker Pose) (m m1 : Members Pose)
    (nbInfos : Nat) (s : LoopState Pose)
    (hp : pointSolve fenv (fenv.preTracking t m).2.1 m (fenv.preTracking t m).2.2
      = .ok (m1, nbInfos))
    (hm : fenv.trackMovingEdge (fenv.preTracking t m).2.1 m1 = .ok t2)
    (hs : computeVVS env t2 0 t2.maxIter { m1 with w_mbt := [] } nbInfos = some (.returned s))
    (hmax : 0 < t2.maxIter) (hrow : 4 ≤ s.nbrow) (hinf : 4 ≤ nbInfos) :
    track env fenv t m = some (reconcile fenv t2 s.toMembers s.w_mbt s.w_klt) ∧
    (∀ r, reconcile fenv t2 s.toMembers s.w_mbt s.w_klt = .ok r →
      ∃ ls cys cis tk reInit, postTrackingMbt t2 s.w_mbt 0 = .ok (ls, cys, cis) ∧
        fenv.kltPostTracking (setPrimitives t2 0 ls cys cis) s.toMembers s.w_klt
          = .ok (tk, reInit)) ∧
    (∀ i, i < s.nbrow → s.m_w.getD i 0 = s.w_mbt.getD i 0 * s.factor.getD i 0 * 0.35) ∧
    (∀ j, j < 2 * nbInfos → s.m_w.getD (s.nbrow + j) 0 = s.w_klt.getD j 0 * 0.65) ∧
    (∀ i, i < s.nbrow →
      s.w_mbt.getD i 0
        = env.MEstimator_mbt (s.iter - 1) (t2.thresholdMBT / t2.px) s.R_mbt i) ∧
    (∀ j, j < 2 * nbInfos →
      s.w_klt.getD j 0
        = env.MEstimator_klt (s.iter - 1) (t2.thresholdKLT / t2.px) s.R_klt j) := by
  obtain ⟨-, k2, k3, k4, k5, k6, k7⟩ := computeVVS_handed_weights hmax hs
  rw [if_neg (by omega)] at k3 k4
  refine ⟨?_, fun r hr => reconcile_ok hr, ?_, ?_, k6 (by omega), ?_⟩
  · unfold track
    simp only []
    rw [hp]
    simp only []
    rw [hm]
    simp only []
    rw [hs]
  · intro i hi
    rw [k5 i (by omega)]
    unfold fusedWeight
    rw [if_pos hi, k3]
  · intro j hj
    rw [k5 (s.nbrow + j) (by omega)]
    unfold fusedWeight
    rw [if_neg (by omega), k4, Nat.add_sub_cancel_left]
  · rw [← k2]
    exact k7 (by omega)

/-- Witness of the amended C15: the scene of the counterexample, through `track`. -/
theorem track_hands_back_estimator_weights_witness :
    ∃ s, computeVVS (exEnv 0) (exTracker [exLine 4] [exKlt 4] .GAUSS_NEWTON_OPT 5) 0 5
        { exMembers 2 [] [] with w_klt := List.replicate 8 1, w_mbt := [] } 4
          = some (.returned s) ∧
      (∀ i, i < s.nbrow → s.m_w.getD i 0 = s.w_mbt.getD i 0 * s.factor.getD i 0 * 0.35) :=
  ⟨_, by with_unfolding_all rfl,
    (track_hands_back_estimator_weights (exEnv 0) (exFrameEnv none 4)
      (exTracker [exLine 4] [exKlt 4] .GAUSS_NEWTON_OPT 5)
      (exTracker [exLine 4] [exKlt 4] .GAUSS_NEWTON_OPT 5) (exMembers 2 [] [])
      { exMembers 2 [] [] with w_klt := List.replicate 8 1 } 4 _
      (by with_unfolding_all rfl) (by with_unfolding_all rfl) (by with_unfolding_all rfl)
      (by decide) (by decide) (by decide)).2.2.1⟩

/-! ## The contour weights read by the reconciliation (C21) -/

/-- When the attenuation pass counts fewer than 4 contour rows and `computeVVS` returns, there
are at least 4 points, the contour row count of the solve is 0, and the argument `w_mbt` is
handed back exactly as it was passed in (it is never resized). -/
theorem computeVVS_reset_keeps_w_mbt {env : Collaborators Pose} {t : Tracker Pose}
    {lvl fuel : Nat} {m : Members Pose} {nbInfos nbrow : Nat} {factor : ColVector}
    {sF : LoopState Pose}
    (hf : trackFirstLoop t [] lvl = .ok (nbrow, factor)) (hrow : nbrow < 4)
    (h : computeVVS env t lvl fuel m nbInfos = some (.returned sF)) :
    4 ≤ nbInfos ∧ sF.nbrow = 0 ∧ sF.w_mbt = m.w_mbt := by
  obtain ⟨s0, k, s, h0, hk, -, rfl⟩ := computeVVS_returned h
  obtain ⟨nbrow0, factor0, hf0, hguard, hs0⟩ := vvsInit_ok h0
  rw [hf] at hf0
  cases hf0
  obtain ⟨-, v2, -, -, -, v6, -⟩ := finishCovariance_weights env t s
  obtain ⟨⟨a1, -⟩, -⟩ := vvsIterate_iter k _ _ hk
  obtain ⟨⟨-, -, -, -, -, -, p7, -⟩, -⟩ := vvsIterate_rowInvariant h0 hk
  obtain ⟨-, -, i3, -⟩ := initState_shares env m (if nbrow < 4 then 0 else nbrow) nbInfos factor
  have hz : s.nbrow = 0 := by
    rw [a1, hs0, i3, if_pos hrow]
  refine ⟨?_, by rw [v6, hz], by rw [v2, p7 hz]⟩
  by_contra hlt
  exact hguard ⟨hrow, by omega⟩

/-- With an empty weight vector, `postTrackingMbt` returns only when it reads no weight at all:
every tracked line has no feature in its moving-edge lines, and every tracked cylinder and
circle has no feature.  Any read is out of range. -/
theorem postTrackingMbt_empty_weights {t : Tracker Pose} {lvl : Nat}
    {ls : List (DistanceLine Pose)} {cys : List (DistanceCylinder Pose)}
    {cis : List (DistanceCircle Pose)}
    (h : postTrackingMbt t [] lvl = .ok (ls, cys, cis)) :
    (∀ l ∈ t.lines lvl, l.isTracked = true → (l.nbFeature.take l.meline.length).sum = 0) ∧
    (∀ cy ∈ t.cylinders lvl, cy.isTracked = true → cy.nbFeature = 0 ∧ cy.nbFeaturel1 = 0) ∧
    (∀ ci ∈ t.circles lvl, ci.isTracked = true → ci.nbFeature = 0) := by
  obtain ⟨-, -, -, -, hl, hcy, hci⟩ := postTrackingMbt_ok h
  refine ⟨?_, ?_, ?_⟩
  · intro l hmem ht
    obtain ⟨j, hj⟩ := List.get?_of_mem hmem
    obtain ⟨l1, -, -, e3⟩ := hl j l hj
    obtain ⟨-, -, -, -, -, i6⟩ := verdictLine_ok (e3 ht)
    by_contra hne
    have := i6 hne
    simp only [List.length_nil] at this
    omega
  · intro cy hmem ht
    obtain ⟨j, hj⟩ := List.get?_of_mem hmem
    obtain ⟨cy1, -, -, e3⟩ := hcy j cy hj
    obtain ⟨-, -, -, -, -, -, -, i8, i9⟩ := verdictCylinder_ok (e3 ht)
    have h1 : cy.nbFeaturel1 = 0 := by
      by_contra hne
      have := i8 hne
      simp only [List.length_nil] at this
      omega
    have h2 : cy.nbFeature - cy.nbFeaturel1 = 0 := by
      by_contra hne
      have := i9 hne
      simp only [List.length_nil] at this
      omega
    exact ⟨by omega, h1⟩
  · intro ci hmem ht
    obtain ⟨j, hj⟩ := List.get?_of_mem hmem
    obtain ⟨ci1, -, -, e3⟩ := hci j ci hj
    obtain ⟨-, -, -, -, i5⟩ := verdictCircle_ok (e3 ht)
    by_contra hne
    have := i5 hne
    simp only [List.length_nil] at this
    omega

/-- C21, failing input. One visible tracked line with 2 sites and 4 tracked points.  The
attenuation pass counts 2 contour rows; `computeVVS` resets its contour row count to 0, returns
normally, and hands back `w_mbt` with length 0, as `track` passed it.  `postTrackingMbt` then
walks the tracked line and reads `w[0]` for its first site: index 0 is not smaller than the
length 0, an out-of-range read, with which `track` ends. -/
theorem track_reads_contour_weights_out_of_range :
    trackFirstLoop (exTracker [exLine 2] [exKlt 4] .GAUSS_NEWTON_OPT 5) [] 0
      = .ok (2, [1, 1]) ∧
    (∃ s, computeVVS (exEnv 0) (exTracker [exLine 2] [exKlt 4] .GAUSS_NEWTON_OPT 5) 0 5
        { exMembers 2 [] [] with w_klt := List.replicate 8 1 } 4 = some (.returned s) ∧
      s.nbrow = 0 ∧ s.nbInfos = 4 ∧ s.w_mbt = [] ∧ s.w_mbt.length = 0) ∧
    postTrackingMbt (exTracker [exLine 2] [exKlt 4] .GAUSS_NEWTON_OPT 5) [] 0
      = .error .undefinedBehaviour ∧
    track (exEnv 0) (exFrameEnv none 4) (exTracker [exLine 2] [exKlt 4] .GAUSS_NEWTON_OPT 5)
        (exMembers 2 [] []) = some (.error .undefinedBehaviour) := by
  refine ⟨by with_unfolding_all rfl,
    ⟨_, by with_unfolding_all rfl, by with_unfolding_all rfl, by with_unfolding_all rfl,
      by with_unfolding_all rfl, by with_unfolding_all rfl⟩,
    by with_unfolding_all rfl, by with_unfolding_all rfl⟩

/-! ## The calls that `track` makes (C2, C5) -/

/-- What `track` passes on to the fused solve: a point count that is 0 or at least 4, and an
empty `w_klt` when the count is 0. -/
theorem pointSolve_ok {fenv : FrameCollaborators Pose} {t : Tracker Pose} {m m1 : Members Pose}
    {k n : Nat} (h : pointSolve fenv t m k = .ok (m1, n)) :
    (n = 0 ∨ 4 ≤ n) ∧ (n = 0 → m1.w_klt = []) := by
  unfold pointSolve at h
  split at h
  · rename_i h4
    split at h
    · cases h
    · cases h
      exact ⟨Or.inr h4, fun hz => by omega⟩
  · cases h
    exact ⟨Or.inl rfl, fun _ => rfl⟩

/-- C2. Let `nbrow` be the contour row count returned by the attenuation pass, and let the point
count `nbInfos` be 0 or at least 4, as in every call of `computeVVS` (its only caller `track`
passes nothing else).  Then `computeVVS` raises the not-enough-data error exactly when the
total `nbrow + nbInfos` is below 4: with a total below 4 it is raised, with a total of at least
4 it is not raised, neither before the loop nor by an iteration.  The total counted in residual
rows, `nbrow + 2 * nbInfos`, is below 4 in exactly the same cases. -/
theorem computeVVS_notEnoughData_exactly_below_four (env : Collaborators Pose)
    (t : Tracker Pose) (lvl fuel : Nat) (m : Members Pose) (nbInfos nbrow : Nat)
    (factor : ColVector) (hrow : trackFirstLoop t [] lvl = .ok (nbrow, factor))
    (hinf : nbInfos = 0 ∨ 4 ≤ nbInfos) :
    (nbrow + nbInfos < 4 →
      computeVVS env t lvl fuel m nbInfos = some (.raised .notEnoughPointError m)) ∧
    (4 ≤ nbrow + nbInfos →
      ∀ m1, computeVVS env t lvl fuel m nbInfos ≠ some (.raised .notEnoughPointError m1)) ∧
    (nbrow + nbInfos < 4 ↔ nbrow + 2 * nbInfos < 4) ∧
    (∀ (fenv : FrameCollaborators Pose) (t0 : Tracker Pose) (m0 m1 : Members Pose) (k n : Nat),
      pointSolve fenv t0 m0 k = .ok (m1, n) → n = 0 ∨ 4 ≤ n) := by
  obtain ⟨g1, g2, -, g4⟩ := computeVVS_notEnoughData_iff env t lvl fuel m nbInfos nbrow factor hrow
  refine ⟨fun hlt => g1 ((g4 hinf).2 hlt), fun hge => g2 (fun hboth => ?_), ?_,
    fun fenv t0 m0 m1 k n hp => (pointSolve_ok hp).1⟩
  · have := (g4 hinf).1 hboth
    omega
  · rcases hinf with hz | hz <;> omega

/-- Witness of C2: with no tracked point, a line of 3 sites (total 3) raises the error and a
line of 4 sites (total 4) does not. -/
theorem computeVVS_notEnoughData_exactly_below_four_witness :
    computeVVS (exEnv 0) (exTracker [exLine 3] [] .GAUSS_NEWTON_OPT 200) 0 200
      (exMembers 5 [] []) 0 = some (.raised .notEnoughPointError (exMembers 5 [] [])) ∧
    ∀ m1, computeVVS (exEnv 0) (exTracker [exLine 4] [] .GAUSS_NEWTON_OPT 200) 0 200
      (exMembers 5 [] []) 0 ≠ some (.raised .notEnoughPointError m1) :=
  ⟨(computeVVS_notEnoughData_exactly_below_four (exEnv 0)
      (exTracker [exLine 3] [] .GAUSS_NEWTON_OPT 200) 0 200 (exMembers 5 [] []) 0 3 [1, 1, 1]
      (by rfl) (Or.inl rfl)).1 (by decide),
    (computeVVS_notEnoughData_exactly_below_four (exEnv 0)
      (exTracker [exLine 4] [] .GAUSS_NEWTON_OPT 200) 0 200 (exMembers 5 [] []) 0 4
      [1, 1, 1, 1] (by rfl) (Or.inl rfl)).2.1 (by decide)⟩

/-- C5. For every call of `computeVVS` as `track` makes it (the contour weight argument `w_mbt`
is passed in empty, and so is the point weight argument `w_klt` when there is no point), in
every state that the loop reaches after a completed iteration, so for every input on which the
call does not raise and after every iteration: within each modality block the interaction
matrix, the residual vector and the weight vector have the same number of rows, `nbrow` for the
contours and `2 * nbInfos` for the points. -/
theorem computeVVS_row_counts_agree (env : Collaborators Pose) (t : Tracker Pose) (lvl : Nat)
    (m : Members Pose) (nbInfos k : Nat) (s0 s : LoopState Pose)
    (hw : m.w_mbt = []) (hk0 : nbInfos = 0 → m.w_klt = [])
    (h0 : vvsInit env t lvl m nbInfos = .ok s0)
    (hk : vvsIterate env t lvl (k + 1) s0 = some s) :
    (s.L_mbt.length = s.nbrow ∧ s.R_mbt.length = s.nbrow ∧ s.w_mbt.length = s.nbrow) ∧
    (s.L_klt.length = 2 * nbInfos ∧ s.R_klt.length = 2 * nbInfos ∧
      s.w_klt.length = 2 * nbInfos) ∧
    (s.L_mbt.length = s.R_mbt.length ∧ s.R_mbt.length = s.w_mbt.length ∧
      s.L_klt.length = s.R_klt.length ∧ s.R_klt.length = s.w_klt.length) ∧
    (∀ (fenv : FrameCollaborators Pose) (t0 : Tracker Pose) (m0 m1 : Members Pose) (k0 n : Nat),
      pointSolve fenv t0 m0 k0 = .ok (m1, n) →
        ({ m1 with w_mbt := [] } : Members Pose).w_mbt = [] ∧
        (n = 0 → ({ m1 with w_mbt := [] } : Members Pose).w_klt = [])) := by
  obtain ⟨⟨a1, a2, -, -, a5⟩, -, b2, b3, b4, b5, -⟩ :=
    computeVVS_row_counts env t lvl m nbInfos k s0 s h0 hk
  have hwm : s.w_mbt.length = s.nbrow := a5 hw
  have hwk : s.w_klt.length = 2 * nbInfos := by
    by_cases hz : nbInfos = 0
    · rw [b5 hz, hk0 hz, hz]
      rfl
    · exact b4 hz
  refine ⟨⟨a1, a2, hwm⟩, ⟨b2, b3, hwk⟩, ⟨by omega, by omega, by omega, by omega⟩,
    fun fenv t0 m0 m1 k0 n hp => ⟨rfl, (pointSolve_ok hp).2⟩⟩

/-- Witness of C5: 4 contour rows and 4 tracked points, one iteration; the contour block has 4
rows and the point block 8 rows in all three of matrix, residual and weights. -/
theorem computeVVS_row_counts_agree_witness :
    ∃ s, vvsIterate (exEnv (-1)) (exTracker [exLine 4] [exKlt 4] .LEVENBERG_MARQUARDT_OPT 5) 0 1
        (initState (exEnv (-1)) (exMembers 1 [] []) 4 4 [1, 1, 1, 1]) = some s ∧
      (s.L_mbt.length = s.nbrow ∧ s.R_mbt.length = s.nbrow ∧ s.w_mbt.length = s.nbrow) ∧
      s.nbrow = 4 ∧ s.w_klt.length = 8 :=
  ⟨_, by with_unfolding_all rfl,
    (computeVVS_row_counts_agree (exEnv (-1))
      (exTracker [exLine 4] [exKlt 4] .LEVENBERG_MARQUARDT_OPT 5) 0 (exMembers 1 [] []) 4 0
      _ _ rfl (fun _ => rfl) (by with_unfolding_all rfl) (by with_unfolding_all rfl)).1,
    by with_unfolding_all rfl, by with_unfolding_all rfl⟩

end VpMbEdgeKltTracker
